import Mathlib

/-!
# Meetify: booking store and slot calculator

A shallow embedding of `src/util/database.js` (the SQLite-backed store) and of the
time utilities and slot calculator of `src/screens/BookingScreen.js`, followed by the
properties of the specification settled against them.

Modelling conventions.

* A table is the list of its rows in rowid order: `INSERT` appends, a `SELECT` without
  `ORDER BY` scans the list front to back, `getFirstAsync` returns the first match.
* `TEXT` values are `String`s; SQLite compares them bytewise (BINARY collation), which for
  UTF-8 is the order of the code points, the order of `String` in Lean.
* The store is open and every statement reaches it; the only way a statement fails is
  by violating a constraint of the schema declared in `init`.
-/

namespace Meetify

/-! ## Schema (`init`) -/

/-- A row of `users(id PRIMARY KEY, email UNIQUE, name, password, department)`. -/
structure UserRow where
  id : String
  email : String
  name : String
  password : String
  department : String
deriving DecidableEq, Repr

/-- A row of `rooms(id PRIMARY KEY, name, capacity, floor, amenities)`. -/
structure RoomRow where
  id : String
  name : String
  capacity : Int
  floor : String
  amenities : String
deriving DecidableEq, Repr

/-- A row of `bookings(id PRIMARY KEY, user_id, room_id, title, description, date,
start_time, end_time, status)`. -/
structure BookingRow where
  id : String
  user_id : String
  room_id : String
  title : String
  description : String
  date : String
  start_time : String
  end_time : String
  status : String
deriving DecidableEq, Repr

/-- The three tables behind the module-level `database` handle. -/
structure Database where
  users : List UserRow
  rooms : List RoomRow
  bookings : List BookingRow
deriving DecidableEq, Repr

/-- The object handed to `createBooking`; `description` may be absent (`undefined`). -/
structure BookingData where
  id : String
  roomId : String
  userId : String
  title : String
  description : Option String
  date : String
  startTime : String
  endTime : String
deriving DecidableEq, Repr

/-- What an operation on the store throws. -/
inductive Thrown where
  /-- Raised by the code itself: `throw new Error(message)`. -/
  | error (message : String)
  /-- Raised by the store: the statement violates a constraint of the schema. -/
  | constraintViolation
  /-- Raised by the engine: a `TypeError`, such as a method call on `undefined`. -/
  | typeError
deriving DecidableEq, Repr

/-! ## `createBooking` -/

/-- The `WHERE` clause of the conflict query of `createBooking`, with its six parameters
`[roomId, date, startTime, startTime, endTime, endTime]` substituted. -/
def conflictWhere (roomId date startTime endTime : String) (b : BookingRow) : Bool :=
  decide (b.room_id = roomId) && decide (b.date = date) && decide (b.status = "confirmed") &&
    ((decide (b.start_time ≤ startTime) && decide (b.end_time > startTime)) ||
     (decide (b.start_time < endTime) && decide (b.end_time ≥ endTime)))

/-- The conflict query: `getFirstAsync` of the `SELECT` over `bookings`. -/
def findConflict (db : Database) (data : BookingData) : Option BookingRow :=
  db.bookings.find? (conflictWhere data.roomId data.date data.startTime data.endTime)

/-- The JavaScript expression `description || ''`. -/
def descriptionOrEmpty : Option String → String
  | none => ""
  | some s => if s = "" then "" else s

/-- The row written by the `INSERT` of `createBooking`. -/
def insertedRow (data : BookingData) : BookingRow where
  id := data.id
  user_id := data.userId
  room_id := data.roomId
  title := data.title
  description := descriptionOrEmpty data.description
  date := data.date
  start_time := data.startTime
  end_time := data.endTime
  status := "confirmed"

/-- The message of the error thrown on a conflict. -/
def conflictMessage (conflict : BookingRow) : String :=
  "Room is already booked from " ++ conflict.start_time ++ " to " ++ conflict.end_time

/-- `INSERT INTO bookings`: refused when the primary key `id` is already present. -/
def insertBooking (db : Database) (row : BookingRow) : Except Thrown Unit × Database :=
  if db.bookings.any (fun b => decide (b.id = row.id)) then
    (Except.error Thrown.constraintViolation, db)
  else
    (Except.ok (), { db with bookings := db.bookings ++ [row] })

/-- `createBooking(bookingData)`: the outcome of the call and the store after it. -/
def createBooking (db : Database) (data : BookingData) : Except Thrown Unit × Database :=
  match findConflict db data with
  | some conflict => (Except.error (Thrown.error (conflictMessage conflict)), db)
  | none => insertBooking db (insertedRow data)

/-! ## Queries and status changes -/

/-- `getDayBookings(roomId, date)`: confirmed bookings of the room and date,
`ORDER BY start_time`. -/
def getDayBookings (db : Database) (roomId date : String) : List BookingRow :=
  (db.bookings.filter (fun b =>
      decide (b.room_id = roomId) && decide (b.date = date) &&
        decide (b.status = "confirmed"))).insertionSort
    (fun a b => a.start_time ≤ b.start_time)

/-- `cancelBooking(bookingId)`: `UPDATE bookings SET status = 'cancelled' WHERE id = ?`. -/
def cancelBooking (db : Database) (bookingId : String) : Except Thrown Unit × Database :=
  (Except.ok (),
    { db with bookings := db.bookings.map (fun b =>
        if b.id = bookingId then { b with status := "cancelled" } else b) })

/-- `deleteBooking(bookingId)`: `DELETE FROM bookings WHERE id = ?`. -/
def deleteBooking (db : Database) (bookingId : String) : Except Thrown Unit × Database :=
  (Except.ok (), { db with bookings := db.bookings.filter (fun b => !decide (b.id = bookingId)) })

/-- The calls that change the bookings table. -/
inductive StoreCall where
  | create (data : BookingData)
  | cancel (bookingId : String)
  | delete (bookingId : String)
deriving DecidableEq, Repr

/-- The store after one call (whatever the call returned or threw). -/
def StoreCall.run (db : Database) : StoreCall → Database
  | StoreCall.create data => (createBooking db data).2
  | StoreCall.cancel bookingId => (cancelBooking db bookingId).2
  | StoreCall.delete bookingId => (deleteBooking db bookingId).2

/-- The store after a sequence of calls. -/
def runCalls (db : Database) (calls : List StoreCall) : Database :=
  calls.foldl StoreCall.run db

/-- The store right after `init` on a fresh device: three empty tables. -/
def emptyDatabase : Database := { users := [], rooms := [], bookings := [] }

/-! ## Vocabulary of the specification -/

/-- The overlap rule of the specification for an existing row and a requested interval:
`existing.start < new.end AND existing.end > new.start`. -/
def Overlaps (existing : BookingRow) (startTime endTime : String) : Prop :=
  existing.start_time < endTime ∧ existing.end_time > startTime

instance (existing : BookingRow) (startTime endTime : String) :
    Decidable (Overlaps existing startTime endTime) := by
  unfold Overlaps; infer_instance

/-- A confirmed row of the given room and date. -/
def ConfirmedFor (roomId date : String) (b : BookingRow) : Prop :=
  b.room_id = roomId ∧ b.date = date ∧ b.status = "confirmed"

instance (roomId date : String) (b : BookingRow) : Decidable (ConfirmedFor roomId date b) := by
  unfold ConfirmedFor; infer_instance

/-- The invariant of the bookings table: no two confirmed rows of the same room and date
have overlapping half-open intervals. -/
def NoConfirmedOverlap (db : Database) : Prop :=
  db.bookings.Pairwise (fun a b =>
    a.status = "confirmed" → b.status = "confirmed" → a.room_id = b.room_id →
      a.date = b.date → ¬ Overlaps a b.start_time b.end_time)

instance (db : Database) : Decidable (NoConfirmedOverlap db) := by
  unfold NoConfirmedOverlap; infer_instance

deriving instance DecidableEq for Except

/-! ## JavaScript numbers

A JavaScript number is an IEEE-754 binary64 value. The finite ones are rationals, and every
arithmetic operation returns the exact result rounded to the nearest double, ties to even.
The slot calculator only meets finite values far below the overflow threshold, so a number
is modelled by the rational it denotes and each operation rounds explicitly. -/

/-- The integer nearest to `q`, the even one on a tie. -/
def roundTiesEven (q : ℚ) : ℤ :=
  if q - ⌊q⌋ < 1 / 2 then ⌊q⌋
  else if 1 / 2 < q - ⌊q⌋ then ⌊q⌋ + 1
  else if ⌊q⌋ % 2 = 0 then ⌊q⌋ else ⌊q⌋ + 1

/-- For `x > 0`, the exponent `e` with `2 ^ e ≤ x < 2 ^ (e + 1)`. -/
def floorLog2 (x : ℚ) : ℤ :=
  if 1 ≤ x then (Nat.log2 ⌊x⌋₊ : ℤ)
  else if ⌈x⁻¹⌉₊ ≤ 1 then 0 else -((Nat.log2 (⌈x⁻¹⌉₊ - 1) : ℤ) + 1)

/-- The exponent of the unit in the last place of the doubles around `x`: 52 below the
exponent of `x`, and that of the subnormal numbers below `2 ^ (-1022)`. -/
def ulpExponent (x : ℚ) : ℤ := max (floorLog2 |x|) (-1022) - 52

/-- The double nearest to `x`, ties to even (for `|x|` below the overflow threshold). -/
def roundDouble (x : ℚ) : ℚ :=
  if x = 0 then 0 else roundTiesEven (x / 2 ^ ulpExponent x) * 2 ^ ulpExponent x

/-- The JavaScript `a + b`. -/
def jsAdd (a b : ℚ) : ℚ := roundDouble (a + b)

/-- The JavaScript `a - b`. -/
def jsSub (a b : ℚ) : ℚ := roundDouble (a - b)

/-- The JavaScript `a * b`. -/
def jsMul (a b : ℚ) : ℚ := roundDouble (a * b)

/-- The JavaScript `a / b` for `b ≠ 0`. -/
def jsDiv (a b : ℚ) : ℚ := roundDouble (a / b)

/-- The JavaScript `Math.round(x)`: the nearest integer, the larger one on a tie. -/
def mathRound (x : ℚ) : ℤ := ⌊x + 1 / 2⌋

/-! ## Time utilities (`BookingScreen.js`) -/

/-- The value of a decimal digit. -/
def digitValue (c : Char) : ℕ := c.toNat - 48

/-- The ECMAScript `WhiteSpace` and `LineTerminator` code points removed by `trim`. -/
def isJsWhiteSpace (c : Char) : Bool :=
  c.toNat ∈ [0x09, 0x0A, 0x0B, 0x0C, 0x0D, 0x20, 0xA0, 0x1680, 0x2000, 0x2001, 0x2002,
    0x2003, 0x2004, 0x2005, 0x2006, 0x2007, 0x2008, 0x2009, 0x200A, 0x2028, 0x2029, 0x202F,
    0x205F, 0x3000, 0xFEFF]

/-- The JavaScript `s.trim()`, on the characters of `s`. -/
def jsTrim (s : List Char) : List Char :=
  ((s.dropWhile isJsWhiteSpace).reverse.dropWhile isJsWhiteSpace).reverse

/-- The test of `timeRegex = /^([0-1]?[0-9]|2[0-3]):[0-5][0-9]$/`. -/
def timeRegexTest : List Char → Bool
  | [h, ':', m1, m2] => h.isDigit && ('0' ≤ m1 && m1 ≤ '5') && m2.isDigit
  | [h1, h2, ':', m1, m2] =>
      ((('0' ≤ h1 && h1 ≤ '1') && h2.isDigit) || (h1 == '2' && ('0' ≤ h2 && h2 ≤ '3'))) &&
        ('0' ≤ m1 && m1 ≤ '5') && m2.isDigit
  | _ => false

/-- The `[hours, minutes]` of `time.split(':').map(Number)` for a string that passed
`timeRegexTest`. -/
def splitHoursMinutes : List Char → ℕ × ℕ
  | [h, ':', m1, m2] => (digitValue h, 10 * digitValue m1 + digitValue m2)
  | [h1, h2, ':', m1, m2] =>
      (10 * digitValue h1 + digitValue h2, 10 * digitValue m1 + digitValue m2)
  | _ => (0, 0)

/-- `isValidTime(timeString)`; `none` is `undefined`. -/
def isValidTime : Option String → Bool
  | none => false
  | some timeString =>
      if timeString = "" ∨ jsTrim timeString.data = [] then false
      else if !timeRegexTest (jsTrim timeString.data) then false
      else
        let hm := splitHoursMinutes (jsTrim timeString.data)
        if hm.1 < 0 ∨ hm.1 > 23 ∨ hm.2 < 0 ∨ hm.2 > 59 then false
        else if hm.1 < 9 ∨ hm.1 > 20 then false
        else true

/-! ## Dates

`calculateAvailableSlots` builds the date-time string `dateString + 'T' + time + ':00'` and
hands it to `new Date`. `dateString` is a valid `YYYY-MM-DD` date, so the string is in the
ECMAScript date-time format exactly when `time` is `HH:mm` with `HH` from `00` to `23` and
`mm` from `00` to `59`, or `24:00`; it then denotes local time. A `Date` of that day (or the
midnight ending it) is modelled by its number of minutes after the local midnight starting
that day, on a day without a daylight-saving shift. -/

/-- The `Date` of `new Date(dateString + 'T' + time + ':00')`, `none` when the string is not
in the date-time format (an Invalid Date or an engine-specific reading). -/
def parseClock (time : String) : Option ℕ :=
  match time.data with
  | [h1, h2, ':', m1, m2] =>
      if h1.isDigit ∧ h2.isDigit ∧ m1.isDigit ∧ m2.isDigit ∧
          ((10 * digitValue h1 + digitValue h2 ≤ 23 ∧ 10 * digitValue m1 + digitValue m2 ≤ 59) ∨
           (10 * digitValue h1 + digitValue h2 = 24 ∧ 10 * digitValue m1 + digitValue m2 = 0)) then
        some (60 * (10 * digitValue h1 + digitValue h2) + (10 * digitValue m1 + digitValue m2))
      else none
  | _ => none

/-- The method `getHours()` of a `Date`. -/
def getHours (date : ℕ) : ℕ := date / 60 % 24

/-- The method `getMinutes()` of a `Date`. -/
def getMinutes (date : ℕ) : ℕ := date % 60

/-- The expression `date.getHours() + date.getMinutes() / 60`. -/
def hoursOf (date : ℕ) : ℚ := jsAdd (getHours date) (jsDiv (getMinutes date) 60)

/-! ## Slot calculator (`calculateAvailableSlots`) -/

/-- An available slot. -/
structure Slot where
  start : String
  end_ : String
  startHour : ℚ
  endHour : ℚ
deriving DecidableEq, Repr

/-- An element of `formattedBookings`, its two date-time strings already read as `Date`s. -/
structure FormattedBooking where
  startTime : ℕ
  endTime : ℕ
  roomId : String
  status : String
deriving DecidableEq, Repr

/-- The constant `businessStart`. -/
def businessStart : ℚ := 9

/-- The constant `businessEnd`. -/
def businessEnd : ℚ := 20

/-- The constant `slotDuration`. -/
def slotDuration : ℚ := 1 / 2

/-- The JavaScript `s.length`: the number of UTF-16 code units of `s`. -/
def jsLength (s : String) : ℕ :=
  (s.data.map (fun c => if c.toNat < 0x10000 then 1 else 2)).sum

/-- The JavaScript `s.padStart(2, '0')`. -/
def padStart2 (s : String) : String :=
  String.mk (List.replicate (2 - jsLength s) '0') ++ s

/-- `formatTime(hour)`. -/
def formatTime (hour : ℚ) : String :=
  padStart2 (toString ⌊hour⌋) ++ ":" ++
    padStart2 (toString (mathRound (jsMul (jsSub hour ⌊hour⌋) 60)))

/-- The slot pushed for a free interval. -/
def mkSlot (startHour endHour : ℚ) : Slot where
  start := formatTime startHour
  end_ := formatTime endHour
  startHour := startHour
  endHour := endHour

/-- The element of `formattedBookings` for a row, when its two times are date-times. -/
def formatBooking (booking : BookingRow) : Option FormattedBooking :=
  match parseClock booking.start_time, parseClock booking.end_time with
  | some s, some e =>
      some { startTime := s, endTime := e, roomId := booking.room_id, status := booking.status }
  | _, _ => none

/-- The list `formattedBookings`, when every time of every row is a date-time. -/
def formatBookings : List BookingRow → Option (List FormattedBooking)
  | [] => some []
  | booking :: rest =>
      match formatBooking booking, formatBookings rest with
      | some fb, some fbs => some (fb :: fbs)
      | _, _ => none

/-- The `for` loop over the sorted bookings, started with the given `currentTime`, followed by
the final test against `businessEnd`: the slots pushed. -/
def slotsFrom (currentTime : ℚ) : List FormattedBooking → List Slot
  | [] =>
      if jsAdd currentTime slotDuration ≤ businessEnd then [mkSlot currentTime businessEnd]
      else []
  | booking :: rest =>
      (if jsAdd currentTime slotDuration ≤ hoursOf booking.startTime then
          [mkSlot currentTime (hoursOf booking.startTime)]
        else []) ++
        slotsFrom (max currentTime (hoursOf booking.endTime)) rest

/-- `calculateAvailableSlots(bookings)`. The result is `none` when some `start_time` or
`end_time` is not a date-time: the outcome then hangs on how the engine sorts with a
comparator that returns `NaN`, which is outside this model. The sort is stable. -/
def calculateAvailableSlots (bookings : List BookingRow) : Option (List Slot) :=
  (formatBookings bookings).map (fun formattedBookings =>
    slotsFrom businessStart
      (formattedBookings.insertionSort (fun a b => a.startTime ≤ b.startTime)))

/-! ## Vocabulary for the slot calculator -/

/-- Clock readings of a row: `start_time` and `end_time` are times of day `HH:mm` between
`00:00` and `23:59`, namely minute `s` and minute `e` of the day. -/
def HasTimes (b : BookingRow) (s e : ℕ) : Prop :=
  parseClock b.start_time = some s ∧ parseClock b.end_time = some e ∧ s < 1440 ∧ e < 1440

/-- The instant `x` (in hours) lies in the slot `[startHour, endHour)`. -/
def InSlot (x : ℚ) (sl : Slot) : Prop := sl.startHour ≤ x ∧ x < sl.endHour

/-- The instant `x` (in hours) lies in the booking, between the hour values that the slot
calculator computes for its start and its end. -/
def InBooking (x : ℚ) (b : BookingRow) : Prop :=
  match parseClock b.start_time, parseClock b.end_time with
  | some s, some e => hoursOf s ≤ x ∧ x < hoursOf e
  | _, _ => False

instance (x : ℚ) (sl : Slot) : Decidable (InSlot x sl) := by unfold InSlot; infer_instance

instance (x : ℚ) (b : BookingRow) : Decidable (InBooking x b) := by
  unfold InBooking; split <;> infer_instance

instance : IsTotal FormattedBooking (fun a b => a.startTime ≤ b.startTime) :=
  ⟨fun a b => le_total a.startTime b.startTime⟩

instance : IsTrans FormattedBooking (fun a b => a.startTime ≤ b.startTime) :=
  ⟨fun _ _ _ hab hbc => le_trans hab hbc⟩

/-- The test `currentTime + slotDuration <= bookingStart` of the slot calculator when
`currentTime` and `bookingStart` are the hour values of minute `c` and minute `s` of the
day. -/
def Offered (c s : ℕ) : Prop := jsAdd (hoursOf c) slotDuration ≤ hoursOf s

instance (c s : ℕ) : Decidable (Offered c s) := by unfold Offered; infer_instance

/-- The walk of `slotsFrom` told in minutes of the day: the pairs of minutes between which a
slot is pushed, `currentTime` being the hour value of minute `c`. -/
def slotMinutes (c : ℕ) : List FormattedBooking → List (ℕ × ℕ)
  | [] => if Offered c 1200 then [(c, 1200)] else []
  | b :: rest =>
      (if Offered c b.startTime then [(c, b.startTime)] else []) ++
        slotMinutes (max c b.endTime) rest

/-- The slot pushed between two minutes of the day. -/
def slotOfMinutes (p : ℕ × ℕ) : Slot := mkSlot (hoursOf p.1) (hoursOf p.2)

/-- The zero-padded `HH:MM` text of a minute of the day. -/
def clockString (t : ℕ) : String :=
  padStart2 (toString ((t / 60 : ℕ) : ℤ)) ++ ":" ++ padStart2 (toString ((t % 60 : ℕ) : ℤ))

/-- A store holding the given booking rows and nothing else. -/
def storeWith (rows : List BookingRow) : Database := { users := [], rooms := [], bookings := rows }

/-- The request of user `u1` titled `Sync`, without description, used in the examples. -/
def request (id roomId date startTime endTime : String) : BookingData where
  id := id
  roomId := roomId
  userId := "u1"
  title := "Sync"
  description := none
  date := date
  startTime := startTime
  endTime := endTime

/-- The confirmed row that `request` leaves in the table when it is accepted. -/
def confirmedRow (id roomId date startTime endTime : String) : BookingRow :=
  insertedRow (request id roomId date startTime endTime)

/-! ## Vocabulary for the time utilities -/

/-- The number written by a list of decimal digits. -/
def decimalValue (cs : List Char) : ℕ := cs.foldl (fun n c => 10 * n + digitValue c) 0

/-- The times that the specification lets `isValidTime` accept, on the characters of the
trimmed input: a 1- or 2-digit hour between 9 and 20, a colon, and a 2-digit minute between
00 and 59. -/
def BusinessTimeText (cs : List Char) : Prop :=
  ∃ hour minute : List Char, cs = hour ++ ':' :: minute ∧
    (hour.length = 1 ∨ hour.length = 2) ∧ (∀ c ∈ hour, c.isDigit = true) ∧
    minute.length = 2 ∧ (∀ c ∈ minute, c.isDigit = true) ∧
    9 ≤ decimalValue hour ∧ decimalValue hour ≤ 20 ∧ decimalValue minute ≤ 59


/-- The JavaScript `s.split(':')`, on the characters of `s`. -/
def splitColon : List Char → List (List Char)
  | [] => [[]]
  | c :: cs =>
      if c = ':' then [] :: splitColon cs
      else
        match splitColon cs with
        | part :: parts => (c :: part) :: parts
        | [] => [[c]]

/-- `normalizeTime(timeString)`; `none` is `undefined`. With no colon in the string `minutes`
is `undefined` and `minutes.padStart` throws a `TypeError`. -/
def normalizeTime : Option String → Except Thrown String
  | none => Except.ok ""
  | some timeString =>
      if timeString = "" then Except.ok ""
      else
        match splitColon timeString.data with
        | hours :: minutes :: _ =>
            Except.ok (padStart2 (String.mk hours) ++ ":" ++ padStart2 (String.mk minutes))
        | _ => Except.error Thrown.typeError

/-! ## Booking form (`handleBooking`, `onStartTimeChange`, `onEndTimeChange`) -/

/-- What the `Date` library answers while `handleBooking` runs. Instants are milliseconds
since the epoch. The fields are independent readings: nothing is assumed about how they
relate to one another. -/
structure DateEnv where
  /-- `today` after `today.setHours(0, 0, 0, 0)`: the local midnight that starts today. -/
  today : ℤ
  /-- `Date.now()` in the computation of `maxDate`. -/
  now : ℤ
  /-- The method `toDateString()` of a `Date`: the text of its local calendar day. -/
  toDateString : ℤ → String
  /-- `currentTime.getHours()`. -/
  currentHour : ℕ
  /-- `currentTime.getMinutes()`. -/
  currentMinute : ℕ
  /-- `Date.now()` in the construction of `bookingData`. -/
  submitNow : ℤ

/-- The state read by `handleBooking`. `dateString` is cut from `selectedDate.toISOString()`,
so it is a valid `YYYY-MM-DD` date, and `inputDate` is the `Date` that `new Date(dateString)`
yields for it. -/
structure BookingForm where
  dateString : String
  inputDate : ℤ
  startTime : String
  endTime : String
  title : String
  description : String
deriving DecidableEq, Repr

/-- What `handleBooking` leaves on the screen. -/
inductive Shown where
  /-- The call `Alert.alert(title, message)`. -/
  | alert (title message : String)
  /-- The call `Alert.alert('Booking Failed', error.message)` for the error caught. -/
  | bookingFailed (error : Thrown)
  /-- No alert: an error thrown outside the `try` block rejects the promise. -/
  | uncaught (error : Thrown)
deriving DecidableEq, Repr

/-- The outcome of `handleBooking`: what is shown, the argument of the call of
`createBooking` when there is one, and the store afterwards. -/
structure HandleResult where
  shown : Shown
  created : Option BookingData
  store : Database
deriving DecidableEq, Repr

/-- The time written to `startTime` by `onStartTimeChange` (and to `endTime` by
`onEndTimeChange`) for a picked time with the given `getHours()` and `getMinutes()`; `none`
when the handler shows its alert and leaves the state as it is. -/
def pickedTime (hours minutes : ℕ) : Option String :=
  if hours < 9 ∨ hours > 20 then none
  else some (padStart2 (toString hours) ++ ":" ++ padStart2 (toString minutes))

/-- The JavaScript `Number(s)` for a text of decimal digits with optional whitespace around
it, which every part of a time accepted by `isValidTime` is. -/
def jsNumber (cs : List Char) : ℕ := decimalValue (jsTrim cs)

/-- The pair `[hour, minute]` of `time.split(':').map(Number)` for a normalized time. -/
def numberParts (time : String) : ℕ × ℕ :=
  match splitColon time.data with
  | hours :: minutes :: _ => (jsNumber hours, jsNumber minutes)
  | _ => (0, 0)

/-- The test `new Date(endDateTime) <= new Date(startDateTime)` on the two date-time strings
built from `dateString`; it is false as soon as one of them is an Invalid Date. -/
def endNotAfterStart (normalizedStartTime normalizedEndTime : String) : Bool :=
  match parseClock normalizedEndTime, parseClock normalizedStartTime with
  | some e, some s => decide (e ≤ s)
  | _, _ => false

/-- The rejection of a request: an alert, no call of `createBooking`. -/
def rejectWith (db : Database) (title message : String) : HandleResult :=
  { shown := Shown.alert title message, created := none, store := db }

/-- The `try` block of `handleBooking`: the call of `createBooking` and the alert after it. -/
def submitBooking (db : Database) (bookingData : BookingData) : HandleResult :=
  match createBooking db bookingData with
  | (Except.ok _, db') =>
      { shown := Shown.alert "Success" "Room booked successfully!", created := some bookingData,
        store := db' }
  | (Except.error error, db') =>
      { shown := Shown.bookingFailed error, created := some bookingData, store := db' }

/-- `handleBooking()` for the room `roomId` and the signed-in user `userId`. -/
def handleBooking (env : DateEnv) (roomId userId : String) (form : BookingForm)
    (db : Database) : HandleResult :=
  if form.dateString = "" ∨ form.startTime = "" ∨ form.endTime = "" ∨ form.title = "" then
    rejectWith db "Error" "Please fill in all required fields"
  else if form.inputDate < env.today then
    rejectWith db "Invalid Date"
      "Cannot book rooms for past dates. Please select today or a future date."
  else if form.inputDate > env.now + 180 * 24 * 60 * 60 * 1000 then
    rejectWith db "Invalid Date" "Cannot book rooms more than 6 months in advance."
  else if jsLength form.description ≥ 100 then
    rejectWith db "Error" "Description should be less than 100 characters"
  else if !isValidTime (some form.startTime) then
    rejectWith db "Error" "Please enter valid start time (09:00 to 20:00)"
  else if !isValidTime (some form.endTime) then
    rejectWith db "Error" "Please enter valid end time (09:00 to 20:00)"
  else
    match normalizeTime (some form.startTime), normalizeTime (some form.endTime) with
    | Except.ok normalizedStartTime, Except.ok normalizedEndTime =>
        if env.toDateString form.inputDate = env.toDateString env.today ∧
            ((numberParts normalizedStartTime).1 < env.currentHour ∨
              ((numberParts normalizedStartTime).1 = env.currentHour ∧
                (numberParts normalizedStartTime).2 ≤ env.currentMinute)) then
          rejectWith db "Error" "Cannot book a time that has already passed today"
        else if env.toDateString form.inputDate = env.toDateString env.today ∧
            ((numberParts normalizedEndTime).1 < env.currentHour ∨
              ((numberParts normalizedEndTime).1 = env.currentHour ∧
                (numberParts normalizedEndTime).2 ≤ env.currentMinute)) then
          rejectWith db "Error" "End time cannot be in the past"
        else if endNotAfterStart normalizedStartTime normalizedEndTime then
          rejectWith db "Error" "End time must be after start time"
        else
          submitBooking db
            { id := toString env.submitNow, roomId := roomId, userId := userId,
              title := String.mk (jsTrim form.title.data),
              description := some (String.mk (jsTrim form.description.data)),
              date := form.dateString, startTime := normalizedStartTime,
              endTime := normalizedEndTime }
    | Except.error error, _ => { shown := Shown.uncaught error, created := none, store := db }
    | _, Except.error error => { shown := Shown.uncaught error, created := none, store := db }

/-! ## Vocabulary for the booking form -/

/-- A time that `onStartTimeChange` or `onEndTimeChange` can have written to the state. -/
def PickedTime (s : String) : Prop :=
  ∃ hours minutes, hours ≤ 23 ∧ minutes ≤ 59 ∧ pickedTime hours minutes = some s

/-- The invariant of the two time fields of the form: each is still `''`, its initial value,
or was written by its picker handler (the text inputs showing them are not editable). -/
def FormTimes (form : BookingForm) : Prop :=
  (form.startTime = "" ∨ PickedTime form.startTime) ∧
    (form.endTime = "" ∨ PickedTime form.endTime)

/-- The wall-clock minute of the day written by a time text `h:mm` or `hh:mm`, surrounding
whitespace aside. -/
def wallMinutes (time : String) : ℕ :=
  60 * (splitHoursMinutes (jsTrim time.data)).1 + (splitHoursMinutes (jsTrim time.data)).2

/-- The current wall-clock minute of the day. -/
def nowMinutes (env : DateEnv) : ℕ := 60 * env.currentHour + env.currentMinute

/-- The booking date is today. -/
def IsToday (env : DateEnv) (form : BookingForm) : Prop :=
  env.toDateString form.inputDate = env.toDateString env.today

instance (env : DateEnv) (form : BookingForm) : Decidable (IsToday env form) := by
  unfold IsToday; infer_instance

/-- The nine checks of the specification in their order, each with whether it fails for the
request and with the alert it raises. -/
def orderedChecks (env : DateEnv) (form : BookingForm) : List (Bool × Shown) :=
  [(decide (form.dateString = "" ∨ form.startTime = "" ∨ form.endTime = "" ∨ form.title = ""),
      Shown.alert "Error" "Please fill in all required fields"),
   (decide (form.inputDate < env.today),
      Shown.alert "Invalid Date"
        "Cannot book rooms for past dates. Please select today or a future date."),
   (decide (form.inputDate > env.now + 180 * 24 * 60 * 60 * 1000),
      Shown.alert "Invalid Date" "Cannot book rooms more than 6 months in advance."),
   (decide (100 ≤ jsLength form.description),
      Shown.alert "Error" "Description should be less than 100 characters"),
   (!isValidTime (some form.startTime),
      Shown.alert "Error" "Please enter valid start time (09:00 to 20:00)"),
   (!isValidTime (some form.endTime),
      Shown.alert "Error" "Please enter valid end time (09:00 to 20:00)"),
   (decide (IsToday env form ∧ wallMinutes form.startTime ≤ nowMinutes env),
      Shown.alert "Error" "Cannot book a time that has already passed today"),
   (decide (IsToday env form ∧ wallMinutes form.endTime ≤ nowMinutes env),
      Shown.alert "Error" "End time cannot be in the past"),
   (decide (wallMinutes form.endTime ≤ wallMinutes form.startTime),
      Shown.alert "Error" "End time must be after start time")]

/-- The alert of the first check, in the order of the specification, that fails. -/
def firstFailure (env : DateEnv) (form : BookingForm) : Option Shown :=
  ((orderedChecks env form).find? (fun check => check.1)).map (fun check => check.2)

/-- The booking that the form asks for: the entered title and description trimmed, the
date and the two times as they stand. -/
def requestedBooking (env : DateEnv) (roomId userId : String) (form : BookingForm) :
    BookingData where
  id := toString env.submitNow
  roomId := roomId
  userId := userId
  title := String.mk (jsTrim form.title.data)
  description := some (String.mk (jsTrim form.description.data))
  date := form.dateString
  startTime := form.startTime
  endTime := form.endTime

/-- A time text that carries no white space at either end whenever the validator accepts it.
Every text that a picker handler writes is of this kind, and so is every text that the
validator refuses. -/
def Unpadded (time : String) : Prop :=
  isValidTime (some time) = true → jsTrim time.data = time.data

instance (time : String) : Decidable (Unpadded time) := by unfold Unpadded; infer_instance

/-- The booking that the form asks for, its two times written as zero-padded `HH:MM`: the
entered title and description trimmed, the date as it stands. -/
def normalizedRequest (env : DateEnv) (roomId userId : String) (form : BookingForm) :
    BookingData where
  id := toString env.submitNow
  roomId := roomId
  userId := userId
  title := String.mk (jsTrim form.title.data)
  description := some (String.mk (jsTrim form.description.data))
  date := form.dateString
  startTime := clockString (wallMinutes form.startTime)
  endTime := clockString (wallMinutes form.endTime)

/-- What `handleBooking` shows after the call of `createBooking` with the given outcome. -/
def shownAfter : Except Thrown Unit → Shown
  | Except.ok _ => Shown.alert "Success" "Room booked successfully!"
  | Except.error error => Shown.bookingFailed error

/-- The decimal digit of a number below ten. -/
def digitChar (n : ℕ) : Char := Char.ofNat (48 + n)

/-- A clock for the examples: 15 January 2025, 10:00, in a zone where local time is UTC. -/
def exampleEnv : DateEnv where
  today := 1736899200000
  now := 1736935200000
  toDateString := fun t => toString (t / 86400000)
  currentHour := 10
  currentMinute := 0
  submitNow := 1736935200000

/-- A form for the examples, with an empty description. -/
def exampleForm (inputDate : ℤ) (dateString startTime endTime title : String) : BookingForm where
  dateString := dateString
  inputDate := inputDate
  startTime := startTime
  endTime := endTime
  title := title
  description := ""

/-! ## Users, rooms and the listing of a user's bookings (`database.js`) -/

/-- The object handed to `createUser`; `department` may be absent. -/
structure UserData where
  id : String
  email : String
  name : String
  password : String
  department : Option String
deriving DecidableEq, Repr

/-- The record returned by `createUser`: `{ id, email, name, department }`. -/
structure CreatedUser where
  id : String
  email : String
  name : String
  department : Option String
deriving DecidableEq, Repr

/-- The JavaScript expression `department || 'General'`. -/
def departmentOrGeneral : Option String → String
  | none => "General"
  | some s => if s = "" then "General" else s

/-- The row written by the `INSERT` of `createUser`. -/
def insertedUser (userData : UserData) : UserRow where
  id := userData.id
  email := userData.email
  name := userData.name
  password := userData.password
  department := departmentOrGeneral userData.department

/-- `createUser(userData)`: the store refuses the `INSERT` when the primary key `id` or the
unique `email` is already present, and the error is thrown on to the caller. -/
def createUser (db : Database) (userData : UserData) :
    Except Thrown CreatedUser × Database :=
  if db.users.any (fun u => decide (u.id = userData.id) || decide (u.email = userData.email)) then
    (Except.error Thrown.constraintViolation, db)
  else
    (Except.ok { id := userData.id, email := userData.email, name := userData.name,
                 department := userData.department },
      { db with users := db.users ++ [insertedUser userData] })

/-- `authenticateUser(email, password)`: the first row with that email and password, `none`
(`null`) when there is none. -/
def authenticateUser (db : Database) (email password : String) : Option UserRow :=
  db.users.find? (fun u => decide (u.email = email) && decide (u.password = password))

/-- A room as `getAllRooms` returns it: the row with `amenities` replaced by the value that
`JSON.parse` gives for its text. -/
structure Room (α : Type) where
  id : String
  name : String
  capacity : Int
  floor : String
  amenities : α
deriving DecidableEq, Repr

/-- The callback of `rooms.map` in `getAllRooms`; `none` when `JSON.parse` throws. -/
def decodeRoom {α : Type} (jsonParse : String → Option α) (room : RoomRow) : Option (Room α) :=
  (jsonParse room.amenities).map (fun amenities =>
    { id := room.id, name := room.name, capacity := room.capacity, floor := room.floor,
      amenities := amenities })

/-- The call `rooms.map(...)`: `none` when the callback throws for some room. -/
def decodeRooms {α : Type} (jsonParse : String → Option α) : List RoomRow → Option (List (Room α))
  | [] => some []
  | room :: rest =>
      match decodeRoom jsonParse room, decodeRooms jsonParse rest with
      | some decoded, some others => some (decoded :: others)
      | _, _ => none

/-- `getAllRooms()`, for the function `JSON.parse` of the engine (`none` where it throws a
`SyntaxError`) and for the outcome of the `SELECT * FROM rooms`. -/
def getAllRooms {α : Type} (jsonParse : String → Option α)
    (selected : Except Thrown (List RoomRow)) : List (Room α) :=
  match selected with
  | Except.error _ => []
  | Except.ok rooms =>
      match decodeRooms jsonParse rooms with
      | some decoded => decoded
      | none => []

/-- A row of the result of `getUserBookings`: the columns of the booking, then `room_name`
and `room_floor`. -/
structure UserBookingRow where
  booking : BookingRow
  room_name : String
  room_floor : String
deriving DecidableEq, Repr

/-- The order `ORDER BY b.date, b.start_time`. -/
def dateTimeLe (x y : UserBookingRow) : Prop :=
  x.booking.date < y.booking.date ∨
    (x.booking.date = y.booking.date ∧ x.booking.start_time ≤ y.booking.start_time)

instance : DecidableRel dateTimeLe := fun x y => by unfold dateTimeLe; infer_instance

/-- `getUserBookings(userId)`: the join of `bookings` with `rooms` on `b.room_id = r.id`,
restricted to the confirmed bookings of the user, `ORDER BY b.date, b.start_time`. -/
def getUserBookings (db : Database) (userId : String) : List UserBookingRow :=
  ((db.bookings.flatMap (fun b =>
      (db.rooms.filter (fun r => decide (b.room_id = r.id))).map (fun r =>
        ({ booking := b, room_name := r.name, room_floor := r.floor } : UserBookingRow)))).filter
    (fun row => decide (row.booking.user_id = userId) &&
      decide (row.booking.status = "confirmed"))).insertionSort dateTimeLe

/-! ## Session state (`userSlice.js`) -/

/-- The state of the `user` slice; `none` is `null`. -/
structure UserState (α : Type) where
  info : Option α
  token : Option String
deriving DecidableEq, Repr

/-- An action reaching the reducer of the slice. -/
inductive UserAction (α : Type) where
  /-- The action `login` with `payload.user` and `payload.token`. -/
  | login (user : Option α) (token : Option String)
  /-- The action `logout`. -/
  | logout
  /-- Any action of another type. -/
  | other (type : String)
deriving DecidableEq, Repr

/-- The `initialState` of the slice. -/
def initialUserState (α : Type) : UserState α := { info := none, token := none }

/-- The reducer exported by the slice: a case reducer for `login` and for `logout`; the
reducer built by `createSlice` returns the state it was given for every other action. The
removal of the two persisted entries by `logout` is not part of the state. -/
def userReducer {α : Type} (state : UserState α) : UserAction α → UserState α
  | UserAction.login user token => { info := user, token := token }
  | UserAction.logout => { info := none, token := none }
  | UserAction.other _ => state

instance : IsTotal BookingRow (fun a b => a.start_time ≤ b.start_time) :=
  ⟨fun a b => le_total a.start_time b.start_time⟩

instance : IsTrans BookingRow (fun a b => a.start_time ≤ b.start_time) :=
  ⟨fun _ _ _ hab hbc => le_trans hab hbc⟩

instance : IsTotal UserBookingRow dateTimeLe :=
  ⟨fun x y => by
    unfold dateTimeLe
    rcases lt_trichotomy x.booking.date y.booking.date with h | h | h
    · exact Or.inl (Or.inl h)
    · rcases le_total x.booking.start_time y.booking.start_time with h1 | h1
      · exact Or.inl (Or.inr ⟨h, h1⟩)
      · exact Or.inr (Or.inr ⟨h.symm, h1⟩)
    · exact Or.inr (Or.inl h)⟩

instance : IsTrans UserBookingRow dateTimeLe :=
  ⟨fun x y z hxy hyz => by
    unfold dateTimeLe at *
    rcases hxy with h1 | ⟨h1, h2⟩
    · rcases hyz with h3 | ⟨h3, _⟩
      · exact Or.inl (lt_trans h1 h3)
      · exact Or.inl (h3 ▸ h1)
    · rcases hyz with h3 | ⟨h3, h4⟩
      · exact Or.inl (h1 ▸ h3)
      · exact Or.inr ⟨h1.trans h3, le_trans h2 h4⟩⟩

end Meetify

namespace Meetify

/-! ## Properties of `createBooking` -/

/-- No row of the table passes the conflict query when every confirmed row of the room and
date ends at or before the requested start or begins at or after the requested end. -/
theorem findConflict_eq_none_of_free (db : Database) (data : BookingData)
    (hlt : data.startTime < data.endTime)
    (hfree : ∀ b ∈ db.bookings, ConfirmedFor data.roomId data.date b →
      b.end_time ≤ data.startTime ∨ data.endTime ≤ b.start_time) :
    findConflict db data = none := by
  unfold findConflict
  rw [List.find?_eq_none]
  intro b hb hw
  simp only [conflictWhere, Bool.and_eq_true, Bool.or_eq_true, decide_eq_true_eq] at hw
  obtain ⟨⟨⟨hr, hd⟩, hs⟩, hw⟩ := hw
  rcases hfree b hb ⟨hr, hd, hs⟩ with h | h
  · rcases hw with ⟨_, h2⟩ | ⟨_, h2⟩
    · exact absurd (lt_of_lt_of_le h2 h) (lt_irrefl _)
    · exact absurd (lt_of_lt_of_le (lt_of_lt_of_le hlt h2) h) (lt_irrefl _)
  · rcases hw with ⟨h1, _⟩ | ⟨h1, _⟩
    · exact absurd (lt_of_lt_of_le (lt_of_le_of_lt h1 hlt) h) (lt_irrefl _)
    · exact absurd (lt_of_lt_of_le h1 h) (lt_irrefl _)

/-- With no conflict and an unused id, `createBooking` succeeds and appends the row. -/
theorem createBooking_of_no_conflict (db : Database) (data : BookingData)
    (hnone : findConflict db data = none) (hid : ∀ b ∈ db.bookings, b.id ≠ data.id) :
    createBooking db data =
      (Except.ok (), { db with bookings := db.bookings ++ [insertedRow data] }) := by
  have hany : (db.bookings.any fun b => decide (b.id = (insertedRow data).id)) = false := by
    rw [List.any_eq_false]
    intro b hb
    simpa [insertedRow] using hid b hb
  simp [createBooking, hnone, insertBooking, hany]

/-- C1, on the code: the confirmed booking 10:00-11:00 lies strictly inside the requested
interval 09:00-12:00 of the same room and date, so the overlap rule
`existing.start_time < new.endTime AND existing.end_time > new.startTime` holds, and yet
`createBooking` finds no conflict and inserts the request. -/
theorem createBooking_accepts_request_enclosing_booking :
    "09:00" < "12:00" ∧
    ConfirmedFor "1" "2025-01-15" (confirmedRow "b1" "1" "2025-01-15" "10:00" "11:00") ∧
    Overlaps (confirmedRow "b1" "1" "2025-01-15" "10:00" "11:00") "09:00" "12:00" ∧
    createBooking (storeWith [confirmedRow "b1" "1" "2025-01-15" "10:00" "11:00"])
        (request "b2" "1" "2025-01-15" "09:00" "12:00") =
      (Except.ok (), storeWith [confirmedRow "b1" "1" "2025-01-15" "10:00" "11:00",
        confirmedRow "b2" "1" "2025-01-15" "09:00" "12:00"]) := by
  decide!

/-- C2, on the code: starting from the empty table, two accepted `createBooking` calls with
`startTime < endTime` (10:00-11:00, then 09:00-12:00 for the same room and date) leave two
confirmed rows whose intervals overlap, so the invariant of the bookings table is lost. -/
theorem runCalls_breaks_noConfirmedOverlap :
    NoConfirmedOverlap emptyDatabase ∧ "10:00" < "11:00" ∧ "09:00" < "12:00" ∧
    runCalls emptyDatabase
        [StoreCall.create (request "b1" "1" "2025-01-15" "10:00" "11:00"),
         StoreCall.create (request "b2" "1" "2025-01-15" "09:00" "12:00")] =
      storeWith [confirmedRow "b1" "1" "2025-01-15" "10:00" "11:00",
        confirmedRow "b2" "1" "2025-01-15" "09:00" "12:00"] ∧
    ¬ NoConfirmedOverlap (runCalls emptyDatabase
        [StoreCall.create (request "b1" "1" "2025-01-15" "10:00" "11:00"),
         StoreCall.create (request "b2" "1" "2025-01-15" "09:00" "12:00")]) := by
  decide!

/-- C3 as stated fails: the request 10:00-11:00 is adjacent to the only booking 09:00-10:00
of the room and date, but it reuses the id of that row, so the `INSERT` violates the
primary key and nothing is inserted. -/
theorem createBooking_adjacent_refused_on_used_id :
    "10:00" < "11:00" ∧
    (∀ b ∈ (storeWith [confirmedRow "b1" "1" "2025-01-15" "09:00" "10:00"]).bookings,
      ConfirmedFor "1" "2025-01-15" b → b.end_time ≤ "10:00" ∨ "11:00" ≤ b.start_time) ∧
    createBooking (storeWith [confirmedRow "b1" "1" "2025-01-15" "09:00" "10:00"])
        (request "b1" "1" "2025-01-15" "10:00" "11:00") =
      (Except.error Thrown.constraintViolation,
        storeWith [confirmedRow "b1" "1" "2025-01-15" "09:00" "10:00"]) := by
  decide!

/-- C3, amended: for every request with `startTime < endTime` whose id is not yet the id of a
row, if every confirmed booking of the same room and date ends at or before the requested
start or begins at or after the requested end, `createBooking` accepts the request and
appends its row to the table. -/
theorem createBooking_accepts_adjacent (db : Database) (data : BookingData)
    (hlt : data.startTime < data.endTime)
    (hfree : ∀ b ∈ db.bookings, ConfirmedFor data.roomId data.date b →
      b.end_time ≤ data.startTime ∨ data.endTime ≤ b.start_time)
    (hid : ∀ b ∈ db.bookings, b.id ≠ data.id) :
    createBooking db data =
      (Except.ok (), { db with bookings := db.bookings ++ [insertedRow data] }) :=
  createBooking_of_no_conflict db data (findConflict_eq_none_of_free db data hlt hfree) hid

/-- C3, the two examples: with the booking 09:00-10:00 in place, the requests 10:00-11:00 and
08:00-09:00 are accepted. -/
theorem createBooking_accepts_adjacent_witness :
    createBooking (storeWith [confirmedRow "b1" "1" "2025-01-15" "09:00" "10:00"])
        (request "b2" "1" "2025-01-15" "10:00" "11:00") =
      (Except.ok (), storeWith [confirmedRow "b1" "1" "2025-01-15" "09:00" "10:00",
        confirmedRow "b2" "1" "2025-01-15" "10:00" "11:00"]) ∧
    createBooking (storeWith [confirmedRow "b1" "1" "2025-01-15" "09:00" "10:00"])
        (request "b3" "1" "2025-01-15" "08:00" "09:00") =
      (Except.ok (), storeWith [confirmedRow "b1" "1" "2025-01-15" "09:00" "10:00",
        confirmedRow "b3" "1" "2025-01-15" "08:00" "09:00"]) :=
  ⟨createBooking_accepts_adjacent
      (storeWith [confirmedRow "b1" "1" "2025-01-15" "09:00" "10:00"])
      (request "b2" "1" "2025-01-15" "10:00" "11:00") (by decide!) (by decide!) (by decide!),
   createBooking_accepts_adjacent
      (storeWith [confirmedRow "b1" "1" "2025-01-15" "09:00" "10:00"])
      (request "b3" "1" "2025-01-15" "08:00" "09:00") (by decide!) (by decide!) (by decide!)⟩

/-- C4: when the conflict query of `createBooking` returns a row, that row is a confirmed
booking of the requested room and date present in the table, the call throws the error
`Room is already booked from S to E` with `S` and `E` the start and end time of that row, and
the store after the call is the store before it. -/
theorem createBooking_conflict_atomic (db : Database) (data : BookingData)
    (hfound : (findConflict db data).isSome = true) :
    ∃ c ∈ db.bookings, ConfirmedFor data.roomId data.date c ∧
      createBooking db data =
        (Except.error (Thrown.error
          ("Room is already booked from " ++ c.start_time ++ " to " ++ c.end_time)), db) := by
  obtain ⟨c, hc⟩ := Option.isSome_iff_exists.mp hfound
  have hmem : c ∈ db.bookings := List.mem_of_find?_eq_some hc
  have hw := List.find?_some hc
  simp only [conflictWhere, Bool.and_eq_true, Bool.or_eq_true, decide_eq_true_eq] at hw
  refine ⟨c, hmem, ⟨hw.1.1.1, hw.1.1.2, hw.1.2⟩, ?_⟩
  simp [createBooking, hc, conflictMessage]

/-- C4 on the end-to-end scenario: 09:30-10:30 against the booking 09:00-10:00. -/
theorem createBooking_conflict_atomic_witness :
    ∃ c ∈ (storeWith [confirmedRow "b1" "1" "2025-01-15" "09:00" "10:00"]).bookings,
      ConfirmedFor "1" "2025-01-15" c ∧
      createBooking (storeWith [confirmedRow "b1" "1" "2025-01-15" "09:00" "10:00"])
          (request "b2" "1" "2025-01-15" "09:30" "10:30") =
        (Except.error (Thrown.error
          ("Room is already booked from " ++ c.start_time ++ " to " ++ c.end_time)),
         storeWith [confirmedRow "b1" "1" "2025-01-15" "09:00" "10:00"]) :=
  createBooking_conflict_atomic
    (storeWith [confirmedRow "b1" "1" "2025-01-15" "09:00" "10:00"])
    (request "b2" "1" "2025-01-15" "09:30" "10:30") (by decide!)

/-- C5 as stated fails: the conflict query finds nothing for the request (another room), but
its id is already the id of a row, so the `INSERT` is refused and no row is added. -/
theorem createBooking_no_conflict_refused_on_used_id :
    findConflict (storeWith [confirmedRow "b1" "1" "2025-01-15" "09:00" "10:00"])
        (request "b1" "2" "2025-01-15" "09:00" "10:00") = none ∧
    createBooking (storeWith [confirmedRow "b1" "1" "2025-01-15" "09:00" "10:00"])
        (request "b1" "2" "2025-01-15" "09:00" "10:00") =
      (Except.error Thrown.constraintViolation,
        storeWith [confirmedRow "b1" "1" "2025-01-15" "09:00" "10:00"]) ∧
    getDayBookings (createBooking (storeWith [confirmedRow "b1" "1" "2025-01-15" "09:00" "10:00"])
        (request "b1" "2" "2025-01-15" "09:00" "10:00")).2 "2" "2025-01-15" = [] := by
  decide!

/-- C5, amended: when no conflict is found and the id is not yet the id of a row,
`createBooking` succeeds; the table afterwards is the table before followed by exactly one
new row, which carries the given id, room, user, title, date, start time and end time, the
status `confirmed`, and the given description (`''` when none is given); the other tables are
untouched, and `getDayBookings(roomId, date)` on the new store contains the new row. -/
theorem createBooking_inserts_confirmed_row (db : Database) (data : BookingData)
    (hnone : findConflict db data = none) (hid : ∀ b ∈ db.bookings, b.id ≠ data.id) :
    (createBooking db data).1 = Except.ok () ∧
    (createBooking db data).2.bookings = db.bookings ++ [insertedRow data] ∧
    (createBooking db data).2.users = db.users ∧
    (createBooking db data).2.rooms = db.rooms ∧
    (insertedRow data).id = data.id ∧ (insertedRow data).room_id = data.roomId ∧
    (insertedRow data).user_id = data.userId ∧ (insertedRow data).title = data.title ∧
    (insertedRow data).date = data.date ∧ (insertedRow data).start_time = data.startTime ∧
    (insertedRow data).end_time = data.endTime ∧ (insertedRow data).status = "confirmed" ∧
    (data.description = none → (insertedRow data).description = "") ∧
    (∀ s, data.description = some s → (insertedRow data).description = s) ∧
    insertedRow data ∈ getDayBookings (createBooking db data).2 data.roomId data.date := by
  rw [createBooking_of_no_conflict db data hnone hid]
  refine ⟨rfl, rfl, rfl, rfl, rfl, rfl, rfl, rfl, rfl, rfl, rfl, rfl, ?_, ?_, ?_⟩
  · intro h
    simp [insertedRow, h, descriptionOrEmpty]
  · intro s h
    by_cases hs : s = "" <;> simp [insertedRow, h, descriptionOrEmpty, hs]
  · unfold getDayBookings
    rw [(List.perm_insertionSort _ _).mem_iff, List.mem_filter]
    refine ⟨by simp, ?_⟩
    simp [insertedRow]

/-- C5 on the end-to-end scenario: booking 09:00-10:00 in an empty table. -/
theorem createBooking_inserts_confirmed_row_witness :
    (createBooking emptyDatabase (request "b1" "1" "2025-01-15" "09:00" "10:00")).2.bookings =
      emptyDatabase.bookings ++ [insertedRow (request "b1" "1" "2025-01-15" "09:00" "10:00")] ∧
    insertedRow (request "b1" "1" "2025-01-15" "09:00" "10:00") ∈
      getDayBookings (createBooking emptyDatabase
        (request "b1" "1" "2025-01-15" "09:00" "10:00")).2 "1" "2025-01-15" :=
  have h := createBooking_inserts_confirmed_row emptyDatabase
    (request "b1" "1" "2025-01-15" "09:00" "10:00") (by decide!) (by decide!)
  ⟨h.2.1, h.2.2.2.2.2.2.2.2.2.2.2.2.2.2⟩

/-! ## The slot calculator -/

/-! ## Rounding error -/

theorem roundTiesEven_sub_abs_le (q : ℚ) : |(roundTiesEven q : ℚ) - q| ≤ 1 / 2 := by
  have h1 := Int.floor_le q
  have h2 := Int.lt_floor_add_one q
  unfold roundTiesEven
  split_ifs with ha hb hc <;> rw [abs_le] <;> constructor <;> push_cast <;> linarith

theorem floorLog2_le_five (x : ℚ) (hx : x < 64) : floorLog2 x ≤ 5 := by
  unfold floorLog2
  split_ifs with h1 h2
  · have hfl : ⌊x⌋₊ < 2 ^ 6 := by
      have : (⌊x⌋₊ : ℚ) ≤ x := Nat.floor_le (by linarith)
      have : (⌊x⌋₊ : ℚ) < 64 := by linarith
      exact_mod_cast this
    have hne : ⌊x⌋₊ ≠ 0 := by
      have : 1 ≤ ⌊x⌋₊ := Nat.le_floor (by simpa using h1)
      omega
    have := (Nat.log2_lt hne).mpr hfl
    omega
  · norm_num
  · omega

theorem roundDouble_sub_abs_le (x : ℚ) (h0 : 0 ≤ x) (hx : x < 64) :
    |roundDouble x - x| ≤ 1 / 2 ^ 48 := by
  unfold roundDouble
  split_ifs with hz
  · simp [hz]
  · have he : ulpExponent x ≤ -47 := by
      unfold ulpExponent
      have := floorLog2_le_five |x| (by rw [abs_of_nonneg h0]; exact hx)
      have : max (floorLog2 |x|) (-1022) ≤ 5 := max_le this (by norm_num)
      omega
    have hu : (0 : ℚ) < 2 ^ ulpExponent x := by positivity
    have hu48 : (2 : ℚ) ^ ulpExponent x ≤ 2 ^ (-47 : ℤ) :=
      zpow_le_zpow_right₀ (by norm_num) he
    have hr := roundTiesEven_sub_abs_le (x / 2 ^ ulpExponent x)
    have : (roundTiesEven (x / 2 ^ ulpExponent x) : ℚ) * 2 ^ ulpExponent x - x =
        ((roundTiesEven (x / 2 ^ ulpExponent x) : ℚ) - x / 2 ^ ulpExponent x) *
          2 ^ ulpExponent x := by
      field_simp
    rw [this, abs_mul, abs_of_pos hu]
    calc |(roundTiesEven (x / 2 ^ ulpExponent x) : ℚ) - x / 2 ^ ulpExponent x| *
          2 ^ ulpExponent x
        ≤ 1 / 2 * 2 ^ (-47 : ℤ) := mul_le_mul hr hu48 hu.le (by norm_num)
      _ = 1 / 2 ^ 48 := by norm_num

theorem roundDouble_nonneg (x : ℚ) (h0 : 0 ≤ x) : 0 ≤ roundDouble x := by
  unfold roundDouble
  split_ifs with hz
  · exact le_refl _
  · have hq : (0 : ℚ) ≤ x / 2 ^ ulpExponent x := by positivity
    have hfl : 0 ≤ ⌊x / 2 ^ ulpExponent x⌋ := Int.floor_nonneg.mpr hq
    have hr : 0 ≤ roundTiesEven (x / 2 ^ ulpExponent x) := by
      unfold roundTiesEven
      split_ifs <;> omega
    have : (0 : ℚ) ≤ (roundTiesEven (x / 2 ^ ulpExponent x) : ℚ) := by exact_mod_cast hr
    positivity

/-- The hour value computed for a time of day is within `2 ^ (-47)` of the exact one. -/
theorem hoursOf_sub_abs_le (t : ℕ) (ht : t < 1440) :
    |hoursOf t - (t : ℚ) / 60| ≤ 1 / 2 ^ 47 := by
  have hh : getHours t = t / 60 := by unfold getHours; omega
  have hm60 : t % 60 < 60 := Nat.mod_lt _ (by norm_num)
  have hq : t / 60 ≤ 23 := by omega
  have hsplit : (t : ℚ) = 60 * ((t / 60 : ℕ) : ℚ) + ((t % 60 : ℕ) : ℚ) := by
    exact_mod_cast (Nat.div_add_mod t 60).symm
  have hmq : ((t % 60 : ℕ) : ℚ) < 60 := by exact_mod_cast hm60
  have hm0 : (0 : ℚ) ≤ ((t % 60 : ℕ) : ℚ) := Nat.cast_nonneg _
  have hhq : ((t / 60 : ℕ) : ℚ) ≤ 23 := by exact_mod_cast hq
  have hh0 : (0 : ℚ) ≤ ((t / 60 : ℕ) : ℚ) := Nat.cast_nonneg _
  obtain ⟨hf1, hf2⟩ := abs_le.mp (roundDouble_sub_abs_le (((t % 60 : ℕ) : ℚ) / 60)
    (by positivity) (by linarith))
  have hf0 := roundDouble_nonneg (((t % 60 : ℕ) : ℚ) / 60) (by positivity)
  obtain ⟨hH1, hH2⟩ := abs_le.mp (roundDouble_sub_abs_le
    (((t / 60 : ℕ) : ℚ) + roundDouble (((t % 60 : ℕ) : ℚ) / 60))
    (by linarith) (by norm_num at hf2 ⊢; linarith))
  unfold hoursOf jsAdd jsDiv getMinutes
  rw [hh, abs_le, hsplit]
  norm_num at hf1 hf2 hH1 hH2 ⊢
  constructor <;> linarith

theorem hoursOf_lt_hoursOf {a b : ℕ} (hab : a < b) (hb : b < 1440) : hoursOf a < hoursOf b := by
  obtain ⟨ha1, ha2⟩ := abs_le.mp (hoursOf_sub_abs_le a (by omega))
  obtain ⟨hb1, hb2⟩ := abs_le.mp (hoursOf_sub_abs_le b hb)
  have : (a : ℚ) + 1 ≤ b := by exact_mod_cast hab
  norm_num at ha1 ha2 hb1 hb2
  linarith

theorem hoursOf_le_hoursOf {a b : ℕ} (hab : a ≤ b) (hb : b < 1440) : hoursOf a ≤ hoursOf b := by
  rcases Nat.eq_or_lt_of_le hab with h | h
  · rw [h]
  · exact (hoursOf_lt_hoursOf h hb).le

theorem hoursOf_540 : hoursOf 540 = 9 := by decide!
theorem hoursOf_1200 : hoursOf 1200 = 20 := by decide!

theorem offered_imp {c s : ℕ} (hc : c < 1440) (hs : s < 1440) (h : Offered c s) : c + 30 ≤ s := by
  unfold Offered jsAdd slotDuration at h
  obtain ⟨hc1, hc2⟩ := abs_le.mp (hoursOf_sub_abs_le c hc)
  obtain ⟨hs1, hs2⟩ := abs_le.mp (hoursOf_sub_abs_le s hs)
  have hcq : (c : ℚ) < 1440 := by exact_mod_cast hc
  have hc0 : (0 : ℚ) ≤ c := Nat.cast_nonneg _
  have hcn : 0 ≤ hoursOf c := roundDouble_nonneg _ (add_nonneg (Nat.cast_nonneg _)
    (roundDouble_nonneg _ (by positivity)))
  obtain ⟨hr1, hr2⟩ := abs_le.mp (roundDouble_sub_abs_le (hoursOf c + 1 / 2)
    (by linarith) (by norm_num at hc2 ⊢; linarith))
  have : (c : ℚ) + 29 < s := by
    norm_num at hc1 hc2 hs1 hs2 hr1 hr2
    linarith
  have : c + 29 < s := by exact_mod_cast this
  omega

theorem offered_of_le {c s : ℕ} (hs : s < 1440) (h : c + 31 ≤ s) : Offered c s := by
  unfold Offered jsAdd slotDuration
  obtain ⟨hc1, hc2⟩ := abs_le.mp (hoursOf_sub_abs_le c (by omega))
  obtain ⟨hs1, hs2⟩ := abs_le.mp (hoursOf_sub_abs_le s hs)
  have hcq : (c : ℚ) < 1440 := by exact_mod_cast (show c < 1440 by omega)
  have hc0 : (0 : ℚ) ≤ c := Nat.cast_nonneg _
  have hcn : 0 ≤ hoursOf c := roundDouble_nonneg _ (add_nonneg (Nat.cast_nonneg _)
    (roundDouble_nonneg _ (by positivity)))
  obtain ⟨hr1, hr2⟩ := abs_le.mp (roundDouble_sub_abs_le (hoursOf c + 1 / 2)
    (by linarith) (by norm_num at hc2 ⊢; linarith))
  have : (c : ℚ) + 31 ≤ s := by exact_mod_cast h
  norm_num at hc1 hc2 hs1 hs2 hr1 hr2
  linarith


theorem max_hoursOf {c e : ℕ} (hc : c < 1440) (he : e < 1440) :
    max (hoursOf c) (hoursOf e) = hoursOf (max c e) := by
  rcases le_total c e with h | h
  · rw [max_eq_right h, max_eq_right (hoursOf_le_hoursOf h he)]
  · rw [max_eq_left h, max_eq_left (hoursOf_le_hoursOf h hc)]

theorem slotsFrom_hoursOf (bs : List FormattedBooking) :
    ∀ c, c < 1440 → (∀ b ∈ bs, b.endTime < 1440) →
      slotsFrom (hoursOf c) bs = (slotMinutes c bs).map slotOfMinutes := by
  induction bs with
  | nil =>
    intro c _ _
    simp only [slotsFrom, slotMinutes, businessEnd, ← hoursOf_1200, Offered]
    split_ifs <;> simp [slotOfMinutes]
  | cons b rest ih =>
    intro c hc hb
    have he : b.endTime < 1440 := hb b (List.mem_cons_self _ _)
    have hrest : ∀ b' ∈ rest, b'.endTime < 1440 := fun b' hb' => hb b' (List.mem_cons_of_mem _ hb')
    simp only [slotsFrom, slotMinutes, List.map_append]
    rw [max_hoursOf hc he, ih (max c b.endTime) (max_lt hc he) hrest]
    congr 1
    unfold Offered
    split_ifs <;> simp [slotOfMinutes]

theorem le_of_mem_slotMinutes (bs : List FormattedBooking) :
    ∀ c, ∀ p ∈ slotMinutes c bs, c ≤ p.1 := by
  induction bs with
  | nil =>
    intro c p hp
    simp only [slotMinutes] at hp
    split_ifs at hp
    · rw [List.mem_singleton.mp hp]
    · exact absurd hp (List.not_mem_nil _)
  | cons b rest ih =>
    intro c p hp
    simp only [slotMinutes, List.mem_append] at hp
    rcases hp with hp | hp
    · split_ifs at hp
      · rw [List.mem_singleton.mp hp]
      · exact absurd hp (List.not_mem_nil _)
    · exact le_trans (le_max_left _ _) (ih _ p hp)

theorem bounds_of_mem_slotMinutes (bs : List FormattedBooking) :
    ∀ c, c < 1440 → (∀ b ∈ bs, b.startTime < 1440 ∧ b.endTime < 1440) →
      ∀ p ∈ slotMinutes c bs, p.1 + 30 ≤ p.2 ∧ p.2 < 1440 ∧
        (p.2 = 1200 ∨ ∃ b ∈ bs, p.2 = b.startTime) := by
  induction bs with
  | nil =>
    intro c hc _ p hp
    simp only [slotMinutes] at hp
    split_ifs at hp with h
    · rw [List.mem_singleton.mp hp]
      exact ⟨offered_imp hc (by norm_num) h, by norm_num, Or.inl rfl⟩
    · exact absurd hp (List.not_mem_nil _)
  | cons b rest ih =>
    intro c hc hb p hp
    have hb0 := hb b (List.mem_cons_self _ _)
    simp only [slotMinutes, List.mem_append] at hp
    rcases hp with hp | hp
    · split_ifs at hp with h
      · rw [List.mem_singleton.mp hp]
        exact ⟨offered_imp hc hb0.1 h, hb0.1, Or.inr ⟨b, List.mem_cons_self _ _, rfl⟩⟩
      · exact absurd hp (List.not_mem_nil _)
    · obtain ⟨h1, h2, h3⟩ := ih (max c b.endTime) (max_lt hc hb0.2)
        (fun b' hb' => hb b' (List.mem_cons_of_mem _ hb')) p hp
      refine ⟨h1, h2, ?_⟩
      rcases h3 with h3 | ⟨b', hb', h3⟩
      · exact Or.inl h3
      · exact Or.inr ⟨b', List.mem_cons_of_mem _ hb', h3⟩

theorem pairwise_slotMinutes (bs : List FormattedBooking) :
    ∀ c, (∀ b ∈ bs, b.startTime ≤ b.endTime) →
      (slotMinutes c bs).Pairwise (fun p q => p.2 ≤ q.1) := by
  induction bs with
  | nil =>
    intro c _
    simp only [slotMinutes]
    split_ifs <;> simp
  | cons b rest ih =>
    intro c hb
    simp only [slotMinutes]
    rw [List.pairwise_append]
    refine ⟨by split_ifs <;> simp, ih _ (fun b' hb' => hb b' (List.mem_cons_of_mem _ hb')), ?_⟩
    intro p hp q hq
    have hq' := le_of_mem_slotMinutes rest _ q hq
    have hbe := hb b (List.mem_cons_self _ _)
    split_ifs at hp
    · rw [List.mem_singleton.mp hp]
      exact le_trans hbe (le_trans (le_max_right _ _) hq')
    · exact absurd hp (List.not_mem_nil _)

theorem disjoint_slotMinutes (bs : List FormattedBooking) :
    ∀ c, bs.Pairwise (fun a b => a.startTime ≤ b.startTime) →
      ∀ p ∈ slotMinutes c bs, ∀ b ∈ bs, b.endTime ≤ p.1 ∨ p.2 ≤ b.startTime := by
  induction bs with
  | nil =>
    intro c _ p _ b hb
    exact absurd hb (List.not_mem_nil _)
  | cons b0 rest ih =>
    intro c hs p hp b hb
    rw [List.pairwise_cons] at hs
    simp only [slotMinutes, List.mem_append] at hp
    rcases hp with hp | hp
    · split_ifs at hp
      · rw [List.mem_singleton.mp hp]
        rcases List.mem_cons.mp hb with h | h
        · rw [h]; exact Or.inr (le_refl _)
        · exact Or.inr (hs.1 b h)
      · exact absurd hp (List.not_mem_nil _)
    · rcases List.mem_cons.mp hb with h | h
      · rw [h]
        exact Or.inl (le_trans (le_max_right _ _) (le_of_mem_slotMinutes rest _ p hp))
      · exact ih _ hs.2 p hp b h


theorem hoursOf_full_hour : ∀ h : ℕ, h < 24 → hoursOf (60 * h) = (h : ℚ) := by
  decide!

theorem floor_hoursOf (t : ℕ) (ht : t < 1440) : ⌊hoursOf t⌋ = ((t / 60 : ℕ) : ℤ) := by
  have hq : t / 60 < 24 := by omega
  have hle : 60 * (t / 60) ≤ t := Nat.mul_div_le t 60
  have hlow := hoursOf_le_hoursOf hle ht
  rw [hoursOf_full_hour _ hq] at hlow
  obtain ⟨_, h2⟩ := abs_le.mp (hoursOf_sub_abs_le t ht)
  have hlt : (t : ℚ) + 1 ≤ 60 * ((t / 60 : ℕ) : ℚ) + 60 := by
    have : t + 1 ≤ 60 * (t / 60) + 60 := by omega
    exact_mod_cast this
  rw [Int.floor_eq_iff, Int.cast_natCast]
  constructor
  · exact hlow
  · linarith

theorem mathRound_minutes (t : ℕ) (ht : t < 1440) :
    mathRound (jsMul (jsSub (hoursOf t) ⌊hoursOf t⌋) 60) = ((t % 60 : ℕ) : ℤ) := by
  have hfl := floor_hoursOf t ht
  have hge : ((⌊hoursOf t⌋ : ℤ) : ℚ) ≤ hoursOf t := Int.floor_le _
  have hlt : hoursOf t < ((⌊hoursOf t⌋ : ℤ) : ℚ) + 1 := Int.lt_floor_add_one _
  rw [hfl, Int.cast_natCast] at hge hlt
  obtain ⟨h1, h2⟩ := abs_le.mp (hoursOf_sub_abs_le t ht)
  have hsplit : (t : ℚ) = 60 * ((t / 60 : ℕ) : ℚ) + ((t % 60 : ℕ) : ℚ) := by
    exact_mod_cast (Nat.div_add_mod t 60).symm
  unfold mathRound jsMul jsSub
  rw [hfl, Int.cast_natCast, Int.floor_eq_iff, Int.cast_natCast]
  generalize hoursOf t = H at *
  generalize ((t / 60 : ℕ) : ℚ) = h at *
  generalize ((t % 60 : ℕ) : ℚ) = m at *
  obtain ⟨hd1, hd2⟩ := abs_le.mp (roundDouble_sub_abs_le (H - h) (by linarith) (by linarith))
  have hd0 := roundDouble_nonneg (H - h) (by linarith)
  generalize roundDouble (H - h) = d at *
  obtain ⟨hy1, hy2⟩ := abs_le.mp (roundDouble_sub_abs_le (d * 60) (by linarith) (by linarith))
  generalize roundDouble (d * 60) = y at *
  constructor <;> linarith

theorem formatTime_hoursOf (t : ℕ) (ht : t < 1440) : formatTime (hoursOf t) = clockString t := by
  unfold formatTime clockString
  rw [mathRound_minutes t ht, floor_hoursOf t ht]

set_option maxRecDepth 100000 in
theorem parseClock_clockString : ∀ t : ℕ, t < 1440 → parseClock (clockString t) = some t := by
  decide!


theorem formatBooking_eq_some {b : BookingRow} {fb : FormattedBooking}
    (h : formatBooking b = some fb) :
    parseClock b.start_time = some fb.startTime ∧ parseClock b.end_time = some fb.endTime := by
  unfold formatBooking at h
  split at h
  · rename_i s e hs he
    injection h with h
    subst h
    exact ⟨hs, he⟩
  · exact absurd h (by simp)

theorem formatBooking_of_parse {b : BookingRow} {s e : ℕ}
    (hs : parseClock b.start_time = some s) (he : parseClock b.end_time = some e) :
    formatBooking b =
      some { startTime := s, endTime := e, roomId := b.room_id, status := b.status } := by
  unfold formatBooking
  rw [hs, he]

theorem formatBookings_eq_some (bookings : List BookingRow)
    (h : ∀ b ∈ bookings, ∃ s e, parseClock b.start_time = some s ∧
      parseClock b.end_time = some e) :
    ∃ fbs, formatBookings bookings = some fbs ∧
      ∀ fb, fb ∈ fbs ↔ ∃ b ∈ bookings, formatBooking b = some fb := by
  induction bookings with
  | nil => exact ⟨[], rfl, by simp⟩
  | cons b rest ih =>
    obtain ⟨fbs, hfbs, hmem⟩ := ih (fun b' hb' => h b' (List.mem_cons_of_mem _ hb'))
    obtain ⟨s, e, hs, he⟩ := h b (List.mem_cons_self _ _)
    refine ⟨{ startTime := s, endTime := e, roomId := b.room_id, status := b.status } :: fbs,
      ?_, ?_⟩
    · simp only [formatBookings, formatBooking_of_parse hs he, hfbs]
    · intro fb
      simp only [List.mem_cons, hmem, exists_eq_or_imp, formatBooking_of_parse hs he,
        Option.some.injEq]
      constructor
      · rintro (h1 | h1)
        · exact Or.inl h1.symm
        · exact Or.inr h1
      · rintro (h1 | h1)
        · exact Or.inl h1.symm
        · exact Or.inr h1

/-- The slots of well-formed bookings, through the walk in minutes. -/
theorem calculateAvailableSlots_eq (bookings : List BookingRow)
    (h : ∀ b ∈ bookings, ∃ s e, HasTimes b s e) :
    ∃ bs : List FormattedBooking,
      calculateAvailableSlots bookings = some ((slotMinutes 540 bs).map slotOfMinutes) ∧
      bs.Pairwise (fun a b => a.startTime ≤ b.startTime) ∧
      (∀ fb ∈ bs, ∃ b ∈ bookings, HasTimes b fb.startTime fb.endTime) ∧
      (∀ b ∈ bookings, ∀ s e, HasTimes b s e → ∃ fb ∈ bs, fb.startTime = s ∧ fb.endTime = e) := by
  obtain ⟨fbs, hfbs, hmem⟩ := formatBookings_eq_some bookings (fun b hb => by
    obtain ⟨s, e, hs, he, _, _⟩ := h b hb
    exact ⟨s, e, hs, he⟩)
  have hperm := List.perm_insertionSort (fun a b : FormattedBooking => a.startTime ≤ b.startTime) fbs
  have hback : ∀ fb ∈ fbs.insertionSort (fun a b => a.startTime ≤ b.startTime),
      ∃ b ∈ bookings, HasTimes b fb.startTime fb.endTime := by
    intro fb hfb
    obtain ⟨b, hb, hfm⟩ := (hmem fb).mp (hperm.mem_iff.mp hfb)
    obtain ⟨hs, he⟩ := formatBooking_eq_some hfm
    obtain ⟨s, e, hs', he', hs1, he1⟩ := h b hb
    rw [hs] at hs'
    rw [he] at he'
    injection hs' with hs'
    injection he' with he'
    exact ⟨b, hb, hs, he, by omega, by omega⟩
  refine ⟨fbs.insertionSort (fun a b => a.startTime ≤ b.startTime), ?_, ?_, hback, ?_⟩
  · unfold calculateAvailableSlots
    rw [hfbs, Option.map_some', businessStart, ← hoursOf_540]
    rw [slotsFrom_hoursOf _ 540 (by norm_num)]
    intro fb hfb
    obtain ⟨b, _, _, _, _, he⟩ := hback fb hfb
    exact he
  · exact List.sorted_insertionSort _ fbs
  · intro b hb s e hse
    refine ⟨{ startTime := s, endTime := e, roomId := b.room_id, status := b.status }, ?_, rfl, rfl⟩
    exact hperm.mem_iff.mpr ((hmem _).mpr ⟨b, hb, formatBooking_of_parse hse.1 hse.2.1⟩)


theorem floorLog2_eq (e : ℕ) (x : ℚ) (h1 : (2 : ℚ) ^ e ≤ x) (h2 : x < 2 ^ (e + 1)) :
    floorLog2 x = e := by
  have hone : (1 : ℚ) ≤ x := le_trans (one_le_pow₀ (by norm_num)) h1
  have hx0 : (0 : ℚ) ≤ x := by linarith
  unfold floorLog2
  rw [if_pos hone]
  have hlo : 2 ^ e ≤ ⌊x⌋₊ := Nat.le_floor (by exact_mod_cast h1)
  have hhi : ⌊x⌋₊ < 2 ^ (e + 1) := by
    have : (⌊x⌋₊ : ℚ) ≤ x := Nat.floor_le hx0
    have : (⌊x⌋₊ : ℚ) < 2 ^ (e + 1) := by linarith
    exact_mod_cast this
  have hne : ⌊x⌋₊ ≠ 0 := by
    have : 0 < 2 ^ e := Nat.pos_pow_of_pos _ (by norm_num)
    omega
  have hup := (Nat.log2_lt hne).mpr hhi
  have hdown : ¬ (⌊x⌋₊.log2 < e) := by
    intro h
    have := (Nat.log2_lt hne).mp h
    omega
  have : ⌊x⌋₊.log2 = e := by omega
  rw [this]

theorem roundTiesEven_add_even (q : ℚ) (n : ℤ) (hn : n % 2 = 0) :
    roundTiesEven (q + n) = roundTiesEven q + n := by
  unfold roundTiesEven
  have hfloor : ⌊q + n⌋ = ⌊q⌋ + n := Int.floor_add_int q n
  have hfract : q + n - ((⌊q⌋ + n : ℤ) : ℚ) = q - ⌊q⌋ := by push_cast; ring
  have hpar : (⌊q⌋ + n) % 2 = ⌊q⌋ % 2 := by omega
  rw [hfloor, hfract, hpar]
  split_ifs <;> ring

theorem roundDouble_add_nat (e : ℕ) (he : e ≤ 51) (x : ℚ) (k : ℕ) (h1 : (2 : ℚ) ^ e ≤ x)
    (h2 : x + k < 2 ^ (e + 1)) : roundDouble (x + k) = roundDouble x + k := by
  have hpos : (0 : ℚ) < 2 ^ e := by positivity
  have hk0 : (0 : ℚ) ≤ k := Nat.cast_nonneg k
  have hx0 : 0 < x := by linarith
  have hu : ∀ y : ℚ, (2 : ℚ) ^ e ≤ y → y < 2 ^ (e + 1) → ulpExponent y = -((52 - e : ℕ) : ℤ) := by
    intro y hy1 hy2
    have hy0 : 0 ≤ y := by linarith
    unfold ulpExponent
    rw [abs_of_nonneg hy0, floorLog2_eq e y hy1 hy2]
    have : max (e : ℤ) (-1022) = e := max_eq_left (by omega)
    rw [this]
    omega
  have hpow : (2 : ℚ) ^ (-((52 - e : ℕ) : ℤ)) = ((2 : ℚ) ^ (52 - e))⁻¹ := by
    rw [zpow_neg, zpow_natCast]
  have hq : (0 : ℚ) < 2 ^ (52 - e) := by positivity
  unfold roundDouble
  rw [if_neg (by linarith), if_neg (by linarith), hu x h1 (by linarith),
    hu (x + k) (by linarith) h2, hpow]
  have hdiv : (x + k) / ((2 : ℚ) ^ (52 - e))⁻¹ =
      x / ((2 : ℚ) ^ (52 - e))⁻¹ + (((k : ℤ) * 2 ^ (52 - e) : ℤ) : ℚ) := by
    push_cast
    field_simp
    ring
  have heven : ((k : ℤ) * 2 ^ (52 - e)) % 2 = 0 := by
    have : (2 : ℤ) ^ (52 - e) = 2 * 2 ^ (52 - e - 1) := by
      rw [← pow_succ']
      congr 1
      omega
    rw [this, ← mul_assoc, mul_comm (k : ℤ) 2, mul_assoc]
    exact Int.mul_emod_right 2 _
  rw [hdiv, roundTiesEven_add_even _ _ heven]
  push_cast
  field_simp


theorem minuteFraction_bounds (m : ℕ) (hm : m < 60) :
    0 ≤ jsDiv (m : ℚ) 60 ∧ jsDiv (m : ℚ) 60 < 1 := by
  have hmq : (m : ℚ) ≤ 59 := by exact_mod_cast Nat.lt_succ_iff.mp hm
  have hm0 : (0 : ℚ) ≤ m := Nat.cast_nonneg m
  unfold jsDiv
  refine ⟨roundDouble_nonneg _ (by positivity), ?_⟩
  obtain ⟨_, h2⟩ := abs_le.mp (roundDouble_sub_abs_le ((m : ℚ) / 60) (by positivity) (by linarith))
  norm_num at h2
  linarith

theorem hoursOf_add_hours (e t k : ℕ) (he : e ≤ 51) (h1 : 2 ^ e ≤ t / 60)
    (h2 : t / 60 + k + 1 ≤ 2 ^ (e + 1)) (h24 : t / 60 + k < 24) :
    hoursOf (t + 60 * k) = hoursOf t + k := by
  have hH : getHours (t + 60 * k) = t / 60 + k := by unfold getHours; omega
  have hH0 : getHours t = t / 60 := by unfold getHours; omega
  have hM : getMinutes (t + 60 * k) = getMinutes t := by unfold getMinutes; omega
  obtain ⟨f0, f1⟩ := minuteFraction_bounds (getMinutes t) (by unfold getMinutes; omega)
  unfold hoursOf jsAdd
  rw [hH, hH0, hM]
  have h1q : (2 : ℚ) ^ e ≤ ((t / 60 : ℕ) : ℚ) := by exact_mod_cast h1
  have h2q : ((t / 60 : ℕ) : ℚ) + k + 1 ≤ 2 ^ (e + 1) := by exact_mod_cast h2
  have hsum : (((t / 60 + k : ℕ) : ℚ)) + jsDiv (getMinutes t) 60 =
      (((t / 60 : ℕ) : ℚ) + jsDiv (getMinutes t) 60) + k := by
    push_cast
    ring
  rw [hsum]
  exact roundDouble_add_nat e he _ k (by linarith) (by linarith)

theorem offered_shift (e a k : ℕ) (he : e ≤ 51) (h1 : 2 ^ e ≤ a / 60)
    (h2 : (a + 30) / 60 + k + 1 ≤ 2 ^ (e + 1)) (h24 : (a + 30) / 60 + k < 24)
    (hlow : (2 : ℚ) ^ e ≤ hoursOf a + 1 / 2)
    (hhigh : hoursOf (a + 60 * k) + 1 / 2 < 2 ^ (e + 1)) :
    Offered (a + 60 * k) (a + 60 * k + 30) ↔ Offered a (a + 30) := by
  have ha : hoursOf (a + 60 * k) = hoursOf a + k :=
    hoursOf_add_hours e a k he h1 (by omega) (by omega)
  have hs : hoursOf (a + 60 * k + 30) = hoursOf (a + 30) + k := by
    have : a + 60 * k + 30 = a + 30 + 60 * k := by omega
    rw [this]
    exact hoursOf_add_hours e (a + 30) k he (by omega) h2 h24
  unfold Offered jsAdd slotDuration
  rw [hs, ha]
  have hsum : hoursOf a + (k : ℚ) + 1 / 2 = (hoursOf a + 1 / 2) + k := by ring
  rw [hsum, roundDouble_add_nat e he _ k hlow (by rw [ha] at hhigh; linarith)]
  constructor <;> intro h <;> linarith

theorem offered_morning : ∀ m : ℕ, m < 60 → Offered (540 + m) (540 + m + 30) := by
  decide!

theorem offered_evening : ∀ m : ℕ, m < 60 → Offered (960 + m) (960 + m + 30) := by
  decide!

theorem offered_before_four : ∀ m : ℕ, m < 30 →
    Offered (930 + m) (930 + m + 30) ∨ 930 + m ∈ [935, 943, 950, 958] := by
  decide!

theorem hoursOf_930 : hoursOf 930 = 31 / 2 := by decide!

theorem offered_half_hour (a : ℕ) (h540 : 540 ≤ a) (h1200 : a < 1200) :
    Offered a (a + 30) ∨ a ∈ [935, 943, 950, 958] := by
  rcases Nat.lt_or_ge a 930 with h930 | h930
  · left
    have hsplit : a = 540 + (a - 540) % 60 + 60 * ((a - 540) / 60) := by omega
    have hm : (a - 540) % 60 < 60 := Nat.mod_lt _ (by norm_num)
    rw [hsplit]
    refine (offered_shift 3 (540 + (a - 540) % 60) ((a - 540) / 60) (by norm_num)
      (by norm_num; omega) (by norm_num; omega) (by omega) ?_ ?_).mpr
      (offered_morning _ hm)
    · obtain ⟨hl, _⟩ := abs_le.mp (hoursOf_sub_abs_le (540 + (a - 540) % 60) (by omega))
      have hnn : (0 : ℚ) ≤ (((a - 540) % 60 : ℕ) : ℚ) := Nat.cast_nonneg _
      norm_num at hl ⊢
      linarith
    · rw [← hsplit]
      have := hoursOf_lt_hoursOf h930 (by norm_num)
      rw [hoursOf_930] at this
      norm_num
      linarith
  · rcases Nat.lt_or_ge a 960 with h960 | h960
    · have hsplit : a = 930 + (a - 930) := by omega
      have := offered_before_four (a - 930) (by omega)
      rw [← hsplit] at this
      exact this
    · left
      have hsplit : a = 960 + (a - 960) % 60 + 60 * ((a - 960) / 60) := by omega
      have hm : (a - 960) % 60 < 60 := Nat.mod_lt _ (by norm_num)
      rw [hsplit]
      refine (offered_shift 4 (960 + (a - 960) % 60) ((a - 960) / 60) (by norm_num)
        (by norm_num; omega) (by norm_num; omega) (by omega) ?_ ?_).mpr
        (offered_evening _ hm)
      · obtain ⟨hl, _⟩ := abs_le.mp (hoursOf_sub_abs_le (960 + (a - 960) % 60) (by omega))
        have hnn : (0 : ℚ) ≤ (((a - 960) % 60 : ℕ) : ℚ) := Nat.cast_nonneg _
        norm_num at hl ⊢
        linarith
      · rw [← hsplit]
        obtain ⟨_, hu⟩ := abs_le.mp (hoursOf_sub_abs_le a (by omega))
        have : (a : ℚ) < 1200 := by exact_mod_cast h1200
        norm_num at hu ⊢
        linarith

theorem cover_slotMinutes (bs : List FormattedBooking) :
    ∀ c, c < 1440 → (∀ b ∈ bs, b.startTime < 1440 ∧ b.endTime < 1440) →
      ∀ x : ℚ, hoursOf c ≤ x → x < 20 →
        (∃ p ∈ slotMinutes c bs, hoursOf p.1 ≤ x ∧ x < hoursOf p.2) ∨
        (∃ b ∈ bs, hoursOf b.startTime ≤ x ∧ x < hoursOf b.endTime) ∨
        ∃ a e, hoursOf a ≤ x ∧ x < hoursOf e ∧ e ≤ a + 30 ∧ ¬ Offered a e ∧ c ≤ a ∧
          (a = c ∨ ∃ b ∈ bs, a = b.endTime) ∧ (e = 1200 ∨ ∃ b ∈ bs, e = b.startTime) := by
  induction bs with
  | nil =>
    intro c hc _ x hx hx20
    by_cases hG : Offered c 1200
    · refine Or.inl ⟨(c, 1200), ?_, hx, ?_⟩
      · simp [slotMinutes, hG]
      · rw [hoursOf_1200]; exact hx20
    · refine Or.inr (Or.inr ⟨c, 1200, hx, ?_, ?_, hG, le_refl c, Or.inl rfl, Or.inl rfl⟩)
      · rw [hoursOf_1200]; exact hx20
      · by_contra hcon
        exact hG (offered_of_le (by norm_num) (by omega))
  | cons b rest ih =>
    intro c hc hb x hx hx20
    have hb0 := hb b (List.mem_cons_self _ _)
    have hrest : ∀ b' ∈ rest, b'.startTime < 1440 ∧ b'.endTime < 1440 :=
      fun b' hb' => hb b' (List.mem_cons_of_mem _ hb')
    by_cases hxc : x < hoursOf (max c b.endTime)
    · by_cases hxs : x < hoursOf b.startTime
      · by_cases hG : Offered c b.startTime
        · refine Or.inl ⟨(c, b.startTime), ?_, hx, hxs⟩
          simp [slotMinutes, hG]
        · refine Or.inr (Or.inr ⟨c, b.startTime, hx, hxs, ?_, hG, le_refl c, Or.inl rfl,
            Or.inr ⟨b, List.mem_cons_self _ _, rfl⟩⟩)
          by_contra hcon
          exact hG (offered_of_le hb0.1 (by omega))
      · refine Or.inr (Or.inl ⟨b, List.mem_cons_self _ _, not_lt.mp hxs, ?_⟩)
        rw [← max_hoursOf hc hb0.2, lt_max_iff] at hxc
        rcases hxc with h1 | h1
        · exact absurd hx (not_le.mpr h1)
        · exact h1
    · rcases ih (max c b.endTime) (max_lt hc hb0.2) hrest x (not_lt.mp hxc) hx20 with
        ⟨p, hp, hp1⟩ | ⟨b', hb', hb1⟩ | ⟨a, e, ha, he, hae, hno, hca, hl, hr⟩
      · refine Or.inl ⟨p, ?_, hp1⟩
        simp only [slotMinutes, List.mem_append]
        exact Or.inr hp
      · exact Or.inr (Or.inl ⟨b', List.mem_cons_of_mem _ hb', hb1⟩)
      · refine Or.inr (Or.inr ⟨a, e, ha, he, hae, hno,
          le_trans (le_max_left c b.endTime) hca, ?_, ?_⟩)
        · rcases hl with hl | ⟨b', hb', hl⟩
          · rcases le_total c b.endTime with h1 | h1
            · rw [max_eq_right h1] at hl
              exact Or.inr ⟨b, List.mem_cons_self _ _, hl⟩
            · rw [max_eq_left h1] at hl
              exact Or.inl hl
          · exact Or.inr ⟨b', List.mem_cons_of_mem _ hb', hl⟩
        · rcases hr with hr | ⟨b', hb', hr⟩
          · exact Or.inl hr
          · exact Or.inr ⟨b', List.mem_cons_of_mem _ hb', hr⟩

theorem short_or_dropped {a e : ℕ} {x : ℚ} (h540 : 540 ≤ a) (h1440 : a < 1440)
    (hax : hoursOf a ≤ x) (hx20 : x < 20) (hae : e ≤ a + 30) (hno : ¬ Offered a e) :
    e < a + 30 ∨ (e = a + 30 ∧ a ∈ [935, 943, 950, 958]) := by
  rcases Nat.lt_or_ge e (a + 30) with h | h
  · exact Or.inl h
  · have he : e = a + 30 := le_antisymm hae h
    refine Or.inr ⟨he, ?_⟩
    have ha : a < 1200 := by
      by_contra hcon
      have h1 := hoursOf_le_hoursOf (not_lt.mp hcon) h1440
      rw [hoursOf_1200] at h1
      linarith
    rcases offered_half_hour a h540 ha with hoff | hmem
    · rw [← he] at hoff
      exact absurd hoff hno
    · exact hmem

/-- C6 as stated fails on the hour values: for the bookings 15:00-15:31 and 16:01-17:00 the
calculator returns the slot 15:31-16:01, which is 30 minutes long on the clock, but its
`endHour - startHour` is below the slot duration 0.5, both as the exact difference of the two
doubles and as the double that the subtraction gives. -/
theorem calculateAvailableSlots_slot_below_half_hour_value :
    parseClock "15:00" = some 900 ∧ parseClock "15:31" = some 931 ∧
    parseClock "16:01" = some 961 ∧ parseClock "17:00" = some 1020 ∧
    calculateAvailableSlots [confirmedRow "b1" "1" "2025-01-15" "15:00" "15:31",
        confirmedRow "b2" "1" "2025-01-15" "16:01" "17:00"] =
      some [{ start := "09:00", end_ := "15:00", startHour := 9, endHour := 15 },
        { start := "15:31", end_ := "16:01", startHour := hoursOf 931, endHour := hoursOf 961 },
        { start := "17:00", end_ := "20:00", startHour := 17, endHour := 20 }] ∧
    hoursOf 961 - hoursOf 931 < slotDuration ∧
    jsSub (hoursOf 961) (hoursOf 931) < slotDuration := by
  decide!

/-- C6, amended: for every list of bookings whose times are times of day with
`start_time < end_time` (in any order, overlapping or not), `calculateAvailableSlots` returns
a list of slots that is chronological and pairwise non-overlapping (the `endHour` of a slot
is at most the `startHour` of every later slot, and each slot has `startHour < endHour`);
every slot is at least 30 minutes long on its printed `start` and `end`, and its
`endHour - startHour` is at least the slot duration 0.5 less a rounding error of `2^-46`. -/
theorem calculateAvailableSlots_chronological (bookings : List BookingRow)
    (h : ∀ b ∈ bookings, ∃ s e, HasTimes b s e ∧ s < e) :
    ∃ slots, calculateAvailableSlots bookings = some slots ∧
      slots.Pairwise (fun a b => a.endHour ≤ b.startHour) ∧
      ∀ sl ∈ slots, sl.startHour < sl.endHour ∧
        slotDuration - 1 / 2 ^ 46 ≤ sl.endHour - sl.startHour ∧
        ∃ a b, parseClock sl.start = some a ∧ parseClock sl.end_ = some b ∧ a + 30 ≤ b := by
  obtain ⟨bs, hcalc, _, hback, _⟩ := calculateAvailableSlots_eq bookings (fun b hb => by
    obtain ⟨s, e, hT, _⟩ := h b hb
    exact ⟨s, e, hT⟩)
  have hlt : ∀ fb ∈ bs, fb.startTime < 1440 ∧ fb.endTime < 1440 := by
    intro fb hfb
    obtain ⟨b, _, hT⟩ := hback fb hfb
    exact ⟨hT.2.2.1, hT.2.2.2⟩
  have hse : ∀ fb ∈ bs, fb.startTime ≤ fb.endTime := by
    intro fb hfb
    obtain ⟨b, hb, hT⟩ := hback fb hfb
    obtain ⟨s, e, hT', hlt'⟩ := h b hb
    have h1 := hT.1.symm.trans hT'.1
    have h2 := hT.2.1.symm.trans hT'.2.1
    injection h1 with h1
    injection h2 with h2
    omega
  have hbd := bounds_of_mem_slotMinutes bs 540 (by norm_num) hlt
  refine ⟨_, hcalc, ?_, ?_⟩
  · rw [List.pairwise_map]
    refine List.Pairwise.imp_of_mem ?_ (pairwise_slotMinutes bs 540 hse)
    intro p q _ hq hpq
    have hq' := hbd q hq
    exact hoursOf_le_hoursOf hpq (by omega)
  · intro sl hsl
    obtain ⟨p, hp, rfl⟩ := List.mem_map.mp hsl
    obtain ⟨h1, h2, _⟩ := hbd p hp
    refine ⟨hoursOf_lt_hoursOf (by omega) h2, ?_, p.1, p.2, ?_, ?_, h1⟩
    · show slotDuration - 1 / 2 ^ 46 ≤ hoursOf p.2 - hoursOf p.1
      obtain ⟨ha1, ha2⟩ := abs_le.mp (hoursOf_sub_abs_le p.1 (by omega))
      obtain ⟨hb1, hb2⟩ := abs_le.mp (hoursOf_sub_abs_le p.2 h2)
      have hq : (p.1 : ℚ) + 30 ≤ p.2 := by exact_mod_cast h1
      unfold slotDuration
      norm_num at ha1 ha2 hb1 hb2 ⊢
      linarith
    · show parseClock (formatTime (hoursOf p.1)) = some p.1
      rw [formatTime_hoursOf _ (by omega), parseClock_clockString _ (by omega)]
    · show parseClock (formatTime (hoursOf p.2)) = some p.2
      rw [formatTime_hoursOf _ h2, parseClock_clockString _ h2]

/-- C7: for every list of bookings whose times are times of day, no slot returned by
`calculateAvailableSlots` overlaps an input booking: for each returned slot
`[startHour, endHour)` and each input booking, the hour value of the end of the booking is at
most `startHour` or the hour value of its start is at least `endHour`. -/
theorem calculateAvailableSlots_avoids_bookings (bookings : List BookingRow)
    (h : ∀ b ∈ bookings, ∃ s e, HasTimes b s e) :
    ∃ slots, calculateAvailableSlots bookings = some slots ∧
      ∀ sl ∈ slots, ∀ b ∈ bookings, ∀ s e, HasTimes b s e →
        hoursOf e ≤ sl.startHour ∨ sl.endHour ≤ hoursOf s := by
  obtain ⟨bs, hcalc, hsorted, hback, hforth⟩ := calculateAvailableSlots_eq bookings h
  have hlt : ∀ fb ∈ bs, fb.startTime < 1440 ∧ fb.endTime < 1440 := by
    intro fb hfb
    obtain ⟨b, _, hT⟩ := hback fb hfb
    exact ⟨hT.2.2.1, hT.2.2.2⟩
  refine ⟨_, hcalc, ?_⟩
  intro sl hsl b hb s e hT
  obtain ⟨p, hp, rfl⟩ := List.mem_map.mp hsl
  obtain ⟨fb, hfb, rfl, rfl⟩ := hforth b hb s e hT
  obtain ⟨h1, h2, _⟩ := bounds_of_mem_slotMinutes bs 540 (by norm_num) hlt p hp
  rcases disjoint_slotMinutes bs 540 hsorted p hp fb hfb with hd | hd
  · exact Or.inl (hoursOf_le_hoursOf hd (by omega))
  · exact Or.inr (hoursOf_le_hoursOf hd hT.2.2.1)

/-- C8, amended: for every list of bookings whose times are times of day (the pairwise
non-overlapping ones within business hours among them), every instant of `[9, 20)` belongs
to a returned slot, to a booking, or to a free gap that the calculator does not offer, running
from 09:00 or the end of a booking to the start of a booking or 20:00. Such a gap is shorter
than 30 minutes, or it is one of the four gaps of exactly 30 minutes, starting at 15:35,
15:43, 15:50 or 15:58, that the rounded test of the calculator drops (the defect shown under
C9). When no booking starts after 20:00, every returned slot lies within `[9, 20]`. -/
theorem calculateAvailableSlots_covers_but_short_gaps (bookings : List BookingRow)
    (h : ∀ b ∈ bookings, ∃ s e, HasTimes b s e) :
    ∃ slots, calculateAvailableSlots bookings = some slots ∧
      (∀ x : ℚ, 9 ≤ x → x < 20 →
        (∃ sl ∈ slots, InSlot x sl) ∨ (∃ b ∈ bookings, InBooking x b) ∨
        ∃ a e, hoursOf a ≤ x ∧ x < hoursOf e ∧
          (e < a + 30 ∨ (e = a + 30 ∧ a ∈ [935, 943, 950, 958])) ∧
          (a = 540 ∨ ∃ b ∈ bookings, parseClock b.end_time = some a) ∧
          (e = 1200 ∨ ∃ b ∈ bookings, parseClock b.start_time = some e)) ∧
      ((∀ b ∈ bookings, ∀ s e, HasTimes b s e → s ≤ 1200) →
        ∀ sl ∈ slots, 9 ≤ sl.startHour ∧ sl.endHour ≤ 20) := by
  obtain ⟨bs, hcalc, _, hback, _⟩ := calculateAvailableSlots_eq bookings h
  have hlt : ∀ fb ∈ bs, fb.startTime < 1440 ∧ fb.endTime < 1440 := by
    intro fb hfb
    obtain ⟨b, _, hT⟩ := hback fb hfb
    exact ⟨hT.2.2.1, hT.2.2.2⟩
  refine ⟨_, hcalc, ?_, ?_⟩
  · intro x hx9 hx20
    rcases cover_slotMinutes bs 540 (by norm_num) hlt x (by rw [hoursOf_540]; exact hx9) hx20 with
      ⟨p, hp, hp1⟩ | ⟨fb, hfb, hb1⟩ | ⟨a, e, ha, he, hae, hno, h540, hl, hr⟩
    · exact Or.inl ⟨slotOfMinutes p, List.mem_map_of_mem _ hp, hp1⟩
    · obtain ⟨b, hb, hT⟩ := hback fb hfb
      refine Or.inr (Or.inl ⟨b, hb, ?_⟩)
      simp only [InBooking, hT.1, hT.2.1]
      exact hb1
    · have h1440 : a < 1440 := by
        rcases hl with hl | ⟨fb, hfb, hl⟩
        · omega
        · rw [hl]
          exact (hlt fb hfb).2
      refine Or.inr (Or.inr ⟨a, e, ha, he, short_or_dropped h540 h1440 ha hx20 hae hno, ?_, ?_⟩)
      · rcases hl with hl | ⟨fb, hfb, hl⟩
        · exact Or.inl hl
        · obtain ⟨b, hb, hT⟩ := hback fb hfb
          exact Or.inr ⟨b, hb, by rw [hl]; exact hT.2.1⟩
      · rcases hr with hr | ⟨fb, hfb, hr⟩
        · exact Or.inl hr
        · obtain ⟨b, hb, hT⟩ := hback fb hfb
          exact Or.inr ⟨b, hb, by rw [hr]; exact hT.1⟩
  · intro hbus sl hsl
    obtain ⟨p, hp, rfl⟩ := List.mem_map.mp hsl
    obtain ⟨h1, h2, h3⟩ := bounds_of_mem_slotMinutes bs 540 (by norm_num) hlt p hp
    have h540 := le_of_mem_slotMinutes bs 540 p hp
    have hp2 : p.2 ≤ 1200 := by
      rcases h3 with h3 | ⟨fb, hfb, h3⟩
      · omega
      · obtain ⟨b, hb, hT⟩ := hback fb hfb
        have := hbus b hb _ _ hT
        omega
    constructor
    · show (9 : ℚ) ≤ hoursOf p.1
      rw [← hoursOf_540]
      exact hoursOf_le_hoursOf h540 (by omega)
    · show hoursOf p.2 ≤ (20 : ℚ)
      rw [← hoursOf_1200]
      exact hoursOf_le_hoursOf hp2 (by norm_num)

/-- C6 on the example of the specification: the single booking 10:00-11:00. -/
theorem calculateAvailableSlots_chronological_witness :
    ∃ slots, calculateAvailableSlots [confirmedRow "b1" "1" "2025-01-15" "10:00" "11:00"] =
        some slots ∧
      slots.Pairwise (fun a b => a.endHour ≤ b.startHour) ∧
      ∀ sl ∈ slots, sl.startHour < sl.endHour ∧
        slotDuration - 1 / 2 ^ 46 ≤ sl.endHour - sl.startHour ∧
        ∃ a b, parseClock sl.start = some a ∧ parseClock sl.end_ = some b ∧ a + 30 ≤ b :=
  calculateAvailableSlots_chronological [confirmedRow "b1" "1" "2025-01-15" "10:00" "11:00"]
    (fun b hb => by
      rw [List.mem_singleton] at hb
      subst hb
      exact ⟨600, 660, ⟨by decide, by decide, by decide, by decide⟩, by decide⟩)

/-- C7 on two overlapping bookings given out of order: 13:00-15:00 and 12:00-14:00. -/
theorem calculateAvailableSlots_avoids_bookings_witness :
    ∃ slots, calculateAvailableSlots [confirmedRow "b1" "1" "2025-01-15" "13:00" "15:00",
        confirmedRow "b2" "1" "2025-01-15" "12:00" "14:00"] = some slots ∧
      ∀ sl ∈ slots, ∀ b ∈ [confirmedRow "b1" "1" "2025-01-15" "13:00" "15:00",
        confirmedRow "b2" "1" "2025-01-15" "12:00" "14:00"], ∀ s e, HasTimes b s e →
        hoursOf e ≤ sl.startHour ∨ sl.endHour ≤ hoursOf s :=
  calculateAvailableSlots_avoids_bookings [confirmedRow "b1" "1" "2025-01-15" "13:00" "15:00",
      confirmedRow "b2" "1" "2025-01-15" "12:00" "14:00"]
    (fun b hb => by
      simp only [List.mem_cons, List.mem_singleton, List.not_mem_nil, or_false] at hb
      rcases hb with rfl | rfl
      · exact ⟨780, 900, by decide, by decide, by decide, by decide⟩
      · exact ⟨720, 840, by decide, by decide, by decide, by decide⟩)

/-- C8 as stated fails: the bookings 09:00-10:00 and 10:15-20:00 do not overlap and lie
within business hours, `calculateAvailableSlots` returns no slot for them, and the instant
10 of `[9, 20)` (the start of the quarter of an hour left free) belongs to no slot and to no
booking. -/
theorem calculateAvailableSlots_leaves_quarter_hour_uncovered :
    NoConfirmedOverlap (storeWith [confirmedRow "b1" "1" "2025-01-15" "09:00" "10:00",
      confirmedRow "b2" "1" "2025-01-15" "10:15" "20:00"]) ∧
    calculateAvailableSlots [confirmedRow "b1" "1" "2025-01-15" "09:00" "10:00",
      confirmedRow "b2" "1" "2025-01-15" "10:15" "20:00"] = some [] ∧
    (9 : ℚ) ≤ 10 ∧ (10 : ℚ) < 20 ∧
    ¬ ((∃ sl ∈ ([] : List Slot), InSlot 10 sl) ∨
       ∃ b ∈ [confirmedRow "b1" "1" "2025-01-15" "09:00" "10:00",
         confirmedRow "b2" "1" "2025-01-15" "10:15" "20:00"], InBooking 10 b) := by
  decide!

/-- C8, amended, on the bookings 09:00-10:00 and 10:15-20:00. -/
theorem calculateAvailableSlots_covers_but_short_gaps_witness :
    ∃ slots, calculateAvailableSlots [confirmedRow "b1" "1" "2025-01-15" "09:00" "10:00",
        confirmedRow "b2" "1" "2025-01-15" "10:15" "20:00"] = some slots ∧
      (∀ x : ℚ, 9 ≤ x → x < 20 →
        (∃ sl ∈ slots, InSlot x sl) ∨
        (∃ b ∈ [confirmedRow "b1" "1" "2025-01-15" "09:00" "10:00",
          confirmedRow "b2" "1" "2025-01-15" "10:15" "20:00"], InBooking x b) ∨
        ∃ a e, hoursOf a ≤ x ∧ x < hoursOf e ∧
          (e < a + 30 ∨ (e = a + 30 ∧ a ∈ [935, 943, 950, 958])) ∧
          (a = 540 ∨ ∃ b ∈ [confirmedRow "b1" "1" "2025-01-15" "09:00" "10:00",
            confirmedRow "b2" "1" "2025-01-15" "10:15" "20:00"],
              parseClock b.end_time = some a) ∧
          (e = 1200 ∨ ∃ b ∈ [confirmedRow "b1" "1" "2025-01-15" "09:00" "10:00",
            confirmedRow "b2" "1" "2025-01-15" "10:15" "20:00"],
              parseClock b.start_time = some e)) ∧
      ((∀ b ∈ [confirmedRow "b1" "1" "2025-01-15" "09:00" "10:00",
          confirmedRow "b2" "1" "2025-01-15" "10:15" "20:00"],
          ∀ s e, HasTimes b s e → s ≤ 1200) →
        ∀ sl ∈ slots, 9 ≤ sl.startHour ∧ sl.endHour ≤ 20) :=
  calculateAvailableSlots_covers_but_short_gaps
    [confirmedRow "b1" "1" "2025-01-15" "09:00" "10:00",
      confirmedRow "b2" "1" "2025-01-15" "10:15" "20:00"]
    (fun b hb => by
      simp only [List.mem_cons, List.mem_singleton, List.not_mem_nil, or_false] at hb
      rcases hb with rfl | rfl
      · exact ⟨540, 600, by decide, by decide, by decide, by decide⟩
      · exact ⟨615, 1200, by decide, by decide, by decide, by decide⟩)

/-- C9, on the code: the bookings 15:00-15:35 and 16:05-17:00 do not overlap and lie within
business hours; the interval between them, 15:35-16:05, is free and exactly 30 minutes long,
but the test `currentTime + slotDuration <= bookingStart` fails on the rounded hour values,
so `calculateAvailableSlots` returns only 09:00-15:00 and 17:00-20:00. The empty list does
yield the single slot 09:00-20:00. -/
theorem calculateAvailableSlots_drops_half_hour_gap :
    NoConfirmedOverlap (storeWith [confirmedRow "b1" "1" "2025-01-15" "15:00" "15:35",
      confirmedRow "b2" "1" "2025-01-15" "16:05" "17:00"]) ∧
    parseClock "15:35" = some 935 ∧ parseClock "16:05" = some (935 + 30) ∧
    ¬ jsAdd (hoursOf 935) slotDuration ≤ hoursOf 965 ∧
    calculateAvailableSlots [confirmedRow "b1" "1" "2025-01-15" "15:00" "15:35",
      confirmedRow "b2" "1" "2025-01-15" "16:05" "17:00"] =
      some [{ start := "09:00", end_ := "15:00", startHour := 9, endHour := 15 },
        { start := "17:00", end_ := "20:00", startHour := 17, endHour := 20 }] ∧
    calculateAvailableSlots [] =
      some [{ start := "09:00", end_ := "20:00", startHour := 9, endHour := 20 }] := by
  decide!

/-- C10, on the code: the times 20:30 and 20:45 are accepted by `isValidTime` and
`20:30 < 20:45`, yet for the booking 20:30-20:45 `calculateAvailableSlots` returns the slot
09:00-20:30, whose `endHour` 20.5 is past the end of business hours. -/
theorem calculateAvailableSlots_slot_past_business_end :
    isValidTime (some "20:30") = true ∧ isValidTime (some "20:45") = true ∧
    "20:30" < "20:45" ∧
    calculateAvailableSlots [confirmedRow "b1" "1" "2025-01-15" "20:30" "20:45"] =
      some [{ start := "09:00", end_ := "20:30", startHour := 9, endHour := 41 / 2 }] ∧
    (20 : ℚ) < 41 / 2 := by
  decide!

/-! ## Single booking, printed times -/

theorem mem_digits_of_isDigit (c : Char) (h : c.isDigit = true) :
    c ∈ ['0', '1', '2', '3', '4', '5', '6', '7', '8', '9'] := by
  have h1 : 48 ≤ c.toNat ∧ c.toNat ≤ 57 := by
    simp only [Char.isDigit, Bool.and_eq_true, decide_eq_true_eq] at h
    exact ⟨h.1, h.2⟩
  have hc : c = Char.ofNat c.toNat := (Char.ofNat_toNat c).symm
  obtain ⟨h48, h57⟩ := h1
  rw [hc]
  interval_cases c.toNat <;> decide

theorem padStart2_two_digits : ∀ c1 ∈ ['0', '1', '2', '3', '4', '5', '6', '7', '8', '9'],
    ∀ c2 ∈ ['0', '1', '2', '3', '4', '5', '6', '7', '8', '9'],
      padStart2 (toString ((10 * digitValue c1 + digitValue c2 : ℕ) : ℤ)) = String.mk [c1, c2] := by
  decide!

theorem clockString_of_parseClock {time : String} {t : ℕ} (h : parseClock time = some t)
    (ht : t < 1440) : clockString t = time := by
  unfold parseClock at h
  split at h
  · rename_i h1 h2 m1 m2 hdata
    split_ifs at h with hc
    obtain ⟨d1, d2, d3, d4, hrange⟩ := hc
    injection h with h
    have hm : 10 * digitValue m1 + digitValue m2 ≤ 59 := by
      rcases hrange with hr | hr
      · exact hr.2
      · omega
    have hq : t / 60 = 10 * digitValue h1 + digitValue h2 := by omega
    have hr : t % 60 = 10 * digitValue m1 + digitValue m2 := by omega
    unfold clockString
    rw [hq, hr, padStart2_two_digits h1 (mem_digits_of_isDigit h1 d1) h2 (mem_digits_of_isDigit h2 d2),
      padStart2_two_digits m1 (mem_digits_of_isDigit m1 d3) m2 (mem_digits_of_isDigit m2 d4)]
    cases time with
    | mk data =>
      simp only at hdata
      subst hdata
      rfl
  · exact absurd h (by simp)

theorem offered_540_570 : Offered 540 570 := by decide!
theorem offered_1170_1200 : Offered 1170 1200 := by decide!

theorem offered_540_iff {s : ℕ} (hs : s < 1440) : Offered 540 s ↔ 570 ≤ s := by
  constructor
  · intro h
    have := offered_imp (by norm_num) hs h
    omega
  · intro h
    rcases Nat.eq_or_lt_of_le h with h1 | h1
    · rw [← h1]; exact offered_540_570
    · exact offered_of_le hs (by omega)

theorem offered_1200_iff {e : ℕ} (he : e < 1440) : Offered e 1200 ↔ e ≤ 1170 := by
  constructor
  · intro h
    have := offered_imp he (by norm_num) h
    omega
  · intro h
    rcases Nat.eq_or_lt_of_le h with h1 | h1
    · rw [h1]; exact offered_1170_1200
    · exact offered_of_le (by norm_num) (by omega)

theorem slotOfMinutes_eq {a b : ℕ} (ha : a < 1440) (hb : b < 1440) :
    slotOfMinutes (a, b) =
      { start := clockString a, end_ := clockString b, startHour := hoursOf a,
        endHour := hoursOf b } := by
  simp only [slotOfMinutes, mkSlot, formatTime_hoursOf a ha, formatTime_hoursOf b hb]

/-- C11: for a single booking from `s` to `e` inside business hours
(09:00 <= s < e <= 20:00), `calculateAvailableSlots` returns the slot from 09:00 to `s` when
`s` is at least 09:30, followed by the slot from `e` to 20:00 when `e` is at most 19:30, and
nothing else; the printed ends of the slots are `09:00`, `20:00` and the zero-padded `HH:MM`
texts of the booking itself. -/
theorem calculateAvailableSlots_single_booking (b : BookingRow) (s e : ℕ)
    (hT : HasTimes b s e) (h9 : 540 ≤ s) (hse : s < e) (h20 : e ≤ 1200) :
    calculateAvailableSlots [b] =
      some ((if 570 ≤ s then
              [{ start := "09:00", end_ := b.start_time, startHour := 9, endHour := hoursOf s }]
            else []) ++
          (if e ≤ 1170 then
              [{ start := b.end_time, end_ := "20:00", startHour := hoursOf e, endHour := 20 }]
            else [])) := by
  obtain ⟨hs, he, hs1, he1⟩ := hT
  have hmax : max 540 e = e := max_eq_right (by omega)
  have h540 : clockString 540 = "09:00" := by decide!
  have h1200 : clockString 1200 = "20:00" := by decide!
  unfold calculateAvailableSlots
  simp only [formatBookings, formatBooking_of_parse hs he, Option.map_some',
    List.insertionSort, List.orderedInsert, businessStart]
  rw [← hoursOf_540, slotsFrom_hoursOf _ 540 (by norm_num) (by simpa using he1)]
  simp only [slotMinutes, hmax, offered_540_iff hs1, offered_1200_iff he1, List.map_append]
  congr 2
  · split_ifs
    · simp only [List.map_cons, List.map_nil, slotOfMinutes_eq (show 540 < 1440 by norm_num) hs1,
        h540, clockString_of_parseClock hs hs1, hoursOf_540]
    · rfl
  · split_ifs
    · simp only [List.map_cons, List.map_nil, slotOfMinutes_eq he1 (show 1200 < 1440 by norm_num),
        h1200, clockString_of_parseClock he he1, hoursOf_1200]
    · rfl

/-- C11 on its two examples: the booking 10:00-11:00 gives 09:00-10:00 and 11:00-20:00, the
booking 09:00-20:00 gives no slot. -/
theorem calculateAvailableSlots_single_booking_witness :
    calculateAvailableSlots [confirmedRow "b1" "1" "2025-01-15" "10:00" "11:00"] =
      some [{ start := "09:00", end_ := "10:00", startHour := 9, endHour := 10 },
        { start := "11:00", end_ := "20:00", startHour := 11, endHour := 20 }] ∧
    calculateAvailableSlots [confirmedRow "b1" "1" "2025-01-15" "09:00" "20:00"] = some [] :=
  ⟨(calculateAvailableSlots_single_booking
      (confirmedRow "b1" "1" "2025-01-15" "10:00" "11:00") 600 660
      ⟨by decide, by decide, by decide, by decide⟩ (by decide) (by decide) (by decide)).trans
      (by decide!),
   (calculateAvailableSlots_single_booking
      (confirmedRow "b1" "1" "2025-01-15" "09:00" "20:00") 540 1200
      ⟨by decide, by decide, by decide, by decide⟩ (by decide) (by decide) (by decide)).trans
      (by decide!)⟩

/-! ## Time utilities -/

theorem digit_facts : ∀ c ∈ ['0', '1', '2', '3', '4', '5', '6', '7', '8', '9'],
    digitValue c ≤ 9 ∧ '0' ≤ c ∧ (c ≤ '5' ↔ digitValue c ≤ 5) ∧ (c ≤ '1' ↔ digitValue c ≤ 1) ∧
      (c ≤ '3' ↔ digitValue c ≤ 3) ∧ (c = '2' ↔ digitValue c = 2) ∧ c ≠ ':' := by
  decide

theorem isDigit_of_between (c d : Char) (h0 : '0' ≤ c) (hd : c ≤ d) (h9 : d ≤ '9') :
    c.isDigit = true := by
  have h := le_trans hd h9
  simp only [Char.isDigit, Bool.and_eq_true, decide_eq_true_eq]
  exact ⟨h0, h⟩

theorem timeRegexTest_iff (cs : List Char) :
    timeRegexTest cs = true ↔
      (∃ h m1 m2, cs = [h, ':', m1, m2] ∧ h.isDigit = true ∧ m1.isDigit = true ∧
        m2.isDigit = true ∧ digitValue m1 ≤ 5) ∨
      (∃ h1 h2 m1 m2, cs = [h1, h2, ':', m1, m2] ∧ h1.isDigit = true ∧ h2.isDigit = true ∧
        m1.isDigit = true ∧ m2.isDigit = true ∧ 10 * digitValue h1 + digitValue h2 ≤ 23 ∧
        digitValue m1 ≤ 5) := by
  constructor
  · intro h
    unfold timeRegexTest at h
    split at h
    · rename_i a m1 m2
      simp only [Bool.and_eq_true, decide_eq_true_eq] at h
      obtain ⟨⟨ha, hm0, hm5⟩, hm2⟩ := h
      have hm1 := isDigit_of_between m1 '5' hm0 hm5 (by decide)
      exact Or.inl ⟨a, m1, m2, rfl, ha, hm1, hm2,
        ((digit_facts m1 (mem_digits_of_isDigit m1 hm1)).2.2.1).mp hm5⟩
    · rename_i h1 h2 m1 m2
      simp only [Bool.and_eq_true, Bool.or_eq_true, decide_eq_true_eq, beq_iff_eq] at h
      obtain ⟨⟨hh, hm0, hm5⟩, hm2⟩ := h
      have hm1 := isDigit_of_between m1 '5' hm0 hm5 (by decide)
      have hm1v := ((digit_facts m1 (mem_digits_of_isDigit m1 hm1)).2.2.1).mp hm5
      rcases hh with ⟨⟨h10, h11⟩, hh2⟩ | ⟨h12, h20, h23⟩
      · have hd1 := isDigit_of_between h1 '1' h10 h11 (by decide)
        have f1 := digit_facts h1 (mem_digits_of_isDigit h1 hd1)
        have f2 := digit_facts h2 (mem_digits_of_isDigit h2 hh2)
        have := f1.2.2.2.1.mp h11
        exact Or.inr ⟨h1, h2, m1, m2, rfl, hd1, hh2, hm1, hm2, by omega, hm1v⟩
      · have hd2 := isDigit_of_between h2 '3' h20 h23 (by decide)
        have f2 := digit_facts h2 (mem_digits_of_isDigit h2 hd2)
        have := f2.2.2.2.2.1.mp h23
        subst h12
        exact Or.inr ⟨'2', h2, m1, m2, rfl, by decide, hd2, hm1, hm2,
          by have : digitValue '2' = 2 := by decide
             omega, hm1v⟩
    · exact absurd h (by simp)
  · rintro (⟨h, m1, m2, rfl, hh, hm1, hm2, hv⟩ | ⟨h1, h2, m1, m2, rfl, hh1, hh2, hm1, hm2, hv, hv1⟩)
    · have f1 := digit_facts m1 (mem_digits_of_isDigit m1 hm1)
      simp only [timeRegexTest, Bool.and_eq_true, decide_eq_true_eq]
      exact ⟨⟨hh, f1.2.1, f1.2.2.1.mpr hv⟩, hm2⟩
    · have f1 := digit_facts m1 (mem_digits_of_isDigit m1 hm1)
      have g1 := digit_facts h1 (mem_digits_of_isDigit h1 hh1)
      have g2 := digit_facts h2 (mem_digits_of_isDigit h2 hh2)
      simp only [timeRegexTest, Bool.and_eq_true, Bool.or_eq_true, decide_eq_true_eq,
        beq_iff_eq]
      refine ⟨⟨?_, f1.2.1, f1.2.2.1.mpr hv1⟩, hm2⟩
      by_cases h2v : digitValue h1 ≤ 1
      · exact Or.inl ⟨⟨g1.2.1, g1.2.2.2.1.mpr h2v⟩, hh2⟩
      · exact Or.inr ⟨g1.2.2.2.2.2.1.mpr (by omega), g2.2.1, g2.2.2.2.2.1.mpr (by omega)⟩


theorem splitHoursMinutes_four (h m1 m2 : Char) :
    splitHoursMinutes [h, ':', m1, m2] = (digitValue h, 10 * digitValue m1 + digitValue m2) := by
  unfold splitHoursMinutes
  split
  · rename_i heq
    simp only [List.cons.injEq, and_true, true_and] at heq
    obtain ⟨rfl, rfl, rfl⟩ := heq
    rfl
  · rename_i heq
    simp at heq
  · rename_i h4 h5
    exact absurd rfl (h4 h m1 m2)
theorem splitHoursMinutes_five (h1 h2 m1 m2 : Char) :
    splitHoursMinutes [h1, h2, ':', m1, m2] =
      (10 * digitValue h1 + digitValue h2, 10 * digitValue m1 + digitValue m2) := by
  unfold splitHoursMinutes
  split
  · rename_i heq
    simp at heq
  · rename_i heq
    simp only [List.cons.injEq, and_true, true_and] at heq
    obtain ⟨rfl, rfl, rfl, rfl⟩ := heq
    rfl
  · rename_i h4 h5
    exact absurd rfl (h5 h1 h2 m1 m2)

theorem isValidTime_some_iff (s : String) :
    isValidTime (some s) = true ↔
      timeRegexTest (jsTrim s.data) = true ∧
        9 ≤ (splitHoursMinutes (jsTrim s.data)).1 ∧ (splitHoursMinutes (jsTrim s.data)).1 ≤ 20 ∧
        (splitHoursMinutes (jsTrim s.data)).2 ≤ 59 := by
  have hempty : s = "" → jsTrim s.data = [] := by
    intro h
    rw [h]
    rfl
  have hnil : jsTrim s.data = [] → timeRegexTest (jsTrim s.data) = false := by
    intro h
    rw [h]
    rfl
  simp only [isValidTime]
  split_ifs with h1 h2 h3 h4
  · constructor
    · intro h; exact absurd h (by simp)
    · rintro ⟨h, _⟩
      rcases h1 with h1 | h1
      · rw [hnil (hempty h1)] at h; exact absurd h (by simp)
      · rw [hnil h1] at h; exact absurd h (by simp)
  · constructor
    · intro h; exact absurd h (by simp)
    · rintro ⟨h, _⟩
      simp only [Bool.not_eq_true'] at h2
      rw [h2] at h; exact absurd h (by simp)
  · constructor
    · intro h; exact absurd h (by simp)
    · rintro ⟨_, _, h20, h59⟩
      omega
  · constructor
    · intro h; exact absurd h (by simp)
    · rintro ⟨_, h9, h20, _⟩
      omega
  · simp only [Bool.not_eq_true', Bool.not_eq_false] at h2
    simp only [true_iff]
    exact ⟨h2, by omega, by omega, by omega⟩

/-- The inputs accepted by `isValidTime` are the texts described by the specification. -/
theorem isValidTime_eq_true_iff (input : Option String) :
    isValidTime input = true ↔ ∃ s, input = some s ∧ BusinessTimeText (jsTrim s.data) := by
  cases input with
  | none => simp [isValidTime]
  | some s =>
    rw [isValidTime_some_iff, timeRegexTest_iff]
    constructor
    · rintro ⟨hshape | hshape, h9, h20, h59⟩
      · obtain ⟨h, m1, m2, hcs, hh, hm1, hm2, _⟩ := hshape
        rw [hcs] at h9 h20 h59
        simp only [splitHoursMinutes_four, splitHoursMinutes_five] at h9 h20 h59
        refine ⟨s, rfl, ?_⟩
        unfold BusinessTimeText
        rw [hcs]
        refine ⟨[h], [m1, m2], rfl, Or.inl rfl, ?_, rfl, ?_, ?_, ?_, ?_⟩
        · intro c hc; rw [List.mem_singleton.mp hc]; exact hh
        · intro c hc
          simp only [List.mem_cons, List.mem_singleton, List.not_mem_nil, or_false] at hc
          rcases hc with rfl | rfl
          · exact hm1
          · exact hm2
        · simpa [decimalValue] using h9
        · simpa [decimalValue] using h20
        · simpa [decimalValue] using h59
      · obtain ⟨h1, h2, m1, m2, hcs, hh1, hh2, hm1, hm2, _, _⟩ := hshape
        rw [hcs] at h9 h20 h59
        simp only [splitHoursMinutes_four, splitHoursMinutes_five] at h9 h20 h59
        refine ⟨s, rfl, ?_⟩
        unfold BusinessTimeText
        rw [hcs]
        refine ⟨[h1, h2], [m1, m2], rfl, Or.inr rfl, ?_, rfl, ?_, ?_, ?_, ?_⟩
        · intro c hc
          simp only [List.mem_cons, List.mem_singleton, List.not_mem_nil, or_false] at hc
          rcases hc with rfl | rfl
          · exact hh1
          · exact hh2
        · intro c hc
          simp only [List.mem_cons, List.mem_singleton, List.not_mem_nil, or_false] at hc
          rcases hc with rfl | rfl
          · exact hm1
          · exact hm2
        · simpa [decimalValue] using h9
        · simpa [decimalValue] using h20
        · simpa [decimalValue] using h59
    · rintro ⟨s', hs', hour, minute, hcs, hlen, hhour, hmlen, hminute, h9, h20, h59⟩
      injection hs' with hs'
      subst hs'
      obtain ⟨m1, m2, rfl⟩ := List.length_eq_two.mp hmlen
      have hm1 := hminute m1 (by simp)
      have hm2 := hminute m2 (by simp)
      have f1 := digit_facts m1 (mem_digits_of_isDigit m1 hm1)
      have f2 := digit_facts m2 (mem_digits_of_isDigit m2 hm2)
      simp only [decimalValue, List.foldl] at h59
      rcases hlen with hlen | hlen
      · obtain ⟨h, rfl⟩ := List.length_eq_one.mp hlen
        have hh := hhour h (by simp)
        simp only [decimalValue, List.foldl] at h9 h20
        rw [hcs]
        simp only [List.singleton_append]
        simp only [splitHoursMinutes_four, splitHoursMinutes_five]
        exact ⟨Or.inl ⟨h, m1, m2, rfl, hh, hm1, hm2, by omega⟩, by omega, by omega, by omega⟩
      · obtain ⟨h1, h2, rfl⟩ := List.length_eq_two.mp hlen
        have hh1 := hhour h1 (by simp)
        have hh2 := hhour h2 (by simp)
        simp only [decimalValue, List.foldl] at h9 h20
        rw [hcs]
        simp only [List.cons_append, List.nil_append]
        simp only [splitHoursMinutes_four, splitHoursMinutes_five]
        exact ⟨Or.inr ⟨h1, h2, m1, m2, rfl, hh1, hh2, hm1, hm2, by omega, by omega⟩,
          by omega, by omega, by omega⟩


/-- C12: `isValidTime` returns true exactly when its input, after trimming whitespace, is a
1- or 2-digit hour between 9 and 20, a colon, and a 2-digit minute between 00 and 59; it is
a total function, false on `undefined`, on the empty and the all-whitespace string, on wrong
digit counts, on out-of-range values, on hours before 9 or after 20, on negative numbers and
on non-numeric text. -/
theorem isValidTime_spec :
    (∀ input : Option String,
      isValidTime input = true ↔ ∃ s, input = some s ∧ BusinessTimeText (jsTrim s.data)) ∧
    isValidTime none = false ∧ isValidTime (some "") = false ∧
    isValidTime (some "   ") = false ∧ isValidTime (some "12:345") = false ∧
    isValidTime (some "25:00") = false ∧ isValidTime (some "09:60") = false ∧
    isValidTime (some "24:00") = false ∧ isValidTime (some "08:00") = false ∧
    isValidTime (some "21:00") = false ∧ isValidTime (some "-1:00") = false ∧
    isValidTime (some "abc") = false ∧ isValidTime (some "09:00") = true ∧
    isValidTime (some "9:00") = true ∧ isValidTime (some " 13:30 ") = true ∧
    isValidTime (some "20:00") = true := by
  refine ⟨isValidTime_eq_true_iff, ?_⟩
  decide

/-- C13, on the code: `isValidTime` accepts `20:30`, minute 1230 of the day, although business
hours end at 20:00, minute 1200. -/
theorem isValidTime_accepts_after_closing :
    isValidTime (some "20:30") = true ∧ parseClock "20:30" = some 1230 ∧
    parseClock "20:00" = some 1200 ∧ 1200 < 1230 := by
  decide

theorem splitColon_of_not_mem (m : List Char) (hm : ':' ∉ m) : splitColon m = [m] := by
  induction m with
  | nil => rfl
  | cons c cs ih =>
    have hc : c ≠ ':' := fun h => hm (by rw [h]; exact List.mem_cons_self _ _)
    have hcs : ':' ∉ cs := fun h => hm (List.mem_cons_of_mem _ h)
    simp only [splitColon, hc, if_false, ih hcs]

theorem splitColon_append (h m : List Char) (hh : ':' ∉ h) :
    splitColon (h ++ ':' :: m) = h :: splitColon m := by
  induction h with
  | nil => simp [splitColon]
  | cons c cs ih =>
    have hc : c ≠ ':' := fun h => hh (by rw [h]; exact List.mem_cons_self _ _)
    have hcs : ':' ∉ cs := fun h => hh (List.mem_cons_of_mem _ h)
    have ih' := ih hcs
    show splitColon (c :: (cs ++ ':' :: m)) = (c :: cs) :: splitColon m
    simp only [splitColon, hc, if_false, ih']

theorem normalizeTime_parts (h m : List Char) (hh : ':' ∉ h) (hm : ':' ∉ m) :
    normalizeTime (some (String.mk (h ++ ':' :: m))) =
      Except.ok (padStart2 (String.mk h) ++ ":" ++ padStart2 (String.mk m)) := by
  have hne : String.mk (h ++ ':' :: m) ≠ "" := by
    intro hcon
    have := congrArg String.data hcon
    simp at this
  simp only [normalizeTime, hne, if_false, splitColon_append h m hh, splitColon_of_not_mem m hm]

theorem jsLength_mk_append (a b : List Char) :
    jsLength (String.mk (a ++ b)) = jsLength (String.mk a) + jsLength (String.mk b) := by
  simp [jsLength, List.map_append, List.sum_append]

theorem jsLength_replicate_zero (k : ℕ) : jsLength (String.mk (List.replicate k '0')) = k := by
  induction k with
  | zero => rfl
  | succ n ih =>
    have : jsLength (String.mk (List.replicate (n + 1) '0')) =
        1 + jsLength (String.mk (List.replicate n '0')) := by
      simp [jsLength, List.replicate_succ]
    rw [this, ih]; omega

theorem padStart2_data (s : String) :
    (padStart2 s).data = List.replicate (2 - jsLength s) '0' ++ s.data := rfl

theorem padStart2_of_two_le (s : String) (h : 2 ≤ jsLength s) : padStart2 s = s := by
  unfold padStart2
  have : 2 - jsLength s = 0 := by omega
  rw [this]
  cases s
  rfl

theorem two_le_jsLength_padStart2 (s : String) : 2 ≤ jsLength (padStart2 s) := by
  have h : padStart2 s = String.mk (List.replicate (2 - jsLength s) '0' ++ s.data) := rfl
  rw [h, jsLength_mk_append, jsLength_replicate_zero]
  have : jsLength (String.mk s.data) = jsLength s := rfl
  omega

theorem colon_not_mem_padStart2 (cs : List Char) (h : ':' ∉ cs) :
    ':' ∉ (padStart2 (String.mk cs)).data := by
  rw [padStart2_data, List.mem_append]
  rintro (h1 | h1)
  · have := List.eq_of_mem_replicate h1
    exact absurd this (by decide)
  · exact h h1


theorem normalizeTime_padded (h m : List Char) (hh : ':' ∉ h) (hm : ':' ∉ m) :
    normalizeTime (some (padStart2 (String.mk h) ++ ":" ++ padStart2 (String.mk m))) =
      Except.ok (padStart2 (String.mk h) ++ ":" ++ padStart2 (String.mk m)) := by
  have hshape : padStart2 (String.mk h) ++ ":" ++ padStart2 (String.mk m) =
      String.mk ((padStart2 (String.mk h)).data ++ ':' :: (padStart2 (String.mk m)).data) := by
    apply String.ext
    simp [String.data_append]
  rw [hshape, normalizeTime_parts _ _ (colon_not_mem_padStart2 h hh) (colon_not_mem_padStart2 m hm)]
  have e1 : String.mk (padStart2 (String.mk h)).data = padStart2 (String.mk h) := rfl
  have e2 : String.mk (padStart2 (String.mk m)).data = padStart2 (String.mk m) := rfl
  rw [e1, e2, padStart2_of_two_le _ (two_le_jsLength_padStart2 _),
    padStart2_of_two_le _ (two_le_jsLength_padStart2 _)]
  rw [← hshape]

/-- C14: `normalizeTime` returns `''` for `undefined` and for the empty string; for every
string `h:m` (two parts without a colon) it returns the hour part and the minute part, each
left-padded with `'0'` to at least two characters, joined by `':'`, and the result is a fixed
point of `normalizeTime`; a part of two or more characters is left as it is, so `9:5` becomes
`09:05`, `10:5` becomes `10:05` and `09:00` is returned unchanged. -/
theorem normalizeTime_spec :
    normalizeTime none = Except.ok "" ∧ normalizeTime (some "") = Except.ok "" ∧
    (∀ h m : List Char, ':' ∉ h → ':' ∉ m →
      normalizeTime (some (String.mk (h ++ ':' :: m))) =
        Except.ok (padStart2 (String.mk h) ++ ":" ++ padStart2 (String.mk m)) ∧
      2 ≤ jsLength (padStart2 (String.mk h)) ∧ 2 ≤ jsLength (padStart2 (String.mk m)) ∧
      normalizeTime (some (padStart2 (String.mk h) ++ ":" ++ padStart2 (String.mk m))) =
        Except.ok (padStart2 (String.mk h) ++ ":" ++ padStart2 (String.mk m))) ∧
    (∀ s : String, 2 ≤ jsLength s → padStart2 s = s) ∧
    normalizeTime (some "9:5") = Except.ok "09:05" ∧
    normalizeTime (some "10:5") = Except.ok "10:05" ∧
    normalizeTime (some "09:00") = Except.ok "09:00" := by
  refine ⟨rfl, rfl, ?_, padStart2_of_two_le, by decide, by decide, by decide⟩
  intro h m hh hm
  exact ⟨normalizeTime_parts h m hh hm, two_le_jsLength_padStart2 _, two_le_jsLength_padStart2 _,
    normalizeTime_padded h m hh hm⟩

/-- C14 on the example `9:5`. -/
theorem normalizeTime_spec_witness :
    normalizeTime (some (String.mk (['9'] ++ ':' :: ['5']))) =
      Except.ok (padStart2 (String.mk ['9']) ++ ":" ++ padStart2 (String.mk ['5'])) :=
  (normalizeTime_spec.2.2.1 ['9'] ['5'] (by decide) (by decide)).1

theorem padStart2_one_digit : ∀ c ∈ ['0', '1', '2', '3', '4', '5', '6', '7', '8', '9'],
    padStart2 (String.mk [c]) = String.mk ['0', c] := by
  decide

theorem jsLength_two_digits (a b : Char) (ha : a.isDigit = true) (hb : b.isDigit = true) :
    jsLength (String.mk [a, b]) = 2 := by
  have h1 : a.toNat < 0x10000 := by
    simp only [Char.isDigit, Bool.and_eq_true, decide_eq_true_eq] at ha
    have := ha.2
    have h57 : a.toNat ≤ 57 := this
    omega
  have h2 : b.toNat < 0x10000 := by
    simp only [Char.isDigit, Bool.and_eq_true, decide_eq_true_eq] at hb
    have := hb.2
    have h57 : b.toNat ≤ 57 := this
    omega
  simp [jsLength, h1, h2]

theorem normalizeTime_of_valid_trimmed (s : String) (hvalid : isValidTime (some s) = true)
    (htrim : jsTrim s.data = s.data) :
    ∃ r, normalizeTime (some s) = Except.ok r ∧
      parseClock r =
        some (60 * (splitHoursMinutes s.data).1 + (splitHoursMinutes s.data).2) := by
  rw [isValidTime_some_iff, htrim, timeRegexTest_iff] at hvalid
  obtain ⟨hshape, h9, h20, h59⟩ := hvalid
  have hs : s = String.mk s.data := rfl
  rcases hshape with ⟨h, m1, m2, hcs, hh, hm1, hm2, hm5⟩ | ⟨h1, h2, m1, m2, hcs, hh1, hh2, hm1, hm2, h23, hm5⟩
  · have hc := digit_facts h (mem_digits_of_isDigit h hh)
    have hc1 := digit_facts m1 (mem_digits_of_isDigit m1 hm1)
    have hc2 := digit_facts m2 (mem_digits_of_isDigit m2 hm2)
    refine ⟨String.mk ['0', h, ':', m1, m2], ?_, ?_⟩
    · rw [hs, hcs]
      have e : [h, ':', m1, m2] = [h] ++ ':' :: [m1, m2] := rfl
      rw [e, normalizeTime_parts [h] [m1, m2] (by simp [Ne.symm hc.2.2.2.2.2.2])
        (by simp [Ne.symm hc1.2.2.2.2.2.2, Ne.symm hc2.2.2.2.2.2.2]),
        padStart2_one_digit h (mem_digits_of_isDigit h hh),
        padStart2_of_two_le _ (le_of_eq (jsLength_two_digits m1 m2 hm1 hm2).symm)]
      rfl
    · rw [hcs, splitHoursMinutes_four]
      rw [hcs, splitHoursMinutes_four] at h59
      have h0 : digitValue '0' = 0 := rfl
      have hd0 : ('0' : Char).isDigit = true := rfl
      simp only [parseClock, hd0, hh, hm1, hm2, h0, true_and]
      rw [if_pos (Or.inl ⟨by have := hc.1; omega, h59⟩)]
      simp
  · have hc1 := digit_facts h1 (mem_digits_of_isDigit h1 hh1)
    have hc2 := digit_facts h2 (mem_digits_of_isDigit h2 hh2)
    have hd1 := digit_facts m1 (mem_digits_of_isDigit m1 hm1)
    have hd2 := digit_facts m2 (mem_digits_of_isDigit m2 hm2)
    refine ⟨String.mk [h1, h2, ':', m1, m2], ?_, ?_⟩
    · rw [hs, hcs]
      have e : [h1, h2, ':', m1, m2] = [h1, h2] ++ ':' :: [m1, m2] := rfl
      rw [e, normalizeTime_parts [h1, h2] [m1, m2]
        (by simp [Ne.symm hc1.2.2.2.2.2.2, Ne.symm hc2.2.2.2.2.2.2])
        (by simp [Ne.symm hd1.2.2.2.2.2.2, Ne.symm hd2.2.2.2.2.2.2]),
        padStart2_of_two_le _ (le_of_eq (jsLength_two_digits h1 h2 hh1 hh2).symm),
        padStart2_of_two_le _ (le_of_eq (jsLength_two_digits m1 m2 hm1 hm2).symm)]
      rfl
    · rw [hcs, splitHoursMinutes_five]
      rw [hcs, splitHoursMinutes_five] at h59
      simp only [parseClock, hh1, hh2, hm1, hm2, true_and]
      rw [if_pos (Or.inl ⟨h23, h59⟩)]

/-! ## The booking form -/

theorem digitChar_facts : ∀ n : ℕ, n < 10 →
    (digitChar n).isDigit = true ∧ digitValue (digitChar n) = n ∧
      isJsWhiteSpace (digitChar n) = false ∧ digitChar n ≠ ':' ∧
      (digitChar n).toNat < 0x10000 := by
  decide

theorem padStart2_toString : ∀ n : ℕ, n < 100 →
    padStart2 (toString ((n : ℕ) : ℤ)) = String.mk [digitChar (n / 10), digitChar (n % 10)] := by
  decide!

theorem clockString_eq_mk (t : ℕ) (ht : t < 1440) :
    clockString t = String.mk [digitChar (t / 60 / 10), digitChar (t / 60 % 10), ':',
      digitChar (t % 60 / 10), digitChar (t % 60 % 10)] := by
  unfold clockString
  rw [padStart2_toString _ (by omega), padStart2_toString _ (by omega)]
  rfl

theorem jsTrim_five (c1 c2 c3 c4 c5 : Char) (h1 : isJsWhiteSpace c1 = false)
    (h5 : isJsWhiteSpace c5 = false) : jsTrim [c1, c2, c3, c4, c5] = [c1, c2, c3, c4, c5] := by
  simp [jsTrim, List.dropWhile, h1, h5]

theorem jsTrim_two (c1 c2 : Char) (h1 : isJsWhiteSpace c1 = false)
    (h2 : isJsWhiteSpace c2 = false) : jsTrim [c1, c2] = [c1, c2] := by
  simp [jsTrim, List.dropWhile, h1, h2]

theorem clockString_business_facts (t : ℕ) (h9 : 540 ≤ t) (h21 : t < 1260) :
    isValidTime (some (clockString t)) = true ∧
    normalizeTime (some (clockString t)) = Except.ok (clockString t) ∧
    numberParts (clockString t) = (t / 60, t % 60) ∧ wallMinutes (clockString t) = t := by
  have ht : t < 1440 := by omega
  obtain ⟨a1, a2, a3, a4, a5⟩ := digitChar_facts (t / 60 / 10) (by omega)
  obtain ⟨b1, b2, b3, b4, b5⟩ := digitChar_facts (t / 60 % 10) (by omega)
  obtain ⟨c1, c2, c3, c4, c5⟩ := digitChar_facts (t % 60 / 10) (by omega)
  obtain ⟨d1, d2, d3, d4, d5⟩ := digitChar_facts (t % 60 % 10) (by omega)
  have htrim := jsTrim_five (digitChar (t / 60 / 10)) (digitChar (t / 60 % 10)) ':'
    (digitChar (t % 60 / 10)) (digitChar (t % 60 % 10)) a3 d3
  have hcolon1 : ':' ∉ [digitChar (t / 60 / 10), digitChar (t / 60 % 10)] := by
    simp only [List.mem_cons, List.mem_singleton, List.not_mem_nil, or_false, not_or]
    exact ⟨fun h => a4 h.symm, fun h => b4 h.symm⟩
  have hcolon2 : ':' ∉ [digitChar (t % 60 / 10), digitChar (t % 60 % 10)] := by
    simp only [List.mem_cons, List.mem_singleton, List.not_mem_nil, or_false, not_or]
    exact ⟨fun h => c4 h.symm, fun h => d4 h.symm⟩
  have hlen1 : jsLength (String.mk [digitChar (t / 60 / 10), digitChar (t / 60 % 10)]) = 2 := by
    simp [jsLength, a5, b5]
  have hlen2 : jsLength (String.mk [digitChar (t % 60 / 10), digitChar (t % 60 % 10)]) = 2 := by
    simp [jsLength, c5, d5]
  have hnorm := normalizeTime_parts _ _ hcolon1 hcolon2
  rw [padStart2_of_two_le _ (by omega), padStart2_of_two_le _ (by omega)] at hnorm
  have hsplit := splitColon_append [digitChar (t / 60 / 10), digitChar (t / 60 % 10)]
    [digitChar (t % 60 / 10), digitChar (t % 60 % 10)] hcolon1
  rw [splitColon_of_not_mem _ hcolon2] at hsplit
  rw [clockString_eq_mk t ht]
  refine ⟨?_, ?_, ?_, ?_⟩
  · rw [isValidTime_some_iff]
    simp only [htrim, splitHoursMinutes_five, a2, b2, c2, d2]
    refine ⟨(timeRegexTest_iff _).mpr (Or.inr ⟨_, _, _, _, rfl, a1, b1, c1, d1, ?_, ?_⟩), ?_, ?_, ?_⟩
    all_goals (first | (rw [a2, b2]; omega) | (rw [c2]; omega) | omega)
  · exact hnorm
  · unfold numberParts
    have hdata : (String.mk [digitChar (t / 60 / 10), digitChar (t / 60 % 10), ':',
        digitChar (t % 60 / 10), digitChar (t % 60 % 10)]).data =
        [digitChar (t / 60 / 10), digitChar (t / 60 % 10)] ++
          ':' :: [digitChar (t % 60 / 10), digitChar (t % 60 % 10)] := rfl
    rw [hdata, hsplit]
    simp only [jsNumber, jsTrim_two _ _ a3 b3, jsTrim_two _ _ c3 d3, decimalValue, List.foldl,
      a2, b2, c2, d2]
    ext <;> simp <;> omega
  · unfold wallMinutes
    simp only [htrim, splitHoursMinutes_five, a2, b2, c2, d2]
    omega

theorem pickedTime_eq_some {hours minutes : ℕ} {s : String} (hm : minutes ≤ 59)
    (h : pickedTime hours minutes = some s) :
    ∃ t, 540 ≤ t ∧ t < 1260 ∧ s = clockString t := by
  unfold pickedTime at h
  split_ifs at h with hc
  injection h with h
  refine ⟨60 * hours + minutes, by omega, by omega, ?_⟩
  have h1 : (60 * hours + minutes) / 60 = hours := by omega
  have h2 : (60 * hours + minutes) % 60 = minutes := by omega
  rw [← h]
  unfold clockString
  rw [h1, h2]
  rfl

theorem clockString_ne_empty (t : ℕ) (ht : t < 1440) : clockString t ≠ "" := by
  intro h
  have h1 := parseClock_clockString t ht
  have h2 : parseClock "" = none := rfl
  rw [h, h2] at h1
  cases h1

theorem endNotAfterStart_clockString (ts te : ℕ) (hs : ts < 1440) (he : te < 1440) :
    endNotAfterStart (clockString ts) (clockString te) = decide (te ≤ ts) := by
  unfold endNotAfterStart
  rw [parseClock_clockString ts hs, parseClock_clockString te he]

theorem handleBooking_clockString (env : DateEnv) (roomId userId : String) (form : BookingForm)
    (db : Database) (ts te : ℕ) (hs : form.startTime = clockString ts)
    (he : form.endTime = clockString te) (hs9 : 540 ≤ ts) (hs21 : ts < 1260) (he9 : 540 ≤ te)
    (he21 : te < 1260) (hcm : env.currentMinute < 60) :
    handleBooking env roomId userId form db =
      if form.dateString = "" ∨ form.title = "" then
        rejectWith db "Error" "Please fill in all required fields"
      else if form.inputDate < env.today then
        rejectWith db "Invalid Date"
          "Cannot book rooms for past dates. Please select today or a future date."
      else if form.inputDate > env.now + 180 * 24 * 60 * 60 * 1000 then
        rejectWith db "Invalid Date" "Cannot book rooms more than 6 months in advance."
      else if 100 ≤ jsLength form.description then
        rejectWith db "Error" "Description should be less than 100 characters"
      else if IsToday env form ∧ ts ≤ nowMinutes env then
        rejectWith db "Error" "Cannot book a time that has already passed today"
      else if IsToday env form ∧ te ≤ nowMinutes env then
        rejectWith db "Error" "End time cannot be in the past"
      else if te ≤ ts then
        rejectWith db "Error" "End time must be after start time"
      else submitBooking db (requestedBooking env roomId userId form) := by
  obtain ⟨s1, s2, s3, _⟩ := clockString_business_facts ts hs9 hs21
  obtain ⟨e1, e2, e3, _⟩ := clockString_business_facts te he9 he21
  have hsne : form.startTime ≠ "" := by rw [hs]; exact clockString_ne_empty ts (by omega)
  have hene : form.endTime ≠ "" := by rw [he]; exact clockString_ne_empty te (by omega)
  have hstart : (IsToday env form ∧ (ts / 60 < env.currentHour ∨
      (ts / 60 = env.currentHour ∧ ts % 60 ≤ env.currentMinute))) ↔
      (IsToday env form ∧ ts ≤ nowMinutes env) := by
    unfold nowMinutes
    constructor <;> rintro ⟨h1, h2⟩ <;> exact ⟨h1, by omega⟩
  have hend : (IsToday env form ∧ (te / 60 < env.currentHour ∨
      (te / 60 = env.currentHour ∧ te % 60 ≤ env.currentMinute))) ↔
      (IsToday env form ∧ te ≤ nowMinutes env) := by
    unfold nowMinutes
    constructor <;> rintro ⟨h1, h2⟩ <;> exact ⟨h1, by omega⟩
  have hreq : BookingData.mk (toString env.submitNow) roomId userId
      (String.mk (jsTrim form.title.data)) (some (String.mk (jsTrim form.description.data)))
      form.dateString (clockString ts) (clockString te) =
        requestedBooking env roomId userId form := by
    unfold requestedBooking
    rw [hs, he]
  unfold handleBooking
  simp only [hsne, hene, false_or, or_false, hs, he, s1, e1, s2, e2, s3, e3, Bool.not_true,
    Bool.false_eq_true, if_false, endNotAfterStart_clockString ts te (by omega) (by omega),
    decide_eq_true_eq, ge_iff_le, hreq]
  have hisToday : (env.toDateString form.inputDate = env.toDateString env.today) =
      IsToday env form := rfl
  simp only [hisToday, hstart, hend, clockString_ne_empty ts (by omega),
    clockString_ne_empty te (by omega), false_or]


theorem find?_check_cons (p : Prop) [Decidable p] (alert : Shown)
    (rest : List (Bool × Shown)) :
    (((decide p, alert) :: rest).find? (fun check => check.1)).map (fun check => check.2) =
      if p then some alert
      else (rest.find? (fun check => check.1)).map (fun check => check.2) := by
  by_cases h : p <;> simp [List.find?, h]

theorem find?_flag_cons (flag : Bool) (alert : Shown) (rest : List (Bool × Shown)) :
    (((!flag, alert) :: rest).find? (fun check => check.1)).map (fun check => check.2) =
      if flag = false then some alert
      else (rest.find? (fun check => check.1)).map (fun check => check.2) := by
  cases flag <;> simp [List.find?]

theorem firstFailure_eq (env : DateEnv) (form : BookingForm) :
    firstFailure env form =
      if form.dateString = "" ∨ form.startTime = "" ∨ form.endTime = "" ∨ form.title = "" then
        some (Shown.alert "Error" "Please fill in all required fields")
      else if form.inputDate < env.today then
        some (Shown.alert "Invalid Date"
          "Cannot book rooms for past dates. Please select today or a future date.")
      else if form.inputDate > env.now + 180 * 24 * 60 * 60 * 1000 then
        some (Shown.alert "Invalid Date" "Cannot book rooms more than 6 months in advance.")
      else if 100 ≤ jsLength form.description then
        some (Shown.alert "Error" "Description should be less than 100 characters")
      else if isValidTime (some form.startTime) = false then
        some (Shown.alert "Error" "Please enter valid start time (09:00 to 20:00)")
      else if isValidTime (some form.endTime) = false then
        some (Shown.alert "Error" "Please enter valid end time (09:00 to 20:00)")
      else if IsToday env form ∧ wallMinutes form.startTime ≤ nowMinutes env then
        some (Shown.alert "Error" "Cannot book a time that has already passed today")
      else if IsToday env form ∧ wallMinutes form.endTime ≤ nowMinutes env then
        some (Shown.alert "Error" "End time cannot be in the past")
      else if wallMinutes form.endTime ≤ wallMinutes form.startTime then
        some (Shown.alert "Error" "End time must be after start time")
      else none := by
  unfold firstFailure orderedChecks
  simp only [find?_check_cons, find?_flag_cons, List.find?_nil, Option.map_none',
    Bool.not_eq_true', ge_iff_le, gt_iff_lt]

theorem handleBooking_eq_firstFailure (env : DateEnv) (roomId userId : String)
    (form : BookingForm) (db : Database) (hform : FormTimes form)
    (hcm : env.currentMinute < 60) :
    handleBooking env roomId userId form db =
      match firstFailure env form with
      | some alert => { shown := alert, created := none, store := db }
      | none => submitBooking db (requestedBooking env roomId userId form) := by
  by_cases hmiss : form.dateString = "" ∨ form.startTime = "" ∨ form.endTime = "" ∨
      form.title = ""
  · rw [firstFailure_eq, if_pos hmiss]
    unfold handleBooking
    rw [if_pos hmiss]
    rfl
  · have hmiss' := hmiss
    simp only [not_or] at hmiss'
    obtain ⟨hd, hs0, he0, ht0⟩ := hmiss'
    obtain ⟨hps, hpe⟩ := hform
    obtain ⟨sh, sm, _, hsm, hps⟩ := hps.resolve_left hs0
    obtain ⟨eh, em, _, hem, hpe⟩ := hpe.resolve_left he0
    obtain ⟨ts, hs9, hs21, hs⟩ := pickedTime_eq_some hsm hps
    obtain ⟨te, he9, he21, he⟩ := pickedTime_eq_some hem hpe
    obtain ⟨s1, _, _, s4⟩ := clockString_business_facts ts hs9 hs21
    obtain ⟨e1, _, _, e4⟩ := clockString_business_facts te he9 he21
    rw [handleBooking_clockString env roomId userId form db ts te hs he hs9 hs21 he9 he21 hcm,
      firstFailure_eq, if_neg hmiss, if_neg (by simp [hd, ht0])]
    rw [hs, he, s1, e1, s4, e4]
    simp only [Bool.true_eq_false, if_false]
    split_ifs <;> rfl


theorem firstFailure_eq_none_iff (env : DateEnv) (form : BookingForm) :
    firstFailure env form = none ↔ ∀ check ∈ orderedChecks env form, check.1 = false := by
  unfold firstFailure
  rw [Option.map_eq_none', List.find?_eq_none]
  simp only [Bool.not_eq_true]

theorem created_submitBooking (db : Database) (data : BookingData) :
    (submitBooking db data).created = some data := by
  unfold submitBooking
  split <;> rfl

theorem shown_submitBooking (db : Database) (data : BookingData) :
    (submitBooking db data).shown = Shown.alert "Success" "Room booked successfully!" ∨
      ∃ error, (submitBooking db data).shown = Shown.bookingFailed error := by
  unfold submitBooking
  split
  · exact Or.inl rfl
  · exact Or.inr ⟨_, rfl⟩

theorem valid_unpadded_facts (s : String) (hvalid : isValidTime (some s) = true)
    (htrim : jsTrim s.data = s.data) :
    540 ≤ wallMinutes s ∧ wallMinutes s < 1260 ∧ s ≠ "" ∧
      normalizeTime (some s) = Except.ok (clockString (wallMinutes s)) := by
  obtain ⟨r, hr, hparse⟩ := normalizeTime_of_valid_trimmed s hvalid htrim
  have hv := (isValidTime_some_iff s).mp hvalid
  rw [htrim] at hv
  obtain ⟨_, h9, h20, h59⟩ := hv
  have hw : wallMinutes s =
      60 * (splitHoursMinutes s.data).1 + (splitHoursMinutes s.data).2 := by
    unfold wallMinutes
    rw [htrim]
  rw [← hw] at hparse
  have hlo : 540 ≤ wallMinutes s := by omega
  have hhi : wallMinutes s < 1260 := by omega
  refine ⟨hlo, hhi, ?_, ?_⟩
  · intro hempty
    rw [hempty] at hvalid
    exact absurd hvalid (by decide)
  · rw [hr, clockString_of_parseClock hparse (by omega)]

theorem handleBooking_of_valid (env : DateEnv) (roomId userId : String) (form : BookingForm)
    (db : Database) (ts te : ℕ) (hsne : form.startTime ≠ "") (hene : form.endTime ≠ "")
    (hvs : isValidTime (some form.startTime) = true)
    (hve : isValidTime (some form.endTime) = true)
    (hns : normalizeTime (some form.startTime) = Except.ok (clockString ts))
    (hne : normalizeTime (some form.endTime) = Except.ok (clockString te))
    (hs9 : 540 ≤ ts) (hs21 : ts < 1260) (he9 : 540 ≤ te) (he21 : te < 1260)
    (hcm : env.currentMinute < 60) :
    handleBooking env roomId userId form db =
      if form.dateString = "" ∨ form.title = "" then
        rejectWith db "Error" "Please fill in all required fields"
      else if form.inputDate < env.today then
        rejectWith db "Invalid Date"
          "Cannot book rooms for past dates. Please select today or a future date."
      else if form.inputDate > env.now + 180 * 24 * 60 * 60 * 1000 then
        rejectWith db "Invalid Date" "Cannot book rooms more than 6 months in advance."
      else if 100 ≤ jsLength form.description then
        rejectWith db "Error" "Description should be less than 100 characters"
      else if IsToday env form ∧ ts ≤ nowMinutes env then
        rejectWith db "Error" "Cannot book a time that has already passed today"
      else if IsToday env form ∧ te ≤ nowMinutes env then
        rejectWith db "Error" "End time cannot be in the past"
      else if te ≤ ts then
        rejectWith db "Error" "End time must be after start time"
      else submitBooking db (BookingData.mk (toString env.submitNow) roomId userId
        (String.mk (jsTrim form.title.data)) (some (String.mk (jsTrim form.description.data)))
        form.dateString (clockString ts) (clockString te)) := by
  obtain ⟨_, _, s3, _⟩ := clockString_business_facts ts hs9 hs21
  obtain ⟨_, _, e3, _⟩ := clockString_business_facts te he9 he21
  have hstart : (IsToday env form ∧ (ts / 60 < env.currentHour ∨
      (ts / 60 = env.currentHour ∧ ts % 60 ≤ env.currentMinute))) ↔
      (IsToday env form ∧ ts ≤ nowMinutes env) := by
    unfold nowMinutes
    constructor <;> rintro ⟨h1, h2⟩ <;> exact ⟨h1, by omega⟩
  have hend : (IsToday env form ∧ (te / 60 < env.currentHour ∨
      (te / 60 = env.currentHour ∧ te % 60 ≤ env.currentMinute))) ↔
      (IsToday env form ∧ te ≤ nowMinutes env) := by
    unfold nowMinutes
    constructor <;> rintro ⟨h1, h2⟩ <;> exact ⟨h1, by omega⟩
  unfold handleBooking
  simp only [hsne, hene, false_or, or_false, hvs, hve, hns, hne, s3, e3, Bool.not_true,
    Bool.false_eq_true, if_false, endNotAfterStart_clockString ts te (by omega) (by omega),
    decide_eq_true_eq, ge_iff_le]
  have hisToday : (env.toDateString form.inputDate = env.toDateString env.today) =
      IsToday env form := rfl
  simp only [hisToday, hstart, hend]

theorem handleBooking_eq_checks (env : DateEnv) (roomId userId : String)
    (form : BookingForm) (db : Database) (hstart : Unpadded form.startTime)
    (hend : Unpadded form.endTime) (hcm : env.currentMinute < 60) :
    handleBooking env roomId userId form db =
      match firstFailure env form with
      | some alert => { shown := alert, created := none, store := db }
      | none => submitBooking db (normalizedRequest env roomId userId form) := by
  rw [firstFailure_eq]
  by_cases h1 : form.dateString = "" ∨ form.startTime = "" ∨ form.endTime = "" ∨
      form.title = ""
  · unfold handleBooking
    rw [if_pos h1, if_pos h1]
    rfl
  by_cases h2 : form.inputDate < env.today
  · unfold handleBooking
    rw [if_neg h1, if_neg h1, if_pos h2, if_pos h2]
    rfl
  by_cases h3 : form.inputDate > env.now + 180 * 24 * 60 * 60 * 1000
  · unfold handleBooking
    rw [if_neg h1, if_neg h1, if_neg h2, if_neg h2, if_pos h3, if_pos h3]
    rfl
  by_cases h4 : 100 ≤ jsLength form.description
  · unfold handleBooking
    rw [if_neg h1, if_neg h1, if_neg h2, if_neg h2, if_neg h3, if_neg h3, if_pos h4, if_pos h4]
    rfl
  by_cases h5 : isValidTime (some form.startTime) = false
  · unfold handleBooking
    rw [if_neg h1, if_neg h1, if_neg h2, if_neg h2, if_neg h3, if_neg h3, if_neg h4, if_neg h4,
      if_pos h5, if_pos (by rw [h5]; rfl)]
    rfl
  by_cases h6 : isValidTime (some form.endTime) = false
  · unfold handleBooking
    rw [if_neg h1, if_neg h1, if_neg h2, if_neg h2, if_neg h3, if_neg h3, if_neg h4, if_neg h4,
      if_neg h5, if_neg (by simpa using h5), if_pos h6, if_pos (by rw [h6]; rfl)]
    rfl
  have hvs : isValidTime (some form.startTime) = true := by simpa using h5
  have hve : isValidTime (some form.endTime) = true := by simpa using h6
  obtain ⟨s9, s21, sne, sn⟩ := valid_unpadded_facts form.startTime hvs (hstart hvs)
  obtain ⟨e9, e21, ene, en⟩ := valid_unpadded_facts form.endTime hve (hend hve)
  have h1' : ¬ (form.dateString = "" ∨ form.title = "") := by
    intro h
    rcases h with h | h
    · exact h1 (Or.inl h)
    · exact h1 (Or.inr (Or.inr (Or.inr h)))
  rw [handleBooking_of_valid env roomId userId form db _ _ sne ene hvs hve sn en s9 s21 e9 e21
    hcm, if_neg h1, if_neg h1', if_neg h2, if_neg h2, if_neg h3, if_neg h3, if_neg h4, if_neg h4,
    if_neg h5, if_neg h6]
  split_ifs <;> rfl

theorem store_submitBooking (db : Database) (data : BookingData) :
    (submitBooking db data).store = (createBooking db data).2 ∧
      (submitBooking db data).shown = shownAfter (createBooking db data).1 := by
  unfold submitBooking
  split
  · rename_i h
    rw [h]
    exact ⟨rfl, rfl⟩
  · rename_i h
    rw [h]
    exact ⟨rfl, rfl⟩

theorem unpadded_of_formTimes {form : BookingForm} (h : FormTimes form) :
    Unpadded form.startTime ∧ Unpadded form.endTime := by
  have key : ∀ s : String, (s = "" ∨ PickedTime s) → Unpadded s := by
    intro s hs hvalid
    rcases hs with rfl | ⟨hours, minutes, _, hm, hp⟩
    · rfl
    · obtain ⟨t, h9, h21, rfl⟩ := pickedTime_eq_some hm hp
      obtain ⟨a1, a2, a3, a4, a5⟩ := digitChar_facts (t / 60 / 10) (by omega)
      obtain ⟨d1, d2, d3, d4, d5⟩ := digitChar_facts (t % 60 % 10) (by omega)
      rw [clockString_eq_mk t (by omega)]
      exact jsTrim_five _ _ _ _ _ a3 d3
  exact ⟨key _ h.1, key _ h.2⟩

/-- C26: for every request in which a time text that the validator accepts has no white
space at either end (the pickers write no other text), `handleBooking` shows the alert of the
first check that fails, in the order missing required field, date in the
past, date more than 180 days ahead, description of 100 or more characters, invalid start
time, invalid end time, start already passed today, end already passed today, end not after
start; when none fails it shows what the call of `createBooking` with the requested booking
leads to. The nine alerts are pairwise different. -/
theorem handleBooking_shows_first_failure (env : DateEnv) (roomId userId : String)
    (form : BookingForm) (db : Database) (hstart : Unpadded form.startTime)
    (hend : Unpadded form.endTime) (hcm : env.currentMinute < 60) :
    (handleBooking env roomId userId form db).shown =
      (match firstFailure env form with
        | some alert => alert
        | none => shownAfter (createBooking db (normalizedRequest env roomId userId form)).1) ∧
    ((orderedChecks env form).map (fun check => check.2)).Nodup ∧
    (orderedChecks env form).length = 9 := by
  refine ⟨?_, ?_, rfl⟩
  · rw [handleBooking_eq_checks env roomId userId form db hstart hend hcm]
    cases firstFailure env form with
    | none => exact (store_submitBooking db _).2
    | some alert => rfl
  · simp only [orderedChecks, List.map_cons, List.map_nil]
    decide

/-- C16: for every request in which a time text that the validator accepts has no white
space at either end (the pickers write no other text), `handleBooking` calls `createBooking` if and only if every validation check
passes. When all nine pass, the store afterwards is the one that `createBooking` leaves for
the requested booking and the alert is the one for its outcome. When some check fails
(missing field, past date, too far ahead, description too long, invalid time, time already
passed today, end not after start), `createBooking` is not called, the store is left as it
was, and the alert shown is that of a failing check. -/
theorem handleBooking_creates_iff_checks_pass (env : DateEnv) (roomId userId : String)
    (form : BookingForm) (db : Database) (hstart : Unpadded form.startTime)
    (hend : Unpadded form.endTime) (hcm : env.currentMinute < 60) :
    ((∀ check ∈ orderedChecks env form, check.1 = false) →
      (handleBooking env roomId userId form db).created =
        some (normalizedRequest env roomId userId form) ∧
      (handleBooking env roomId userId form db).store =
        (createBooking db (normalizedRequest env roomId userId form)).2 ∧
      (handleBooking env roomId userId form db).shown =
        shownAfter (createBooking db (normalizedRequest env roomId userId form)).1) ∧
    ((∃ check ∈ orderedChecks env form, check.1 = true) →
      (handleBooking env roomId userId form db).created = none ∧
      (handleBooking env roomId userId form db).store = db ∧
      ∃ check ∈ orderedChecks env form, check.1 = true ∧
        (handleBooking env roomId userId form db).shown = check.2) ∧
    ((handleBooking env roomId userId form db).created ≠ none ↔
      ∀ check ∈ orderedChecks env form, check.1 = false) := by
  rw [handleBooking_eq_checks env roomId userId form db hstart hend hcm,
    ← firstFailure_eq_none_iff]
  cases h : firstFailure env form with
  | none =>
    refine ⟨fun _ => ⟨created_submitBooking db _, (store_submitBooking db _).1,
      (store_submitBooking db _).2⟩, ?_, ?_⟩
    · rintro ⟨check, hmem, hfail⟩
      have := (firstFailure_eq_none_iff env form).mp h check hmem
      rw [this] at hfail
      cases hfail
    · simp [created_submitBooking]
  | some alert =>
    refine ⟨fun hnone => (by cases hnone), ?_, by simp⟩
    intro _
    refine ⟨rfl, rfl, ?_⟩
    unfold firstFailure at h
    rw [Option.map_eq_some'] at h
    obtain ⟨check, hfind, hshown⟩ := h
    exact ⟨check, List.mem_of_find?_eq_some hfind, List.find?_some hfind, hshown.symm⟩

/-- C15: for every request the form can hold, `createBooking` is reached only if the end time
is strictly later than the start time in wall-clock minutes; a request with end at or before
start, equal times included, never reaches `createBooking`, leaves the store as it was, and
is rejected with `End time must be after start time` unless one of the eight earlier checks
already rejected it. -/
theorem handleBooking_rejects_end_not_after_start (env : DateEnv) (roomId userId : String)
    (form : BookingForm) (db : Database) (hform : FormTimes form)
    (hcm : env.currentMinute < 60) :
    ((handleBooking env roomId userId form db).created ≠ none →
      wallMinutes form.startTime < wallMinutes form.endTime) ∧
    (wallMinutes form.endTime ≤ wallMinutes form.startTime →
      (handleBooking env roomId userId form db).created = none ∧
      (handleBooking env roomId userId form db).store = db ∧
      ((∀ check ∈ (orderedChecks env form).take 8, check.1 = false) →
        (handleBooking env roomId userId form db).shown =
          Shown.alert "Error" "End time must be after start time")) := by
  have key : wallMinutes form.endTime ≤ wallMinutes form.startTime →
      (handleBooking env roomId userId form db).created = none ∧
      (handleBooking env roomId userId form db).store = db ∧
      ((∀ check ∈ (orderedChecks env form).take 8, check.1 = false) →
        (handleBooking env roomId userId form db).shown =
          Shown.alert "Error" "End time must be after start time") := by
    intro hle
    rw [handleBooking_eq_firstFailure env roomId userId form db hform hcm, firstFailure_eq]
    refine ⟨?_, ?_, ?_⟩
    · split_ifs <;> rfl
    · split_ifs <;> rfl
    · intro hpass
      simp only [orderedChecks, List.take, List.mem_cons, List.mem_singleton, List.not_mem_nil,
        or_false, forall_eq_or_imp, forall_eq, decide_eq_false_iff_not, Bool.not_eq_false']
        at hpass
      obtain ⟨h1, h2, h3, h4, h5, h6, h7, h8⟩ := hpass
      rw [if_neg h1, if_neg h2, if_neg h3, if_neg h4, if_neg (by simp [h5]),
        if_neg (by simp [h6]), if_neg h7, if_neg h8, if_pos hle]
  refine ⟨?_, key⟩
  intro hcreated
  by_contra hlt
  exact hcreated (key (not_lt.mp hlt)).1

/-- C17: when the booking date is today and the six earlier checks pass, `handleBooking` rejects
a start time at or before the current wall-clock minute with `Cannot book a time that has
already passed today`, rejects an end time at or before the current minute (the start being
later) with `End time cannot be in the past`, and never shows the first of these two alerts
for a start strictly later than the current minute. -/
theorem handleBooking_rejects_passed_times (env : DateEnv) (roomId userId : String)
    (form : BookingForm) (db : Database) (hform : FormTimes form)
    (hcm : env.currentMinute < 60) (htoday : IsToday env form)
    (hpass : ∀ check ∈ (orderedChecks env form).take 6, check.1 = false) :
    (wallMinutes form.startTime ≤ nowMinutes env →
      (handleBooking env roomId userId form db).shown =
        Shown.alert "Error" "Cannot book a time that has already passed today") ∧
    (nowMinutes env < wallMinutes form.startTime → wallMinutes form.endTime ≤ nowMinutes env →
      (handleBooking env roomId userId form db).shown =
        Shown.alert "Error" "End time cannot be in the past") ∧
    (nowMinutes env < wallMinutes form.startTime →
      (handleBooking env roomId userId form db).shown ≠
        Shown.alert "Error" "Cannot book a time that has already passed today") := by
  simp only [orderedChecks, List.take, List.mem_cons, List.mem_singleton, List.not_mem_nil,
    or_false, forall_eq_or_imp, forall_eq, decide_eq_false_iff_not, Bool.not_eq_false']
    at hpass
  obtain ⟨h1, h2, h3, h4, h5, h6⟩ := hpass
  rw [handleBooking_eq_firstFailure env roomId userId form db hform hcm, firstFailure_eq,
    if_neg h1, if_neg h2, if_neg h3, if_neg h4, if_neg (by simp [h5]), if_neg (by simp [h6])]
  refine ⟨?_, ?_, ?_⟩
  · intro hs
    rw [if_pos ⟨htoday, hs⟩]
  · intro hs he
    rw [if_neg (by rintro ⟨_, h⟩; omega), if_pos ⟨htoday, he⟩]
  · intro hs
    rw [if_neg (by rintro ⟨_, h⟩; omega)]
    split_ifs
    · simp
    · simp
    · rcases shown_submitBooking db (requestedBooking env roomId userId form) with h | ⟨e, h⟩
      · simp [h]
      · simp [h]

/-- C27, on the code: the title of three spaces is not the empty string, so it passes the
required-field check; `handleBooking` then hands `createBooking` the trimmed title, which is
the empty string, and the booking is stored with an empty title. -/
theorem handleBooking_stores_empty_title :
    FormTimes (exampleForm 1736985600000 "2025-01-16" "09:00" "10:00" "   ") ∧
    (exampleForm 1736985600000 "2025-01-16" "09:00" "10:00" "   ").title ≠ "" ∧
    jsLength (exampleForm 1736985600000 "2025-01-16" "09:00" "10:00" "   ").title ≤ 30 ∧
    handleBooking exampleEnv "1" "u1"
        (exampleForm 1736985600000 "2025-01-16" "09:00" "10:00" "   ") emptyDatabase =
      { shown := Shown.alert "Success" "Room booked successfully!",
        created := some (BookingData.mk "1736935200000" "1" "u1" "" (some "") "2025-01-16"
          "09:00" "10:00"),
        store := storeWith [BookingRow.mk "1736935200000" "u1" "1" "" "" "2025-01-16" "09:00"
          "10:00" "confirmed"] } := by
  refine ⟨⟨Or.inr ⟨9, 0, by decide, by decide, by decide!⟩,
    Or.inr ⟨10, 0, by decide, by decide, by decide!⟩⟩, by decide, by decide, by decide!⟩


/-- C26 on a request from 07:00 to 10:00 for tomorrow: the start time is refused. -/
theorem handleBooking_shows_first_failure_witness :
    (handleBooking exampleEnv "1" "u1"
      (exampleForm 1736985600000 "2025-01-16" "07:00" "10:00" "Sync") emptyDatabase).shown =
      Shown.alert "Error" "Please enter valid start time (09:00 to 20:00)" :=
  (handleBooking_shows_first_failure exampleEnv "1" "u1"
    (exampleForm 1736985600000 "2025-01-16" "07:00" "10:00" "Sync") emptyDatabase
    (by decide!) (by decide!) (by decide)).1.trans (by decide!)

/-- C16 on a request from 9:00 to 10:00 for tomorrow, on an empty store. -/
theorem handleBooking_creates_iff_checks_pass_witness :
    (handleBooking exampleEnv "1" "u1"
      (exampleForm 1736985600000 "2025-01-16" "9:00" "10:00" "Sync") emptyDatabase).created =
      some (BookingData.mk "1736935200000" "1" "u1" "Sync" (some "") "2025-01-16" "09:00"
        "10:00") ∧
    (handleBooking exampleEnv "1" "u1"
      (exampleForm 1736985600000 "2025-01-16" "9:00" "10:00" "Sync") emptyDatabase).store =
      storeWith [BookingRow.mk "1736935200000" "u1" "1" "Sync" "" "2025-01-16" "09:00" "10:00"
        "confirmed"] ∧
    (handleBooking exampleEnv "1" "u1"
      (exampleForm 1736985600000 "2025-01-16" "9:00" "10:00" "Sync") emptyDatabase).shown =
      Shown.alert "Success" "Room booked successfully!" :=
  have h := (handleBooking_creates_iff_checks_pass exampleEnv "1" "u1"
    (exampleForm 1736985600000 "2025-01-16" "9:00" "10:00" "Sync") emptyDatabase
    (by decide!) (by decide!) (by decide)).1 (by decide!)
  ⟨h.1.trans (by decide!), h.2.1.trans (by decide!), h.2.2.trans (by decide!)⟩

/-- C15 on a request from 10:00 to 10:00 for tomorrow. -/
theorem handleBooking_rejects_end_not_after_start_witness :
    (handleBooking exampleEnv "1" "u1"
      (exampleForm 1736985600000 "2025-01-16" "10:00" "10:00" "Sync") emptyDatabase).created =
      none ∧
    (handleBooking exampleEnv "1" "u1"
      (exampleForm 1736985600000 "2025-01-16" "10:00" "10:00" "Sync") emptyDatabase).store =
      emptyDatabase ∧
    (handleBooking exampleEnv "1" "u1"
      (exampleForm 1736985600000 "2025-01-16" "10:00" "10:00" "Sync") emptyDatabase).shown =
      Shown.alert "Error" "End time must be after start time" :=
  have h := (handleBooking_rejects_end_not_after_start exampleEnv "1" "u1"
    (exampleForm 1736985600000 "2025-01-16" "10:00" "10:00" "Sync") emptyDatabase
    ⟨Or.inr ⟨10, 0, by decide, by decide, by decide!⟩,
      Or.inr ⟨10, 0, by decide, by decide, by decide!⟩⟩ (by decide)).2 (by decide!)
  ⟨h.1, h.2.1, h.2.2 (by decide!)⟩

/-- C17 on a request for today from 10:00, at 10:00. -/
theorem handleBooking_rejects_passed_times_witness :
    (handleBooking exampleEnv "1" "u1"
      (exampleForm 1736899200000 "2025-01-15" "10:00" "11:00" "Sync") emptyDatabase).shown =
      Shown.alert "Error" "Cannot book a time that has already passed today" :=
  (handleBooking_rejects_passed_times exampleEnv "1" "u1"
    (exampleForm 1736899200000 "2025-01-15" "10:00" "11:00" "Sync") emptyDatabase
    ⟨Or.inr ⟨10, 0, by decide, by decide, by decide!⟩,
      Or.inr ⟨11, 0, by decide, by decide, by decide!⟩⟩ (by decide) (by decide!)
    (by decide!)).1 (by decide!)

/-! ## Cancelling and deleting bookings, listings, users and rooms -/

/-- C18: `cancelBooking(id)` completes without error and keeps every row in its place: the
number of bookings, the users and the rooms are unchanged; the row at each position keeps its
id, user, room, title, description, date, start and end time; its status becomes `'cancelled'`
when its id is the given one, and it is unchanged otherwise. -/
theorem cancelBooking_sets_status (db : Database) (bookingId : String) :
    (cancelBooking db bookingId).1 = Except.ok () ∧
    (cancelBooking db bookingId).2.bookings.length = db.bookings.length ∧
    (cancelBooking db bookingId).2.users = db.users ∧
    (cancelBooking db bookingId).2.rooms = db.rooms ∧
    ∀ (i : ℕ) (b : BookingRow), db.bookings[i]? = some b →
      ∃ b', (cancelBooking db bookingId).2.bookings[i]? = some b' ∧
        b'.id = b.id ∧ b'.user_id = b.user_id ∧ b'.room_id = b.room_id ∧ b'.title = b.title ∧
        b'.description = b.description ∧ b'.date = b.date ∧ b'.start_time = b.start_time ∧
        b'.end_time = b.end_time ∧ (b.id = bookingId → b'.status = "cancelled") ∧
        (b.id ≠ bookingId → b' = b) := by
  refine ⟨rfl, by simp [cancelBooking], rfl, rfl, ?_⟩
  intro i b hb
  simp only [cancelBooking, List.getElem?_map, hb, Option.map_some']
  by_cases h : b.id = bookingId
  · exact ⟨_, rfl, by simp [h]⟩
  · exact ⟨_, rfl, by simp [h]⟩

/-- C18 on a store of two bookings, for the first of them. -/
theorem cancelBooking_sets_status_witness :
    ∃ b', (cancelBooking (storeWith [confirmedRow "b1" "1" "2025-01-15" "09:00" "10:00",
        confirmedRow "b2" "1" "2025-01-15" "10:00" "11:00"]) "b1").2.bookings[0]? = some b' ∧
        b'.id = "b1" ∧ b'.user_id = "u1" ∧ b'.room_id = "1" ∧ b'.title = "Sync" ∧
        b'.description = "" ∧ b'.date = "2025-01-15" ∧ b'.start_time = "09:00" ∧
        b'.end_time = "10:00" ∧ ("b1" = "b1" → b'.status = "cancelled") ∧
        ("b1" ≠ "b1" → b' = confirmedRow "b1" "1" "2025-01-15" "09:00" "10:00") :=
  (cancelBooking_sets_status (storeWith [confirmedRow "b1" "1" "2025-01-15" "09:00" "10:00",
    confirmedRow "b2" "1" "2025-01-15" "10:00" "11:00"]) "b1").2.2.2.2 0
    (confirmedRow "b1" "1" "2025-01-15" "09:00" "10:00") rfl

/-- C29: for a request with `startTime < endTime`, whenever `createBooking` throws the
conflict error, the booking named in the message is a stored row that is confirmed, has the
room and date of the request, and overlaps it: `existing.start_time < new.endTime` and
`existing.end_time > new.startTime`. -/
theorem createBooking_conflict_overlaps (db : Database) (data : BookingData)
    (hlt : data.startTime < data.endTime) (message : String)
    (hthrown : (createBooking db data).1 = Except.error (Thrown.error message)) :
    ∃ c ∈ db.bookings, findConflict db data = some c ∧
      message = "Room is already booked from " ++ c.start_time ++ " to " ++ c.end_time ∧
      c.status = "confirmed" ∧ c.room_id = data.roomId ∧ c.date = data.date ∧
      c.start_time < data.endTime ∧ c.end_time > data.startTime := by
  unfold createBooking at hthrown
  cases hc : findConflict db data with
  | none =>
    rw [hc] at hthrown
    simp only [insertBooking] at hthrown
    split_ifs at hthrown
    cases hthrown
  | some c =>
    rw [hc] at hthrown
    simp only [Except.error.injEq, Thrown.error.injEq] at hthrown
    have hmem : c ∈ db.bookings := List.mem_of_find?_eq_some hc
    have hw := List.find?_some hc
    simp only [conflictWhere, Bool.and_eq_true, Bool.or_eq_true, decide_eq_true_eq] at hw
    obtain ⟨⟨⟨hr, hd⟩, hs⟩, hw⟩ := hw
    refine ⟨c, hmem, rfl, hthrown.symm, hs, hr, hd, ?_, ?_⟩
    · rcases hw with ⟨h1, _⟩ | ⟨h1, _⟩
      · exact lt_of_le_of_lt h1 hlt
      · exact h1
    · rcases hw with ⟨_, h2⟩ | ⟨_, h2⟩
      · exact h2
      · exact lt_of_lt_of_le hlt h2

/-- C29 on the request `09:30`-`10:30` against the booking `09:00`-`10:00`. -/
theorem createBooking_conflict_overlaps_witness :
    ∃ c ∈ (storeWith [confirmedRow "b1" "1" "2025-01-15" "09:00" "10:00"]).bookings,
      findConflict (storeWith [confirmedRow "b1" "1" "2025-01-15" "09:00" "10:00"])
        (request "b2" "1" "2025-01-15" "09:30" "10:30") = some c ∧
      "Room is already booked from 09:00 to 10:00" =
        "Room is already booked from " ++ c.start_time ++ " to " ++ c.end_time ∧
      c.status = "confirmed" ∧ c.room_id = "1" ∧ c.date = "2025-01-15" ∧
      c.start_time < "10:30" ∧ c.end_time > "09:30" :=
  createBooking_conflict_overlaps (storeWith [confirmedRow "b1" "1" "2025-01-15" "09:00" "10:00"])
    (request "b2" "1" "2025-01-15" "09:30" "10:30") (by decide!)
    "Room is already booked from 09:00 to 10:00" (by decide!)

/-- C25: from every state, `login` replaces `info` and `token` by the user and token of the
payload; from every state, `logout` sets both to `null`, so that `login` followed by `logout`
gives the initial state; every other action leaves the state as it was. -/
theorem userReducer_spec {α : Type} (state : UserState α) (user : Option α)
    (token : Option String) (type : String) :
    userReducer state (UserAction.login user token) = { info := user, token := token } ∧
    userReducer state UserAction.logout = { info := none, token := none } ∧
    userReducer (userReducer state (UserAction.login user token)) UserAction.logout =
      initialUserState α ∧
    userReducer state (UserAction.other type) = state :=
  ⟨rfl, rfl, rfl, rfl⟩

theorem createBooking_eq_ok {db db1 : Database} {data : BookingData}
    (h : createBooking db data = (Except.ok (), db1)) :
    findConflict db data = none ∧ (∀ b ∈ db.bookings, b.id ≠ data.id) ∧
      db1 = { db with bookings := db.bookings ++ [insertedRow data] } := by
  unfold createBooking at h
  cases hc : findConflict db data with
  | some c =>
    rw [hc] at h
    simp only [Prod.mk.injEq] at h
    exact absurd h.1 (by simp)
  | none =>
    rw [hc] at h
    simp only [insertBooking] at h
    split_ifs at h with hany
    · simp only [Prod.mk.injEq] at h
      exact absurd h.1 (by simp)
    · simp only [Prod.mk.injEq, true_and] at h
      refine ⟨rfl, ?_, h.symm⟩
      intro b hb hid
      apply hany
      rw [List.any_eq_true]
      exact ⟨b, hb, by simpa [insertedRow] using hid⟩

/-- C19: when `createBooking(b)` has succeeded and `cancelBooking(b.id)` has been called, a
request for the same room, date, start and end time whose id is not used by a stored row is
accepted and its row is appended; since `createBooking(b)` found no conflicting row, no
further condition on the other bookings is needed. -/
theorem createBooking_after_cancel (db db1 : Database) (b b' : BookingData)
    (hcreate : createBooking db b = (Except.ok (), db1))
    (hroom : b'.roomId = b.roomId) (hdate : b'.date = b.date)
    (hstart : b'.startTime = b.startTime) (hend : b'.endTime = b.endTime)
    (hfresh : ∀ row ∈ (cancelBooking db1 b.id).2.bookings, row.id ≠ b'.id) :
    createBooking (cancelBooking db1 b.id).2 b' =
      (Except.ok (), { (cancelBooking db1 b.id).2 with
        bookings := (cancelBooking db1 b.id).2.bookings ++ [insertedRow b'] }) := by
  obtain ⟨hnone, hids, hdb1⟩ := createBooking_eq_ok hcreate
  apply createBooking_of_no_conflict _ _ _ hfresh
  unfold findConflict at hnone ⊢
  rw [List.find?_eq_none] at hnone ⊢
  intro x hx
  rw [hroom, hdate, hstart, hend]
  simp only [cancelBooking, hdb1, List.mem_map, List.mem_append, List.mem_singleton] at hx
  obtain ⟨y, hy, rfl⟩ := hx
  rcases hy with hy | hy
  · rw [if_neg (hids y hy)]
    exact hnone y hy
  · subst hy
    simp [insertedRow, conflictWhere]

/-- C19 on the booking `09:00`-`10:00` of room 1, cancelled and booked again. -/
theorem createBooking_after_cancel_witness :
    createBooking (cancelBooking (storeWith [confirmedRow "b1" "1" "2025-01-15" "09:00" "10:00"])
        "b1").2 (request "b2" "1" "2025-01-15" "09:00" "10:00") =
      (Except.ok (), storeWith [{ confirmedRow "b1" "1" "2025-01-15" "09:00" "10:00" with
          status := "cancelled" }, confirmedRow "b2" "1" "2025-01-15" "09:00" "10:00"]) :=
  createBooking_after_cancel emptyDatabase
    (storeWith [confirmedRow "b1" "1" "2025-01-15" "09:00" "10:00"])
    (request "b1" "1" "2025-01-15" "09:00" "10:00")
    (request "b2" "1" "2025-01-15" "09:00" "10:00") (by decide!) rfl rfl rfl rfl (by decide!)

theorem booking_mem_getUserBookings {db : Database} {userId : String} {row : UserBookingRow}
    (h : row ∈ getUserBookings db userId) :
    ∃ r ∈ db.rooms, row.booking ∈ db.bookings ∧ row.booking.user_id = userId ∧
      row.booking.status = "confirmed" ∧ row.booking.room_id = r.id ∧
      row.room_name = r.name ∧ row.room_floor = r.floor := by
  unfold getUserBookings at h
  rw [(List.perm_insertionSort _ _).mem_iff, List.mem_filter, List.mem_flatMap] at h
  obtain ⟨⟨b, hb, hrow⟩, hp⟩ := h
  rw [List.mem_map] at hrow
  obtain ⟨r, hr, rfl⟩ := hrow
  rw [List.mem_filter] at hr
  simp only [Bool.and_eq_true, decide_eq_true_eq] at hp hr
  exact ⟨r, hr.1, hb, hp.1, hp.2, hr.2, rfl, rfl⟩

theorem mem_getUserBookings_iff (db : Database) (userId : String) (row : UserBookingRow) :
    row ∈ getUserBookings db userId ↔
      ∃ b ∈ db.bookings, ∃ r ∈ db.rooms, b.user_id = userId ∧ b.status = "confirmed" ∧
        b.room_id = r.id ∧ row = { booking := b, room_name := r.name, room_floor := r.floor } := by
  constructor
  · intro h
    obtain ⟨r, hr, hb, hu, hs, hroom, hn, hf⟩ := booking_mem_getUserBookings h
    refine ⟨row.booking, hb, r, hr, hu, hs, hroom, ?_⟩
    cases row
    simp only at hn hf
    rw [hn, hf]
  · rintro ⟨b, hb, r, hr, hu, hs, hroom, rfl⟩
    unfold getUserBookings
    rw [(List.perm_insertionSort _ _).mem_iff, List.mem_filter, List.mem_flatMap]
    refine ⟨⟨b, hb, ?_⟩, by simp [hu, hs]⟩
    rw [List.mem_map]
    exact ⟨r, List.mem_filter.mpr ⟨hr, by simp [hroom]⟩, rfl⟩

/-- C20: `deleteBooking(id)` completes without error, whatever the status or date of the
row; the bookings left are exactly the rows with another id, in their order, and users and
rooms are unchanged; afterwards `getDayBookings` and `getUserBookings` never return a row
with that id, and a further `deleteBooking(id)` or `cancelBooking(id)` completes without
error and leaves the store unchanged. -/
theorem deleteBooking_removes (db : Database) (bookingId : String) :
    (deleteBooking db bookingId).1 = Except.ok () ∧
    (∀ b, b ∈ (deleteBooking db bookingId).2.bookings ↔ b ∈ db.bookings ∧ b.id ≠ bookingId) ∧
    (deleteBooking db bookingId).2.bookings.Sublist db.bookings ∧
    (deleteBooking db bookingId).2.users = db.users ∧
    (deleteBooking db bookingId).2.rooms = db.rooms ∧
    (∀ roomId date, ∀ b ∈ getDayBookings (deleteBooking db bookingId).2 roomId date,
      b.id ≠ bookingId) ∧
    (∀ userId, ∀ row ∈ getUserBookings (deleteBooking db bookingId).2 userId,
      row.booking.id ≠ bookingId) ∧
    deleteBooking (deleteBooking db bookingId).2 bookingId =
      (Except.ok (), (deleteBooking db bookingId).2) ∧
    cancelBooking (deleteBooking db bookingId).2 bookingId =
      (Except.ok (), (deleteBooking db bookingId).2) := by
  have hmem : ∀ b, b ∈ (deleteBooking db bookingId).2.bookings ↔
      b ∈ db.bookings ∧ b.id ≠ bookingId := by
    intro b
    simp [deleteBooking, List.mem_filter]
  refine ⟨rfl, hmem, ?_, rfl, rfl, ?_, ?_, ?_, ?_⟩
  · exact List.filter_sublist _
  · intro roomId date b hb
    unfold getDayBookings at hb
    rw [(List.perm_insertionSort _ _).mem_iff, List.mem_filter] at hb
    exact ((hmem b).mp hb.1).2
  · intro userId row hrow
    obtain ⟨_, _, hb, _⟩ := booking_mem_getUserBookings hrow
    exact ((hmem _).mp hb).2
  · simp only [deleteBooking, List.filter_filter, Bool.and_self]
  · simp only [cancelBooking]
    congr 1
    have : (deleteBooking db bookingId).2.bookings.map (fun b =>
        if b.id = bookingId then { b with status := "cancelled" } else b) =
        (deleteBooking db bookingId).2.bookings := by
      conv_rhs => rw [← List.map_id (deleteBooking db bookingId).2.bookings]
      apply List.map_congr_left
      intro b hb
      rw [if_neg ((hmem b).mp hb).2]
      rfl
    rw [this]

/-- C21: `getDayBookings(roomId, date)` is a rearrangement of the confirmed bookings of that
room and date, in ascending order of `start_time`; `getUserBookings(userId)` holds exactly
the confirmed bookings of that user joined with the room of their `room_id`, each with that
room's name and floor, in the order of `date` and then `start_time`; no row of either result
has the status `'cancelled'`. -/
theorem listing_queries_confirmed_sorted (db : Database) (roomId date userId : String) :
    (getDayBookings db roomId date).Perm
      (db.bookings.filter (fun b => decide (ConfirmedFor roomId date b))) ∧
    (getDayBookings db roomId date).Pairwise (fun a b => a.start_time ≤ b.start_time) ∧
    (∀ row, row ∈ getUserBookings db userId ↔
      ∃ b ∈ db.bookings, ∃ r ∈ db.rooms, b.user_id = userId ∧ b.status = "confirmed" ∧
        b.room_id = r.id ∧
        row = { booking := b, room_name := r.name, room_floor := r.floor }) ∧
    (getUserBookings db userId).Pairwise dateTimeLe ∧
    (∀ b ∈ getDayBookings db roomId date, b.status ≠ "cancelled") ∧
    (∀ row ∈ getUserBookings db userId, row.booking.status ≠ "cancelled") := by
  refine ⟨?_, ?_, mem_getUserBookings_iff db userId, ?_, ?_, ?_⟩
  · unfold getDayBookings
    refine (List.perm_insertionSort _ _).trans ?_
    have : (fun b : BookingRow => decide (b.room_id = roomId) && decide (b.date = date) &&
        decide (b.status = "confirmed")) = fun b => decide (ConfirmedFor roomId date b) := by
      funext b
      simp only [ConfirmedFor, Bool.and_assoc, Bool.decide_and]
    rw [this]
  · exact List.sorted_insertionSort _ _
  · exact List.sorted_insertionSort _ _
  · intro b hb
    unfold getDayBookings at hb
    rw [(List.perm_insertionSort _ _).mem_iff, List.mem_filter] at hb
    simp only [Bool.and_eq_true, decide_eq_true_eq] at hb
    rw [hb.2.2]
    decide
  · intro row hrow
    obtain ⟨_, _, _, _, hs, _⟩ := booking_mem_getUserBookings hrow
    rw [hs]
    decide

theorem createUser_eq_ok {db db' : Database} {userData : UserData} {created : CreatedUser}
    (h : createUser db userData = (Except.ok created, db')) :
    (∀ u ∈ db.users, u.id ≠ userData.id ∧ u.email ≠ userData.email) ∧
      created = { id := userData.id, email := userData.email, name := userData.name,
                  department := userData.department } ∧
      db' = { db with users := db.users ++ [insertedUser userData] } := by
  unfold createUser at h
  split_ifs at h with hany
  · simp only [Prod.mk.injEq] at h
    exact absurd h.1 (by simp)
  · simp only [Prod.mk.injEq, Except.ok.injEq] at h
    refine ⟨?_, h.1.symm, h.2.symm⟩
    intro u hu
    rw [List.any_eq_true] at hany
    constructor
    · intro hid
      exact hany ⟨u, hu, by simp [hid]⟩
    · intro hem
      exact hany ⟨u, hu, by simp [hem]⟩

/-- C22: after `createUser` has succeeded for a user with email `e` and password `p`,
`authenticateUser(e, p)` returns a row whose id, email and name are those of the created
user, and `authenticateUser(e, q)` returns `null` for every password `q` other than `p`. -/
theorem createUser_then_authenticateUser (db db' : Database) (userData : UserData)
    (created : CreatedUser) (h : createUser db userData = (Except.ok created, db')) :
    (∃ row, authenticateUser db' userData.email userData.password = some row ∧
      row.id = created.id ∧ row.email = created.email ∧ row.name = created.name ∧
      row.id = userData.id ∧ row.email = userData.email ∧ row.name = userData.name) ∧
    ∀ q, q ≠ userData.password → authenticateUser db' userData.email q = none := by
  obtain ⟨hnew, hcreated, hdb⟩ := createUser_eq_ok h
  have hold : ∀ q, db.users.find? (fun u => decide (u.email = userData.email) &&
      decide (u.password = q)) = none := by
    intro q
    rw [List.find?_eq_none]
    intro u hu
    simp [(hnew u hu).2]
  subst hdb hcreated
  constructor
  · refine ⟨insertedUser userData, ?_, rfl, rfl, rfl, rfl, rfl, rfl⟩
    simp [authenticateUser, List.find?_append, hold, insertedUser, List.find?]
  · intro q hq
    simp only [authenticateUser, List.find?_append, hold, Option.none_or]
    simp [List.find?, insertedUser, Ne.symm hq]

/-- C22 on the user of the test: the right password finds the row, `wrong` does not. -/
theorem createUser_then_authenticateUser_witness :
    (∃ row, authenticateUser
        { emptyDatabase with users := [insertedUser
          { id := "123", email := "test@example.com", name := "Test User",
            password := "password123", department := some "Engineering" }] }
        "test@example.com" "password123" = some row ∧
      row.id = "123" ∧ row.email = "test@example.com" ∧ row.name = "Test User") ∧
    authenticateUser
        { emptyDatabase with users := [insertedUser
          { id := "123", email := "test@example.com", name := "Test User",
            password := "password123", department := some "Engineering" }] }
        "test@example.com" "wrong" = none := by
  have h := createUser_then_authenticateUser emptyDatabase
    { emptyDatabase with users := [insertedUser
      { id := "123", email := "test@example.com", name := "Test User",
        password := "password123", department := some "Engineering" }] }
    { id := "123", email := "test@example.com", name := "Test User",
      password := "password123", department := some "Engineering" }
    { id := "123", email := "test@example.com", name := "Test User",
      department := some "Engineering" } (by decide)
  obtain ⟨⟨row, h1, h2, h3, h4, _⟩, hwrong⟩ := h
  exact ⟨⟨row, h1, h2, h3, h4⟩, hwrong "wrong" (by decide)⟩

/-- C23, counterexample: with no department supplied the row is stored with the department
`'General'`, but the record returned has `department: undefined`. -/
theorem createUser_returns_absent_department :
    createUser emptyDatabase
        { id := "123", email := "test@example.com", name := "Test User",
          password := "password123", department := none } =
      (Except.ok { id := "123", email := "test@example.com", name := "Test User",
                   department := none },
       { emptyDatabase with
         users := [{ id := "123", email := "test@example.com", name := "Test User",
                     password := "password123", department := "General" }] }) := by
  decide

/-- C23, amended: on success `createUser` appends one row holding the given password and
returns a record without password whose id, email and name are those of the stored row and
whose department is the value passed in; the stored department is `department || 'General'`,
so the two agree exactly when a non-empty department was supplied. -/
theorem createUser_returns_given_fields (db db' : Database) (userData : UserData)
    (created : CreatedUser) (h : createUser db userData = (Except.ok created, db')) :
    ∃ row, db'.users = db.users ++ [row] ∧ db'.rooms = db.rooms ∧ db'.bookings = db.bookings ∧
      row.password = userData.password ∧
      created.id = row.id ∧ created.email = row.email ∧ created.name = row.name ∧
      created.department = userData.department ∧
      row.department = departmentOrGeneral userData.department ∧
      (created.department = some row.department ↔
        ∃ d, userData.department = some d ∧ d ≠ "") := by
  obtain ⟨_, hcreated, hdb⟩ := createUser_eq_ok h
  subst hdb hcreated
  refine ⟨insertedUser userData, rfl, rfl, rfl, rfl, rfl, rfl, rfl, rfl, rfl, ?_⟩
  cases hd : userData.department with
  | none => simp [insertedUser, departmentOrGeneral, hd]
  | some d =>
    by_cases hempty : d = ""
    · subst hempty
      simp [insertedUser, departmentOrGeneral, hd]
    · simp [insertedUser, departmentOrGeneral, hd, hempty]

/-- C23 on the user of the test, with the department `Engineering`. -/
theorem createUser_returns_given_fields_witness :
    ∃ row, (emptyDatabase.users ++ [insertedUser
        { id := "123", email := "test@example.com", name := "Test User",
          password := "password123", department := some "Engineering" }]) =
        emptyDatabase.users ++ [row] ∧ row.department = "Engineering" := by
  obtain ⟨row, h1, _, _, _, _, _, _, _, h2, _⟩ := createUser_returns_given_fields emptyDatabase
    { emptyDatabase with users := emptyDatabase.users ++ [insertedUser
        { id := "123", email := "test@example.com", name := "Test User",
          password := "password123", department := some "Engineering" }] }
    { id := "123", email := "test@example.com", name := "Test User",
      password := "password123", department := some "Engineering" }
    { id := "123", email := "test@example.com", name := "Test User",
      department := some "Engineering" } (by decide)
  exact ⟨row, h1, h2⟩

theorem decodeRooms_eq_map {α : Type} (jsonParse : String → Option α) (amenities : RoomRow → α)
    (rooms : List RoomRow) (h : ∀ r ∈ rooms, jsonParse r.amenities = some (amenities r)) :
    decodeRooms jsonParse rooms = some (rooms.map (fun r =>
      { id := r.id, name := r.name, capacity := r.capacity, floor := r.floor,
        amenities := amenities r })) := by
  induction rooms with
  | nil => rfl
  | cons r rest ih =>
    have h1 := h r (List.mem_cons_self _ _)
    have h2 := ih (fun x hx => h x (List.mem_cons_of_mem _ hx))
    simp only [decodeRooms, decodeRoom, h1, h2, Option.map_some', List.map_cons]

theorem decodeRooms_eq_none {α : Type} (jsonParse : String → Option α)
    (rooms : List RoomRow) (h : ∃ r ∈ rooms, jsonParse r.amenities = none) :
    decodeRooms jsonParse rooms = none := by
  induction rooms with
  | nil =>
    obtain ⟨r, hr, _⟩ := h
    cases hr
  | cons r rest ih =>
    obtain ⟨x, hx, hnone⟩ := h
    rcases List.mem_cons.mp hx with rfl | hx
    · simp only [decodeRooms, decodeRoom, hnone, Option.map_none']
    · have h2 := ih ⟨x, hx, hnone⟩
      simp only [decodeRooms, h2]
      cases decodeRoom jsonParse r <;> rfl

/-- C24: for the engine's `JSON.parse`, when the amenities text of every stored room parses,
`getAllRooms` returns every stored room, in order, with the parsed value as `amenities` and
the other fields unchanged; when the text of some room does not parse, or when the read of
the table fails, it returns the empty list. In every case it returns a list: nothing is
thrown to the caller. -/
theorem getAllRooms_decodes_or_empty {α : Type} (jsonParse : String → Option α)
    (db : Database) :
    (∀ amenities : RoomRow → α, (∀ r ∈ db.rooms, jsonParse r.amenities = some (amenities r)) →
      getAllRooms jsonParse (Except.ok db.rooms) = db.rooms.map (fun r =>
        { id := r.id, name := r.name, capacity := r.capacity, floor := r.floor,
          amenities := amenities r })) ∧
    ((∃ r ∈ db.rooms, jsonParse r.amenities = none) →
      getAllRooms jsonParse (Except.ok db.rooms) = []) ∧
    (∀ thrown, getAllRooms jsonParse (Except.error thrown) = []) := by
  refine ⟨?_, ?_, fun _ => rfl⟩
  · intro amenities h
    simp only [getAllRooms, decodeRooms_eq_map jsonParse amenities db.rooms h]
  · intro h
    simp only [getAllRooms, decodeRooms_eq_none jsonParse db.rooms h]

/-! ## `normalizeTime` on the strings that `isValidTime` accepts -/

/-- C30 as stated fails: `isValidTime` trims its argument and `normalizeTime` does not.
`' 9:30'` is accepted and is returned as it is: its first character is a space, it is not a
clock text, and as text it sorts before `'09:00'` although 9:30 is the later time. `'9:30 '`
is accepted and becomes the six characters `'09:30 '`. -/
theorem normalizeTime_keeps_leading_space :
    isValidTime (some " 9:30") = true ∧
    normalizeTime (some " 9:30") = Except.ok " 9:30" ∧
    parseClock " 9:30" = none ∧
    isValidTime (some "09:00") = true ∧
    normalizeTime (some "09:00") = Except.ok "09:00" ∧
    (" 9:30" : String) < "09:00" ∧
    isValidTime (some "9:30 ") = true ∧
    normalizeTime (some "9:30 ") = Except.ok "09:30 " ∧
    ("09:30 " : String).length = 6 := by
  refine ⟨by decide!, by decide!, by decide!, by decide!, by decide!, by decide!, by decide!,
    by decide!, by decide!⟩

theorem mk_cons_lt_iff (a b : Char) (as bs : List Char) :
    String.mk (a :: as) < String.mk (b :: bs) ↔
      (a < b ∨ (a = b ∧ String.mk as < String.mk bs)) := by
  rw [String.lt_iff_toList_lt, String.lt_iff_toList_lt]
  show List.Lex (· < ·) (a :: as) (b :: bs) ↔ (a < b ∨ (a = b ∧ List.Lex (· < ·) as bs))
  constructor
  · intro h
    cases h with
    | cons h => exact Or.inr ⟨rfl, h⟩
    | rel h => exact Or.inl h
  · rintro (h | ⟨rfl, h⟩)
    · exact List.Lex.rel h
    · exact List.Lex.cons h

theorem digitChar_lt_iff : ∀ i : ℕ, i < 10 → ∀ j : ℕ, j < 10 →
    ((digitChar i < digitChar j ↔ i < j) ∧ (digitChar i = digitChar j ↔ i = j)) := by
  decide

theorem clockString_lt_iff (a b : ℕ) (ha : a < 1440) (hb : b < 1440) :
    clockString a < clockString b ↔ a < b := by
  rw [clockString_eq_mk a ha, clockString_eq_mk b hb]
  obtain ⟨l1, e1⟩ := digitChar_lt_iff (a / 60 / 10) (by omega) (b / 60 / 10) (by omega)
  obtain ⟨l2, e2⟩ := digitChar_lt_iff (a / 60 % 10) (by omega) (b / 60 % 10) (by omega)
  obtain ⟨l3, e3⟩ := digitChar_lt_iff (a % 60 / 10) (by omega) (b % 60 / 10) (by omega)
  obtain ⟨l4, e4⟩ := digitChar_lt_iff (a % 60 % 10) (by omega) (b % 60 % 10) (by omega)
  have hnil : ¬ (String.mk [] < String.mk []) := lt_irrefl _
  have hcolon : ¬ (':' < ':') := lt_irrefl _
  simp only [mk_cons_lt_iff, l1, l2, l3, l4, e1, e2, e3, e4, hnil, hcolon, and_false, or_false,
    false_or, true_and]
  omega

/-- C30, amended: for every string that `isValidTime` accepts and that has no white space at
either end (every time the booking screen can hold is such a string), `normalizeTime` does
not throw and returns exactly five characters, two digits, a colon and two digits, which
write the same hour and minute as the string; for two such strings the results compare as
text the way their wall-clock minutes compare, and are equal only for equal minutes. -/
theorem normalizeTime_canonical_of_unpadded (s : String)
    (hvalid : isValidTime (some s) = true) (htrim : jsTrim s.data = s.data) :
    normalizeTime (some s) = Except.ok (clockString (wallMinutes s)) ∧
    (∃ h1 h2 m1 m2 : Char, clockString (wallMinutes s) = String.mk [h1, h2, ':', m1, m2] ∧
      h1.isDigit = true ∧ h2.isDigit = true ∧ m1.isDigit = true ∧ m2.isDigit = true ∧
      10 * digitValue h1 + digitValue h2 = (splitHoursMinutes s.data).1 ∧
      10 * digitValue m1 + digitValue m2 = (splitHoursMinutes s.data).2) ∧
    ∀ s' : String, isValidTime (some s') = true → jsTrim s'.data = s'.data →
      ((clockString (wallMinutes s) < clockString (wallMinutes s') ↔
          wallMinutes s < wallMinutes s') ∧
        (clockString (wallMinutes s) = clockString (wallMinutes s') ↔
          wallMinutes s = wallMinutes s')) := by
  obtain ⟨h9, h21, _, hnorm⟩ := valid_unpadded_facts s hvalid htrim
  have hv := (isValidTime_some_iff s).mp hvalid
  rw [htrim] at hv
  obtain ⟨_, _, _, h59⟩ := hv
  have hw : wallMinutes s =
      60 * (splitHoursMinutes s.data).1 + (splitHoursMinutes s.data).2 := by
    unfold wallMinutes
    rw [htrim]
  refine ⟨hnorm, ?_, ?_⟩
  · obtain ⟨a1, a2, _⟩ := digitChar_facts (wallMinutes s / 60 / 10) (by omega)
    obtain ⟨b1, b2, _⟩ := digitChar_facts (wallMinutes s / 60 % 10) (by omega)
    obtain ⟨c1, c2, _⟩ := digitChar_facts (wallMinutes s % 60 / 10) (by omega)
    obtain ⟨d1, d2, _⟩ := digitChar_facts (wallMinutes s % 60 % 10) (by omega)
    refine ⟨_, _, _, _, clockString_eq_mk _ (by omega), a1, b1, c1, d1, ?_, ?_⟩
    · rw [a2, b2]
      omega
    · rw [c2, d2]
      omega
  · intro s' hvalid' htrim'
    obtain ⟨_, h21', _, _⟩ := valid_unpadded_facts s' hvalid' htrim'
    refine ⟨clockString_lt_iff _ _ (by omega) (by omega), ?_⟩
    constructor
    · intro heq
      have h1 := parseClock_clockString (wallMinutes s) (by omega)
      have h2 := parseClock_clockString (wallMinutes s') (by omega)
      rw [heq, h2] at h1
      injection h1 with h1
      exact h1.symm
    · intro heq
      rw [heq]

/-- C30, amended, on `9:30`, which `normalizeTime` pads to `09:30`. -/
theorem normalizeTime_canonical_of_unpadded_witness :
    normalizeTime (some "9:30") = Except.ok "09:30" :=
  (normalizeTime_canonical_of_unpadded "9:30" (by decide!) (by decide!)).1.trans (by decide!)

/-! ## The slot calculator and the order of its input -/

theorem slotMinutes_move_front (t : List FormattedBooking) :
    ∀ (c : ℕ) (b : FormattedBooking), c < 1440 →
      t.Pairwise (fun x y => x.startTime ≤ y.startTime) →
      (∀ x ∈ t, x.startTime < x.endTime ∧ x.endTime < 1440) →
      b ∈ t → (∀ x ∈ t, b.startTime ≤ x.startTime) →
      slotMinutes c t = slotMinutes c (b :: t.erase b) := by
  induction t with
  | nil =>
    intro c b _ _ _ hb
    cases hb
  | cons x rest ih =>
    intro c b hc hsorted hvalid hb hmin
    by_cases hxb : x = b
    · subst hxb
      rw [List.erase_cons_head]
    · have hb' : b ∈ rest := by
        rcases List.mem_cons.mp hb with h | h
        · exact absurd h.symm hxb
        · exact h
      obtain ⟨hxall, hrest⟩ := List.pairwise_cons.mp hsorted
      have hxs : x.startTime = b.startTime :=
        le_antisymm (hxall b hb') (hmin x (List.mem_cons_self _ _))
      obtain ⟨hxlt, hxe⟩ := hvalid x (List.mem_cons_self _ _)
      obtain ⟨hblt, hbe⟩ := hvalid b hb
      have hne : ¬ (x == b) = true := by simpa using hxb
      rw [List.erase_cons_tail hne]
      have hih := ih (max c x.endTime) b (max_lt hc hxe) hrest
        (fun y hy => hvalid y (List.mem_cons_of_mem _ hy)) hb'
        (fun y hy => hmin y (List.mem_cons_of_mem _ hy))
      have hno1 : ¬ Offered (max c x.endTime) b.startTime := by
        intro h
        have := offered_imp (max_lt hc hxe) (by omega) h
        have := le_max_right c x.endTime
        omega
      have hno2 : ¬ Offered (max c b.endTime) x.startTime := by
        intro h
        have := offered_imp (max_lt hc hbe) (by omega) h
        have := le_max_right c b.endTime
        omega
      simp only [slotMinutes] at hih ⊢
      have hmax : max (max c x.endTime) b.endTime = max (max c b.endTime) x.endTime := by
        rw [max_assoc, max_comm x.endTime, ← max_assoc]
      rw [hih, if_neg hno1, if_neg hno2, hxs, hmax]

theorem slotMinutes_perm (l2 : List FormattedBooking) :
    ∀ (l1 : List FormattedBooking) (c : ℕ), c < 1440 → l1.Perm l2 →
      l1.Pairwise (fun x y => x.startTime ≤ y.startTime) →
      l2.Pairwise (fun x y => x.startTime ≤ y.startTime) →
      (∀ x ∈ l1, x.startTime < x.endTime ∧ x.endTime < 1440) →
      slotMinutes c l1 = slotMinutes c l2 := by
  induction l2 with
  | nil =>
    intro l1 c _ hperm _ _ _
    rw [hperm.eq_nil]
  | cons b t2 ih =>
    intro l1 c hc hperm hs1 hs2 hvalid
    have hb : b ∈ l1 := hperm.symm.subset (List.mem_cons_self _ _)
    obtain ⟨hball, hs2'⟩ := List.pairwise_cons.mp hs2
    have hmin : ∀ x ∈ l1, b.startTime ≤ x.startTime := by
      intro x hx
      rcases List.mem_cons.mp (hperm.subset hx) with h | h
      · rw [h]
      · exact hball x h
    rw [slotMinutes_move_front l1 c b hc hs1 hvalid hb hmin]
    have hperm' : (l1.erase b).Perm t2 :=
      List.Perm.cons_inv ((List.perm_cons_erase hb).symm.trans hperm)
    have hih := ih (l1.erase b) (max c b.endTime) (max_lt hc (hvalid b hb).2) hperm'
      (hs1.sublist (List.erase_sublist b l1)) hs2'
      (fun x hx => hvalid x (List.mem_of_mem_erase hx))
    simp only [slotMinutes, hih]

theorem formatBookings_perm {l l' : List BookingRow} (hperm : l.Perm l') :
    ∀ fbs, formatBookings l = some fbs →
      ∃ fbs', formatBookings l' = some fbs' ∧ fbs.Perm fbs' := by
  induction hperm with
  | nil =>
    intro fbs h
    exact ⟨fbs, h, List.Perm.refl _⟩
  | @cons x l1 l2 _ ih =>
    intro fbs h
    simp only [formatBookings] at h
    cases hx : formatBooking x with
    | none => simp [hx] at h
    | some fb =>
      cases hl : formatBookings l1 with
      | none => simp [hx, hl] at h
      | some t =>
        obtain ⟨t', ht', hp⟩ := ih t hl
        simp only [hx, hl, Option.some.injEq] at h
        subst h
        exact ⟨fb :: t', by simp only [formatBookings, hx, ht'], hp.cons fb⟩
  | swap x y l =>
    intro fbs h
    simp only [formatBookings] at h
    cases hx : formatBooking x with
    | none =>
      cases hy : formatBooking y <;> simp [hx, hy] at h
    | some fx =>
      cases hy : formatBooking y with
      | none => simp [hy] at h
      | some fy =>
        cases hl : formatBookings l with
        | none => simp [hx, hy, hl] at h
        | some t =>
          simp only [hx, hy, hl, Option.some.injEq] at h
          subst h
          exact ⟨fx :: fy :: t, by simp only [formatBookings, hx, hy, hl],
            List.Perm.swap fx fy t⟩
  | trans _ _ ih1 ih2 =>
    intro fbs h
    obtain ⟨f2, h2, p2⟩ := ih1 fbs h
    obtain ⟨f3, h3, p3⟩ := ih2 f2 h2
    exact ⟨f3, h3, p2.trans p3⟩

/-- C28: for every list of bookings whose times are times of day with the start before the
end (overlapping or not, equal starts allowed) and every permutation of that list,
`calculateAvailableSlots` returns a list of slots and returns the same list for the
permutation. -/
theorem calculateAvailableSlots_perm (bookings permuted : List BookingRow)
    (hperm : permuted.Perm bookings)
    (h : ∀ b ∈ bookings, ∃ s e, HasTimes b s e ∧ s < e) :
    (∃ slots, calculateAvailableSlots bookings = some slots) ∧
      calculateAvailableSlots permuted = calculateAvailableSlots bookings := by
  obtain ⟨fbs, hfbs, hmem⟩ := formatBookings_eq_some bookings (fun b hb => by
    obtain ⟨s, e, ⟨hs, he, _, _⟩, _⟩ := h b hb
    exact ⟨s, e, hs, he⟩)
  obtain ⟨fbs', hfbs', hp⟩ := formatBookings_perm hperm.symm fbs hfbs
  have hvalid : ∀ fb ∈ fbs, fb.startTime < fb.endTime ∧ fb.endTime < 1440 := by
    intro fb hfb
    obtain ⟨b, hb, hfm⟩ := (hmem fb).mp hfb
    obtain ⟨s, e, ⟨hs, he, _, he'⟩, hlt⟩ := h b hb
    obtain ⟨h1, h2⟩ := formatBooking_eq_some hfm
    rw [hs] at h1
    rw [he] at h2
    injection h1 with h1
    injection h2 with h2
    omega
  have hsort := List.perm_insertionSort (fun a b : FormattedBooking => a.startTime ≤ b.startTime) fbs
  have hsort' := List.perm_insertionSort (fun a b : FormattedBooking => a.startTime ≤ b.startTime) fbs'
  have hvalid1 : ∀ fb ∈ fbs.insertionSort (fun a b => a.startTime ≤ b.startTime),
      fb.startTime < fb.endTime ∧ fb.endTime < 1440 :=
    fun fb hfb => hvalid fb (hsort.mem_iff.mp hfb)
  have hvalid2 : ∀ fb ∈ fbs'.insertionSort (fun a b => a.startTime ≤ b.startTime),
      fb.startTime < fb.endTime ∧ fb.endTime < 1440 :=
    fun fb hfb => hvalid fb (hp.mem_iff.mpr (hsort'.mem_iff.mp hfb))
  constructor
  · rw [calculateAvailableSlots, hfbs]
    exact ⟨_, rfl⟩
  · simp only [calculateAvailableSlots, hfbs, hfbs', Option.map_some', businessStart]
    rw [← hoursOf_540, slotsFrom_hoursOf _ 540 (by norm_num) (fun b hb => (hvalid1 b hb).2),
      slotsFrom_hoursOf _ 540 (by norm_num) (fun b hb => (hvalid2 b hb).2),
      slotMinutes_perm _ _ 540 (by norm_num) ((hsort'.trans hp.symm).trans hsort.symm)
        (List.sorted_insertionSort _ _) (List.sorted_insertionSort _ _) hvalid2]

/-- C28 on two bookings that start together at 10:00, in both orders. -/
theorem calculateAvailableSlots_perm_witness :
    (∃ slots, calculateAvailableSlots [confirmedRow "b1" "1" "2025-01-15" "10:00" "11:00",
        confirmedRow "b2" "1" "2025-01-15" "10:00" "10:30"] = some slots) ∧
      calculateAvailableSlots [confirmedRow "b2" "1" "2025-01-15" "10:00" "10:30",
        confirmedRow "b1" "1" "2025-01-15" "10:00" "11:00"] =
      calculateAvailableSlots [confirmedRow "b1" "1" "2025-01-15" "10:00" "11:00",
        confirmedRow "b2" "1" "2025-01-15" "10:00" "10:30"] :=
  calculateAvailableSlots_perm [confirmedRow "b1" "1" "2025-01-15" "10:00" "11:00",
      confirmedRow "b2" "1" "2025-01-15" "10:00" "10:30"]
    [confirmedRow "b2" "1" "2025-01-15" "10:00" "10:30",
      confirmedRow "b1" "1" "2025-01-15" "10:00" "11:00"]
    (List.Perm.swap _ _ _)
    (fun b hb => by
      simp only [List.mem_cons, List.mem_singleton, List.not_mem_nil, or_false] at hb
      rcases hb with rfl | rfl
      · exact ⟨600, 660, ⟨by decide, by decide, by decide, by decide⟩, by decide⟩
      · exact ⟨600, 630, ⟨by decide, by decide, by decide, by decide⟩, by decide⟩)

end Meetify
